import Mathlib

/-!
Shallow embedding of `crates/trivalibs_core/src/geometry/mesh_geometry_3d/mod.rs`.

Modelling conventions:
* Rust `panic!` / failing `unwrap` / out-of-bounds indexing is modelled by
  `Except String`, the `.error` constructor standing for a process abort.
* `Vec3` positions are an abstract type `P` with decidable equality (the code
  only ever compares them bit-exactly through the `HashMap<VertIdx3f, usize>`);
  normals are an abstract type `N`.  The floating-point normal computations
  (`generate_face_normals` body, the sum-and-normalize in
  `calculate_vertex_normal`) are abstracted into uninterpreted functions
  carried by `MeshOps` — every claim below depends only on the `Option`
  structure of normals, never on their numeric values.
* `BTreeMap<usize, _>` is modelled as an association list kept sorted by key
  (`sectLookup` / `setSection`); `HashMap<VertIdx3f, usize>` as an association
  list with first-match lookup (`posLookup`), inserting at the front.
* Byte buffers are modelled at record granularity: one list entry per vertex
  record pushed (payload plus optional normal), one list entry per `u32`
  index written.  The `as u32` casts in the source are kept as `% 2 ^ 32`.
-/

namespace MeshGeo3D

/-- `SectionIndex { section, index }`; the Rust field `section` is called
`sec` here because `section` is a Lean keyword. -/
structure SectionIndex where
  sec : Nat
  index : Nat
deriving DecidableEq, Repr

/-- `Face<V>`: ordered vertex ids, optional explicit normal, optional
override payload. -/
structure Face (N V : Type) where
  vertices : List Nat
  face_normal : Option N
  data : Option V
deriving DecidableEq, Repr

/-- `MeshVertex<V>`: payload, back-reference list, cached vertex normal. -/
structure MeshVertex (N V : Type) where
  data : V
  faces : List SectionIndex
  vertex_normal : Option N
deriving DecidableEq, Repr

/-- The operations the payload/position/normal types provide: `Position3D`,
`OverrideAttributesWith`, and the two floating-point normal computations of
the source, abstracted as uninterpreted functions (their numeric content is
floating-point and outside the embedding; only the option-structure of
normals is relevant to the claims). -/
structure MeshOps (P N V : Type) where
  position : V → P
  override_with : V → V → V
  face_normal_of : P → P → P → Option P → N
  avg_normals : List N → N

/-- `MeshGeometry<V>`: vertex store, per-section face lists (sorted assoc
list for `BTreeMap`), next fresh id, position→id map (`HashMap`). -/
structure MeshGeometry (P N V : Type) where
  vertices : List (MeshVertex N V)
  faces : List (Nat × List (Face N V))
  next_index : Nat
  vertex_indices : List (P × Nat)
deriving DecidableEq, Repr

/-- `MeshBufferType`. -/
inductive MeshBufferType where
  | NoNormals
  | VertexNormals
  | VertexNormalFaceData
  | FaceNormals
deriving DecidableEq, Repr

/-- `FaceDataProps<V>`: optional explicit normal, override payload, target
section (Rust field `section`, renamed `sec`). -/
structure FaceDataProps (N V : Type) where
  normal : Option N
  data : Option V
  sec : Option Nat
deriving DecidableEq, Repr

/-- `FaceDataProps::default()`. -/
def FaceDataProps.default (N V : Type) : FaceDataProps N V :=
  { normal := none, data := none, sec := none }

/-- Lookup in a `BTreeMap<usize, α>` modelled as an assoc list. -/
def sectLookup {α : Type} : List (Nat × α) → Nat → Option α
  | [], _ => none
  | (k, v) :: rest, s => if s = k then some v else sectLookup rest s

/-- Insert-or-replace in a `BTreeMap<usize, α>` modelled as a sorted assoc
list (keeps keys strictly increasing when they were). -/
def setSection {α : Type} : List (Nat × α) → Nat → α → List (Nat × α)
  | [], k, v => [(k, v)]
  | (k', v') :: rest, k, v =>
    if k = k' then (k, v) :: rest
    else if k < k' then (k, v) :: (k', v') :: rest
    else (k', v') :: setSection rest k v

/-- Lookup in the `HashMap<VertIdx3f, usize>` position index. -/
def posLookup {P : Type} [DecidableEq P] : List (P × Nat) → P → Option Nat
  | [], _ => none
  | (q, i) :: rest, p => if p = q then some i else posLookup rest p

/-- `Vec::swap_remove`: returns the removed element and the shrunk list;
errors (panics) when the index is out of bounds. -/
def swapRemove {α : Type} (l : List α) (i : Nat) : Except String (α × List α) :=
  match l[i]?, l.getLast? with
  | some x, some last => .ok (x, (l.set i last).dropLast)
  | _, _ => .error "swap_remove index out of bounds"

section Ops

variable {P N V : Type} [DecidableEq P]

/-- `Face::face3`: panics unless the three ids are pairwise distinct. -/
def Face.face3 (v1_idx v2_idx v3_idx : Nat) (normal : Option N) (data : Option V) :
    Except String (Face N V) :=
  if v1_idx = v2_idx ∨ v1_idx = v3_idx ∨ v2_idx = v3_idx then
    .error "Face must have 3 unique vertices"
  else
    .ok { vertices := [v1_idx, v2_idx, v3_idx], face_normal := normal, data := data }

/-- `Face::face4`: panics unless the four ids are pairwise distinct. -/
def Face.face4 (v1_idx v2_idx v3_idx v4_idx : Nat) (normal : Option N) (data : Option V) :
    Except String (Face N V) :=
  if v1_idx = v2_idx ∨ v1_idx = v3_idx ∨ v1_idx = v4_idx
      ∨ v2_idx = v3_idx ∨ v2_idx = v4_idx ∨ v3_idx = v4_idx then
    .error "Face must have 4 unique vertices"
  else
    .ok { vertices := [v1_idx, v2_idx, v3_idx, v4_idx], face_normal := normal, data := data }

/-- `MeshGeometry::new()`. -/
def MeshGeometry.new (P N V : Type) : MeshGeometry P N V :=
  { vertices := [], faces := [], next_index := 0, vertex_indices := [] }

/-- `MeshGeometry::get_vertex_index`: dedup on exact position equality,
assigning `next_index` to unseen positions. -/
def MeshGeometry.get_vertex_index (g : MeshGeometry P N V) (pos : P) :
    Nat × MeshGeometry P N V :=
  match posLookup g.vertex_indices pos with
  | some idx => (idx, g)
  | none =>
    let idx := g.next_index
    (idx, { g with vertex_indices := (pos, idx) :: g.vertex_indices,
                   next_index := idx + 1 })

/-- `MeshGeometry::add_vertex_face`: pushes a back-reference; panics when the
vertex id is out of bounds. -/
def add_vertex_face (vertices : List (MeshVertex N V)) (vertex_idx : Nat)
    (face_idx : SectionIndex) : Except String (List (MeshVertex N V)) :=
  match vertices[vertex_idx]? with
  | none => .error "add_vertex_face index out of bounds"
  | some v => .ok (vertices.set vertex_idx { v with faces := v.faces ++ [face_idx] })

/-- `MeshGeometry::add_vertex`: overwrite payload of an existing vertex or
push a new one, then register the back-reference. -/
def MeshGeometry.add_vertex (g : MeshGeometry P N V) (vertex_idx : Nat)
    (face_idx : SectionIndex) (data : V) : Except String (MeshGeometry P N V) :=
  let vertices :=
    match g.vertices[vertex_idx]? with
    | some v => g.vertices.set vertex_idx { v with data := data }
    | none => g.vertices ++ [{ data := data, faces := [], vertex_normal := none }]
  (add_vertex_face vertices vertex_idx face_idx).map
    fun vs => { g with vertices := vs }

variable (ops : MeshOps P N V)

/-- `MeshGeometry::add_face3_data`. -/
def MeshGeometry.add_face3_data (g : MeshGeometry P N V) (v1 v2 v3 : V)
    (data : FaceDataProps N V) : Except String (MeshGeometry P N V) := do
  let (v1_idx, g) := g.get_vertex_index (ops.position v1)
  let (v2_idx, g) := g.get_vertex_index (ops.position v2)
  let (v3_idx, g) := g.get_vertex_index (ops.position v3)
  let sec := data.sec.getD 0
  let fs := (sectLookup g.faces sec).getD []
  let face_idx : SectionIndex := { sec := sec, index := fs.length }
  let face ← Face.face3 v1_idx v2_idx v3_idx data.normal data.data
  let g := { g with faces := setSection g.faces sec (fs ++ [face]) }
  let g ← g.add_vertex v1_idx face_idx v1
  let g ← g.add_vertex v2_idx face_idx v2
  g.add_vertex v3_idx face_idx v3

/-- `MeshGeometry::add_face4_data`. -/
def MeshGeometry.add_face4_data (g : MeshGeometry P N V) (v1 v2 v3 v4 : V)
    (data : FaceDataProps N V) : Except String (MeshGeometry P N V) := do
  let (v1_idx, g) := g.get_vertex_index (ops.position v1)
  let (v2_idx, g) := g.get_vertex_index (ops.position v2)
  let (v3_idx, g) := g.get_vertex_index (ops.position v3)
  let (v4_idx, g) := g.get_vertex_index (ops.position v4)
  let sec := data.sec.getD 0
  let fs := (sectLookup g.faces sec).getD []
  let face_idx : SectionIndex := { sec := sec, index := fs.length }
  let face ← Face.face4 v1_idx v2_idx v3_idx v4_idx data.normal data.data
  let g := { g with faces := setSection g.faces sec (fs ++ [face]) }
  let g ← g.add_vertex v1_idx face_idx v1
  let g ← g.add_vertex v2_idx face_idx v2
  let g ← g.add_vertex v3_idx face_idx v3
  g.add_vertex v4_idx face_idx v4

/-- `MeshGeometry::add_face3` (default props). -/
def MeshGeometry.add_face3 (g : MeshGeometry P N V) (v1 v2 v3 : V) :
    Except String (MeshGeometry P N V) :=
  g.add_face3_data ops v1 v2 v3 (FaceDataProps.default N V)

/-- `MeshGeometry::add_face4` (default props). -/
def MeshGeometry.add_face4 (g : MeshGeometry P N V) (v1 v2 v3 v4 : V) :
    Except String (MeshGeometry P N V) :=
  g.add_face4_data ops v1 v2 v3 v4 (FaceDataProps.default N V)

/-- `MeshGeometry::remove_face_internal`: swap-remove the face, strip its
`SectionIndex` from its vertices' back-reference lists, then patch every
vertex of the face moved into the vacated slot (first occurrence of the old
last index, `unwrap` panicking when absent). -/
def remove_face_internal (faces : List (Face N V)) (vertices : List (MeshVertex N V))
    (face_idx : SectionIndex) :
    Except String (List (Face N V) × List (MeshVertex N V)) := do
  let (face, faces) ← swapRemove faces face_idx.index
  let vertices ← face.vertices.foldlM (fun vs i => do
      match vs[i]? with
      | none => .error "vertex index out of bounds"
      | some vert =>
          .ok (vs.set i { vert with faces := vert.faces.filter (fun j => j ≠ face_idx) }))
    vertices
  let len := faces.length
  if face_idx.index = len then
    .ok (faces, vertices)
  else do
    match faces[face_idx.index]? with
    | none => .error "vertex index out of bounds"
    | some new_face =>
        let vertices ← new_face.vertices.foldlM (fun vs v => do
            match vs[v]? with
            | none => .error "vertex index out of bounds"
            | some vert =>
                match vert.faces.findIdx? (fun i =>
                    i = { index := len, sec := face_idx.sec }) with
                | none => .error "called Option unwrap on a none value"
                | some v_f_idx =>
                    .ok (vs.set v { vert with faces := vert.faces.set v_f_idx face_idx }))
          vertices
        .ok (faces, vertices)

/-- `MeshGeometry::remove_face` (the `.get_mut(...).unwrap()` on a missing
section panics). -/
def MeshGeometry.remove_face (g : MeshGeometry P N V) (face_idx : SectionIndex) :
    Except String (MeshGeometry P N V) := do
  match sectLookup g.faces face_idx.sec with
  | none => .error "called Option unwrap on a none value"
  | some fs =>
      let (fs, vertices) ← remove_face_internal fs g.vertices face_idx
      .ok { g with faces := setSection g.faces face_idx.sec fs, vertices := vertices }

/-- One step of the quad loop in `MeshGeometry::triangulate`: remove the quad
at its recorded index, then append the two triangles `(v0,v1,v2)` and
`(v0,v2,v3)`, registering back-references. -/
def triangulateQuad (sec : Nat)
    (st : List (Face N V) × List (MeshVertex N V))
    (q : Nat × List Nat × Option N × Option V) :
    Except String (List (Face N V) × List (MeshVertex N V)) := do
  let (i, verts, normal, data) := q
  let (faces, vertices) := st
  let (faces, vertices) ← remove_face_internal faces vertices { sec := sec, index := i }
  let v0 ← match verts[0]? with
           | some v => .ok v
           | none => .error "quad vertex index out of bounds"
  let v1 ← match verts[1]? with
           | some v => .ok v
           | none => .error "quad vertex index out of bounds"
  let v2 ← match verts[2]? with
           | some v => .ok v
           | none => .error "quad vertex index out of bounds"
  let v3 ← match verts[3]? with
           | some v => .ok v
           | none => .error "quad vertex index out of bounds"
  let face_idx1 : SectionIndex := { sec := sec, index := faces.length }
  let f1 ← Face.face3 v0 v1 v2 normal data
  let faces := faces ++ [f1]
  let vertices ← add_vertex_face vertices v0 face_idx1
  let vertices ← add_vertex_face vertices v1 face_idx1
  let vertices ← add_vertex_face vertices v2 face_idx1
  let face_idx2 : SectionIndex := { sec := sec, index := faces.length }
  let f2 ← Face.face3 v0 v2 v3 normal data
  let faces := faces ++ [f2]
  let vertices ← add_vertex_face vertices v0 face_idx2
  let vertices ← add_vertex_face vertices v2 face_idx2
  let vertices ← add_vertex_face vertices v3 face_idx2
  .ok (faces, vertices)

/-- The per-section body of `MeshGeometry::triangulate`: collect the quads
(with cloned vertex lists) in reverse index order and process each. -/
def triangulateSection (sec : Nat) (faces : List (Face N V))
    (vertices : List (MeshVertex N V)) :
    Except String (List (Face N V) × List (MeshVertex N V)) :=
  let quads := ((faces.enum.filter (fun p => p.2.vertices.length = 4)).map
      (fun p => (p.1, p.2.vertices, p.2.face_normal, p.2.data))).reverse
  quads.foldlM (triangulateQuad sec) (faces, vertices)

/-- `MeshGeometry::triangulate`: iterate the sections in `BTreeMap` key
order, rebuilding each face list. -/
def MeshGeometry.triangulate (g : MeshGeometry P N V) :
    Except String (MeshGeometry P N V) := do
  let (m, vs) ← g.faces.foldlM
    (fun (acc : List (Nat × List (Face N V)) × List (MeshVertex N V)) kv => do
      let (fs, vertices) ← triangulateSection kv.1 kv.2 acc.2
      .ok (acc.1 ++ [(kv.1, fs)], vertices))
    ([], g.vertices)
  .ok { g with faces := m, vertices := vs }

/-- `MeshVertex::section_faces`: the face indices of this vertex's
back-references that live in the given section. -/
def MeshVertex.section_faces (v : MeshVertex N V) (sec : Nat) : List Nat :=
  (v.faces.filter (fun si => si.sec = sec)).map (fun si => si.index)

/-- Body of `MeshGeometry::generate_face_normals` for one face: faces with an
explicit normal are kept; otherwise the positions of vertices `0`, `1`, `2`
(and, for quads, vertex `3`, read by the degenerate-edge fallback) are fed to
the abstracted floating-point computation `ops.face_normal_of`.  Failing
vertex lookups model the source's panicking index expressions. -/
def genFaceNormal (vertices : List (MeshVertex N V)) (face : Face N V) :
    Except String (Face N V) :=
  match face.face_normal with
  | some _ => .ok face
  | none => do
    let i0 ← match face.vertices[0]? with
             | some i => .ok i
             | none => .error "face vertex index out of bounds"
    let i1 ← match face.vertices[1]? with
             | some i => .ok i
             | none => .error "face vertex index out of bounds"
    let i2 ← match face.vertices[2]? with
             | some i => .ok i
             | none => .error "face vertex index out of bounds"
    let p0 ← match vertices[i0]? with
             | some v => .ok (ops.position v.data)
             | none => .error "vertex index out of bounds"
    let p1 ← match vertices[i1]? with
             | some v => .ok (ops.position v.data)
             | none => .error "vertex index out of bounds"
    let p2 ← match vertices[i2]? with
             | some v => .ok (ops.position v.data)
             | none => .error "vertex index out of bounds"
    let p3 ← if 3 < face.vertices.length then do
               let i3 ← match face.vertices[3]? with
                        | some i => .ok i
                        | none => .error "face vertex index out of bounds"
               match vertices[i3]? with
               | some v => .ok (some (ops.position v.data))
               | none => .error "vertex index out of bounds"
             else
               .ok none
    .ok { face with face_normal := some (ops.face_normal_of p0 p1 p2 p3) }

/-- `MeshGeometry::generate_face_normals`. -/
def MeshGeometry.generate_face_normals (g : MeshGeometry P N V) :
    Except String (MeshGeometry P N V) := do
  let m ← g.faces.mapM (fun kv => do
    let fs ← kv.2.mapM (genFaceNormal ops g.vertices)
    .ok (kv.1, fs))
  .ok { g with faces := m }

/-- `MeshGeometry::calculate_vertex_normal`: unwraps each referenced face's
normal (a missing face or a `None` normal panics) and feeds them to the
abstracted sum-and-normalize. -/
def calculate_vertex_normal (faces : List (Face N V)) (face_indices : List Nat) :
    Except String N := do
  let ns ← face_indices.mapM (fun face_idx => do
    match faces[face_idx]? with
    | none => .error "face index out of bounds"
    | some face =>
        match face.face_normal with
        | none => .error "called Option unwrap on a none value"
        | some n => .ok n)
  .ok (ops.avg_normals ns)

/-- The emission bundle.  Modelled from the spec: `RenderableBuffer` itself
(`{raw vertex bytes, optional raw index bytes, vertex count, index count}`)
is declared outside the sources provided; byte buffers are modelled at
record granularity (one entry per vertex record / per `u32` index written),
`vertex_count` counts the `vertex_count += 1` increments. -/
structure RenderableBuffer (N V : Type) where
  vertex_buffer : List (V × Option N)
  index_buffer : Option (List Nat)
  vertex_count : Nat
  index_count : Nat
deriving DecidableEq, Repr

/-- The closing `RenderableBuffer { .. }` expression of
`to_renderable_buffer_by_type`: the index buffer is `None` exactly when no
index bytes were written, `index_count` is the byte length divided by four
and cast to `u32`. -/
def mkBuffer (buffer : List (V × Option N)) (indices : List Nat) :
    RenderableBuffer N V :=
  let indices_len := indices.length * 4
  { vertex_buffer := buffer,
    index_buffer := if indices_len = 0 then none else some indices,
    vertex_count := buffer.length,
    index_count := (indices_len / 4) % 2 ^ 32 }

/-- The state threaded through the double loop of the `VertexNormals` branch
that fills `section_vertices` (per section, the vertex ids pushed) and
`section_vert_indices` (per vertex, per section, the last local index). -/
def vnScanStep
    (acc : List (Nat × List Nat) × List (Nat × List (Nat × Nat)))
    (i : Nat) (face_idx : SectionIndex) :
    List (Nat × List Nat) × List (Nat × List (Nat × Nat)) :=
  let sec := face_idx.sec
  let sv := (sectLookup acc.1 sec).getD []
  let svi := (sectLookup acc.2 i).getD []
  let index := sv.length
  (setSection acc.1 sec (sv ++ [i]),
   setSection acc.2 i (setSection svi sec index))

/-- The whole scan: for each vertex (in id order), for each of its
back-references, one `vnScanStep`. -/
def vnScan (vertices : List (MeshVertex N V)) :
    List (Nat × List Nat) × List (Nat × List (Nat × Nat)) :=
  vertices.enum.foldl
    (fun acc p => p.2.faces.foldl (fun a fi => vnScanStep a p.1 fi) acc)
    ([], [])

/-- Per-section emission of the `VertexNormals` branch: the vertex records of
the section (payload plus per-section averaged normal), then the index
entries of the section's faces (section-local index plus running offset,
truncated to `u32`), then the offset bump. -/
def vnEmitSection (g : MeshGeometry P N V)
    (section_vertices : List (Nat × List Nat))
    (section_vert_indices : List (Nat × List (Nat × Nat)))
    (acc : List (V × Option N) × List Nat × Nat)
    (kv : Nat × List (Face N V)) :
    Except String (List (V × Option N) × List Nat × Nat) := do
  let (buffer, indices, idx_offset) := acc
  let (sec, faces) := kv
  let sv ← match sectLookup section_vertices sec with
           | some l => .ok l
           | none => .error "called Option unwrap on a none value"
  let buffer ← sv.foldlM (fun buf v_idx => do
      match g.vertices[v_idx]? with
      | none => .error "vertex index out of bounds"
      | some vertex => do
          let normal ← calculate_vertex_normal ops faces (vertex.section_faces sec)
          .ok (buf ++ [(vertex.data, some normal)]))
    buffer
  let indices ← faces.foldlM (fun ind face =>
      face.vertices.foldlM (fun ind v => do
        let svi ← match sectLookup section_vert_indices v with
                  | some l => .ok l
                  | none => .error "called Option unwrap on a none value"
        let section_idx ← match sectLookup svi sec with
                          | some j => .ok j
                          | none => .error "called Option unwrap on a none value"
        .ok (ind ++ [(section_idx + idx_offset) % 2 ^ 32])) ind)
    indices
  .ok (buffer, indices, idx_offset + sv.length)

/-- `MeshGeometry::to_renderable_buffer_by_type`.  Returns the mutated
geometry together with the bundle; `.error` models a panic. -/
def MeshGeometry.to_renderable_buffer_by_type (g : MeshGeometry P N V)
    (geom_type : MeshBufferType) :
    Except String (MeshGeometry P N V × RenderableBuffer N V) := do
  match geom_type with
  | .NoNormals => do
      let g ← g.triangulate
      let buffer : List (V × Option N) :=
        g.vertices.map (fun vertex => (vertex.data, none))
      let indices : List Nat :=
        g.faces.flatMap (fun kv =>
          kv.2.flatMap (fun face => face.vertices.map (fun v => v % 2 ^ 32)))
      .ok (g, mkBuffer buffer indices)
  | .VertexNormals => do
      let g ← g.generate_face_normals ops
      let g ← g.triangulate
      let (section_vertices, section_vert_indices) := vnScan g.vertices
      let (buffer, indices, _) ← g.faces.foldlM
        (vnEmitSection ops g section_vertices section_vert_indices) ([], [], 0)
      .ok (g, mkBuffer buffer indices)
  | .VertexNormalFaceData => do
      let g ← g.generate_face_normals ops
      let g ← g.triangulate
      let buffer ← g.faces.foldlM (fun buf kv =>
          kv.2.foldlM (fun buf face =>
            face.vertices.foldlM (fun buf v => do
              match g.vertices[v]? with
              | none => .error "vertex index out of bounds"
              | some vertex => do
                  let normal ←
                    calculate_vertex_normal ops kv.2 (vertex.section_faces kv.1)
                  let data := match face.data with
                              | some d => ops.override_with vertex.data d
                              | none => vertex.data
                  .ok (buf ++ [(data, some normal)])) buf) buf)
        ([] : List (V × Option N))
      .ok (g, mkBuffer buffer [])
  | .FaceNormals => do
      let g ← g.generate_face_normals ops
      let g ← g.triangulate
      let buffer ← g.faces.foldlM (fun buf kv =>
          kv.2.foldlM (fun buf face => do
            let normal ← match face.face_normal with
                         | none => .error "called Option unwrap on a none value"
                         | some n => .ok n
            face.vertices.foldlM (fun buf v => do
              match g.vertices[v]? with
              | none => .error "vertex index out of bounds"
              | some vertex =>
                  let data := match face.data with
                              | some d => ops.override_with vertex.data d
                              | none => vertex.data
                  .ok (buf ++ [(data, some normal)])) buf) buf)
        ([] : List (V × Option N))
      .ok (g, mkBuffer buffer [])

/-- Helper for reasoning about the add path (not itself source code): resolve
the positions of a payload list left to right, as the `get_vertex_index`
calls at the top of `add_face3_data`/`add_face4_data` do. -/
def resolveAll (ops : MeshOps P N V) (g : MeshGeometry P N V) :
    List V → List Nat × MeshGeometry P N V
  | [] => ([], g)
  | v :: vs =>
    let (i, g1) := g.get_vertex_index (ops.position v)
    let (is, g2) := resolveAll ops g1 vs
    (i :: is, g2)

/-- Helper: the trailing `add_vertex` calls of
`add_face3_data`/`add_face4_data`, one per (resolved id, payload) pair. -/
def addVertices (g : MeshGeometry P N V) (pairs : List (Nat × V))
    (face_idx : SectionIndex) : Except String (MeshGeometry P N V) :=
  pairs.foldlM (fun g p => g.add_vertex p.1 face_idx p.2) g

/-- Pairwise distinctness of resolved ids (the face3/face4 validity check). -/
def pairwiseNe (l : List Nat) : Prop := l.Pairwise (fun a b => a ≠ b)

instance (l : List Nat) : Decidable (pairwiseNe l) :=
  inferInstanceAs (Decidable (l.Pairwise _))

/-- Helper: the state after the new face (with the given resolved ids) has
been pushed onto its target section's list. -/
def addFacePushed (g1 : MeshGeometry P N V) (ids : List Nat)
    (d : FaceDataProps N V) : MeshGeometry P N V :=
  let sec := d.sec.getD 0
  let fs := (sectLookup g1.faces sec).getD []
  let newFs := fs ++ [{ vertices := ids, face_normal := d.normal, data := d.data }]
  { g1 with faces := setSection g1.faces sec newFs }

/-- Helper: the `SectionIndex` handed to the `add_vertex` calls. -/
def addFaceIdx (g1 : MeshGeometry P N V) (d : FaceDataProps N V) : SectionIndex :=
  { sec := d.sec.getD 0,
    index := ((sectLookup g1.faces (d.sec.getD 0)).getD []).length }

/-- Helper: the common body of `add_face3_data` and `add_face4_data` for a
payload list: resolve, build the face (panicking on a repeated id with the
arity's message), append it to the target section, then run the
`add_vertex` calls. -/
def addFaceN (ops : MeshOps P N V) (g : MeshGeometry P N V) (vs : List V)
    (msg : String) (d : FaceDataProps N V) : Except String (MeshGeometry P N V) :=
  let (ids, g1) := resolveAll ops g vs
  if pairwiseNe ids then
    addVertices (addFacePushed g1 ids d) (ids.zip vs) (addFaceIdx g1 d)
  else .error msg

/-- Fresh-id discipline of a resolved id list: read left to right, each id is
either already allocated (below the running watermark) or is exactly the
watermark, bumping it; `L'` is the final watermark. -/
def goodIds (L : Nat) : List Nat → Nat → Prop
  | [], L' => L' = L
  | i :: is, L' => (i < L ∧ goodIds L is L') ∨ (i = L ∧ goodIds (L + 1) is L')

/-- Decidable helper: the option is `some a` and `p a` holds. -/
def optHolds {α : Type} (o : Option α) (p : α → Prop) : Prop :=
  match o with
  | none => False
  | some a => p a

instance {α : Type} (o : Option α) (p : α → Prop) [DecidablePred p] :
    Decidable (optHolds o p) :=
  match o with
  | none => isFalse (fun h => h)
  | some a => decidable_of_iff (p a) Iff.rfl

/-- The face stored at a `SectionIndex`, when the section and the slot exist. -/
def faceAt (g : MeshGeometry P N V) (s : SectionIndex) : Option (Face N V) :=
  (sectLookup g.faces s.sec).bind (fun fs => fs[s.index]?)

/-- The bidirectional-consistency invariant of the spec: every back-reference
resolves to an existing face listing the vertex's id, and every vertex id of
every stored face carries that face's `SectionIndex` exactly once in its
back-reference list. -/
def Inv (g : MeshGeometry P N V) : Prop :=
  (∀ p ∈ g.vertices.enum, ∀ s ∈ p.2.faces,
     optHolds (faceAt g s) (fun f => p.1 ∈ f.vertices)) ∧
  (∀ kv ∈ g.faces, ∀ q ∈ kv.2.enum, ∀ vid ∈ q.2.vertices,
     optHolds g.vertices[vid]?
       (fun v => v.faces.count { sec := kv.1, index := q.1 } = 1))

instance (g : MeshGeometry P N V) : Decidable (Inv g) := by
  unfold Inv
  infer_instance

/-- Structural well-formedness of a reachable `MeshGeometry`: the fresh-id
counter tracks the vertex store, the dedup map is bounded, injective-domain
and counts one entry per id, section keys are strictly sorted (`BTreeMap`),
every stored face has 3 or 4 pairwise-distinct vertex ids, and the
bidirectional invariant holds. -/
structure WF (g : MeshGeometry P N V) : Prop where
  next_eq : g.next_index = g.vertices.length
  idx_lt : ∀ p ∈ g.vertex_indices, p.2 < g.next_index
  keys_nodup : (g.vertex_indices.map Prod.fst).Nodup
  idx_len : g.vertex_indices.length = g.next_index
  sec_sorted : g.faces.Pairwise (fun a b => a.1 < b.1)
  faces_wf : ∀ kv ∈ g.faces, ∀ f ∈ kv.2,
    f.vertices.Nodup ∧ (f.vertices.length = 3 ∨ f.vertices.length = 4)
  inv : Inv g

/-- The public mutating operations of the claims: face additions with
arbitrary props (covering `add_face3`/`add_face4`/`*_data`), `remove_face`,
and `triangulate` (also the triangulation performed during emission). -/
inductive Op (N V : Type) where
  | addFace3 (v1 v2 v3 : V) (d : FaceDataProps N V)
  | addFace4 (v1 v2 v3 v4 : V) (d : FaceDataProps N V)
  | removeFace (fi : SectionIndex)
  | triangulateOp

/-- Apply one public operation. -/
def applyOp (ops : MeshOps P N V) (g : MeshGeometry P N V) :
    Op N V → Except String (MeshGeometry P N V)
  | .addFace3 v1 v2 v3 d => g.add_face3_data ops v1 v2 v3 d
  | .addFace4 v1 v2 v3 v4 d => g.add_face4_data ops v1 v2 v3 v4 d
  | .removeFace fi => g.remove_face fi
  | .triangulateOp => g.triangulate

/-- Run a sequence of public operations (an operation that panics aborts the
whole run). -/
def runOps (ops : MeshOps P N V) : List (Op N V) → MeshGeometry P N V →
    Except String (MeshGeometry P N V)
  | [], g => .ok g
  | op :: rest, g => do
      let g ← applyOp ops g op
      runOps ops rest g

/-- Total number of stored faces, across all sections. -/
def facesTotal (g : MeshGeometry P N V) : Nat :=
  (g.faces.map (fun kv => kv.2.length)).sum

/-- Total number of stored quads, across all sections. -/
def quadsTotal (g : MeshGeometry P N V) : Nat :=
  (g.faces.map (fun kv =>
    (kv.2.filter (fun f => f.vertices.length = 4)).length)).sum

/-- A face-addition call as in claim C7: `add_face3` or `add_face4`. -/
inductive FaceCall (V : Type) where
  | f3 (v1 v2 v3 : V)
  | f4 (v1 v2 v3 v4 : V)

/-- Triangle-equivalent count of one call: triangles count 1, quads count 2. -/
def FaceCall.triEquiv {V : Type} : FaceCall V → Nat
  | .f3 _ _ _ => 1
  | .f4 _ _ _ _ => 2

/-- The payloads supplied by one call. -/
def FaceCall.payloads {V : Type} : FaceCall V → List V
  | .f3 a b c => [a, b, c]
  | .f4 a b c d => [a, b, c, d]

/-- Run a sequence of `add_face3`/`add_face4` calls. -/
def runCalls (ops : MeshOps P N V) : List (FaceCall V) → MeshGeometry P N V →
    Except String (MeshGeometry P N V)
  | [], g => .ok g
  | c :: cs, g => do
      let g ← match c with
              | .f3 a b c => g.add_face3 ops a b c
              | .f4 a b c d => g.add_face4 ops a b c d
      runCalls ops cs g

/-- The payload positions supplied by a sequence of face calls, in call
order. -/
def callPositions (ops : MeshOps P N V) : List (FaceCall V) → List P
  | [] => []
  | c :: cs => c.payloads.map ops.position ++ callPositions ops cs

/-- Triangle-equivalent total of a call sequence. -/
def trisTotal {V : Type} (cs : List (FaceCall V)) : Nat :=
  (cs.map FaceCall.triEquiv).sum

/-- Whether a face call is an `add_face4`. -/
def FaceCall.isQuad {V : Type} : FaceCall V → Bool
  | .f4 _ _ _ _ => true
  | .f3 _ _ _ => false

end Ops

/-- Concrete instantiation used for witnesses and counterexamples: positions
are integer triples (standing in for the bit patterns of `Vec3`, compared
bit-exactly), the payload is just its position, and normals are collapsed to
`Unit` (their numeric values are irrelevant to every statement below). -/
def demoOps : MeshOps (Nat × Nat × Nat) Unit (Nat × Nat × Nat) :=
  { position := id, override_with := fun _ b => b,
    face_normal_of := fun _ _ _ _ => (), avg_normals := fun _ => () }

/-- A concrete triangle call list for witnesses. -/
def demoCallsTri : List (FaceCall (Nat × Nat × Nat)) :=
  [.f3 (0, 0, 0) (1, 0, 0) (0, 1, 0)]

/-- The mesh the triangle call list builds. -/
def demoTri : MeshGeometry (Nat × Nat × Nat) Unit (Nat × Nat × Nat) :=
  (runCalls demoOps demoCallsTri
    (MeshGeometry.new (Nat × Nat × Nat) Unit (Nat × Nat × Nat))).toOption.getD
    (MeshGeometry.new (Nat × Nat × Nat) Unit (Nat × Nat × Nat))

/-- A concrete single-quad mesh for witnesses. -/
def demoQuad : MeshGeometry (Nat × Nat × Nat) Unit (Nat × Nat × Nat) :=
  ((MeshGeometry.new (Nat × Nat × Nat) Unit (Nat × Nat × Nat)).add_face4 demoOps
    (0, 0, 0) (1, 0, 0) (1, 1, 0) (0, 1, 0)).toOption.getD
    (MeshGeometry.new (Nat × Nat × Nat) Unit (Nat × Nat × Nat))

/-- A concrete public-operation list for the invariant witness. -/
def demoOpList : List (Op Unit (Nat × Nat × Nat)) :=
  [.addFace4 (0, 0, 0) (1, 0, 0) (1, 1, 0) (0, 1, 0)
     (FaceDataProps.default Unit (Nat × Nat × Nat)),
   .addFace3 (0, 0, 0) (1, 0, 0) (5, 5, 5)
     (FaceDataProps.default Unit (Nat × Nat × Nat)),
   .triangulateOp,
   .removeFace { sec := 0, index := 1 }]

/-- The mesh the operation list builds. -/
def demoRunMesh : MeshGeometry (Nat × Nat × Nat) Unit (Nat × Nat × Nat) :=
  (runOps demoOps demoOpList
    (MeshGeometry.new (Nat × Nat × Nat) Unit (Nat × Nat × Nat))).toOption.getD
    (MeshGeometry.new (Nat × Nat × Nat) Unit (Nat × Nat × Nat))

section Lemmas

variable {P N V : Type} [DecidableEq P]

theorem posLookup_mem {l : List (P × Nat)} {p : P} {i : Nat}
    (h : posLookup l p = some i) : (p, i) ∈ l := by
  induction l with
  | nil => cases h
  | cons q rest ih =>
      obtain ⟨qp, qi⟩ := q
      by_cases hq : p = qp
      · subst hq
        simp [posLookup] at h
        subst h; exact List.mem_cons_self _ _
      · simp only [posLookup, if_neg hq] at h
        exact List.mem_cons_of_mem _ (ih h)

theorem posLookup_eq_none {l : List (P × Nat)} {p : P} :
    posLookup l p = none ↔ p ∉ l.map Prod.fst := by
  induction l with
  | nil => simp [posLookup]
  | cons q rest ih =>
      obtain ⟨qp, qi⟩ := q
      by_cases hq : p = qp
      · subst hq; simp [posLookup]
      · simp [posLookup, hq, ih]

theorem posLookup_isSome_iff {l : List (P × Nat)} {p : P} :
    (posLookup l p).isSome = true ↔ p ∈ l.map Prod.fst := by
  rcases h : posLookup l p with _ | i
  · simp [posLookup_eq_none.1 h]
  · simp only [Option.isSome_some, true_iff]
    exact List.mem_map_of_mem _ (posLookup_mem h)

theorem sectLookup_setSection_self {α : Type} (m : List (Nat × α)) (k : Nat) (v : α) :
    sectLookup (setSection m k v) k = some v := by
  induction m with
  | nil => simp [setSection, sectLookup]
  | cons q rest ih =>
      obtain ⟨qk, qv⟩ := q
      by_cases hq : k = qk
      · subst hq; simp [setSection, sectLookup]
      · rcases Nat.lt_or_ge k qk with hlt | hge
        · simp [setSection, hq, hlt, sectLookup]
        · have : ¬ k < qk := Nat.not_lt.2 hge
          simp [setSection, hq, this, sectLookup, ih]

theorem sectLookup_setSection_ne {α : Type} (m : List (Nat × α)) (k k' : Nat) (v : α)
    (h : k' ≠ k) : sectLookup (setSection m k v) k' = sectLookup m k' := by
  induction m with
  | nil => simp [setSection, sectLookup, h]
  | cons q rest ih =>
      obtain ⟨qk, qv⟩ := q
      by_cases hq : k = qk
      · subst hq; simp [setSection, sectLookup, h]
      · rcases Nat.lt_or_ge k qk with hlt | hge
        · simp [setSection, hq, hlt, sectLookup, h]
        · have hnlt : ¬ k < qk := Nat.not_lt.2 hge
          by_cases hk' : k' = qk
          · subst hk'; simp [setSection, hq, hnlt, sectLookup]
          · simp [setSection, hq, hnlt, sectLookup, hk', ih]

theorem mem_setSection {α : Type} {m : List (Nat × α)} {k : Nat} {v : α} {kv : Nat × α}
    (h : kv ∈ setSection m k v) : kv = (k, v) ∨ kv ∈ m := by
  induction m with
  | nil => simpa [setSection] using h
  | cons q rest ih =>
      obtain ⟨qk, qv⟩ := q
      by_cases hq : k = qk
      · subst hq
        simp only [setSection, if_pos rfl] at h
        rcases List.mem_cons.1 h with h | h
        · exact Or.inl h
        · exact Or.inr (List.mem_cons_of_mem _ h)
      · rcases Nat.lt_or_ge k qk with hlt | hge
        · simp only [setSection, if_neg hq, if_pos hlt] at h
          rcases List.mem_cons.1 h with h | h
          · exact Or.inl h
          · exact Or.inr h
        · have hnlt : ¬ k < qk := Nat.not_lt.2 hge
          simp only [setSection, if_neg hq, if_neg hnlt] at h
          rcases List.mem_cons.1 h with h | h
          · exact Or.inr (by simp [h])
          · rcases ih h with h | h
            · exact Or.inl h
            · exact Or.inr (List.mem_cons_of_mem _ h)

theorem setSection_pairwise {α : Type} {m : List (Nat × α)} {k : Nat} {v : α}
    (h : m.Pairwise (fun a b => a.1 < b.1)) :
    (setSection m k v).Pairwise (fun a b => a.1 < b.1) := by
  induction m with
  | nil => simp [setSection]
  | cons q rest ih =>
      obtain ⟨qk, qv⟩ := q
      rw [List.pairwise_cons] at h
      obtain ⟨hq1, hq2⟩ := h
      by_cases hq : k = qk
      · subst hq
        rw [setSection, if_pos rfl, List.pairwise_cons]
        exact ⟨hq1, hq2⟩
      · rcases Nat.lt_or_ge k qk with hlt | hge
        · rw [setSection, if_neg hq, if_pos hlt, List.pairwise_cons]
          refine ⟨?_, List.pairwise_cons.2 ⟨hq1, hq2⟩⟩
          intro a ha
          rcases List.mem_cons.1 ha with h | h
          · simp [h, hlt]
          · exact Nat.lt_trans hlt (hq1 a h)
        · have hnlt : ¬ k < qk := Nat.not_lt.2 hge
          have hkq : qk < k := Nat.lt_of_le_of_ne hge (fun e => hq e.symm)
          rw [setSection, if_neg hq, if_neg hnlt, List.pairwise_cons]
          refine ⟨?_, ih hq2⟩
          intro a ha
          rcases mem_setSection ha with h | h
          · simp [h, hkq]
          · exact hq1 a h

theorem sorted_keys_nodup {α : Type} {m : List (Nat × α)}
    (h : m.Pairwise (fun a b => a.1 < b.1)) : (m.map Prod.fst).Nodup :=
  (List.pairwise_map.2 h).imp (fun hab => Nat.ne_of_lt hab)

theorem sectLookup_of_mem {α : Type} {m : List (Nat × α)} {kv : Nat × α}
    (hnd : (m.map Prod.fst).Nodup) (h : kv ∈ m) :
    sectLookup m kv.1 = some kv.2 := by
  induction m with
  | nil => cases h
  | cons q rest ih =>
      obtain ⟨qk, qv⟩ := q
      simp only [List.map_cons, List.nodup_cons] at hnd
      rcases List.mem_cons.1 h with h | h
      · subst h; simp [sectLookup]
      · have hne : kv.1 ≠ qk := by
          intro e
          exact hnd.1 (e ▸ List.mem_map_of_mem _ h)
        simp only [sectLookup, if_neg hne]
        exact ih hnd.2 h

theorem mem_of_sectLookup {α : Type} {m : List (Nat × α)} {k : Nat} {v : α}
    (h : sectLookup m k = some v) : (k, v) ∈ m := by
  induction m with
  | nil => cases h
  | cons q rest ih =>
      obtain ⟨qk, qv⟩ := q
      by_cases hq : k = qk
      · subst hq
        simp [sectLookup] at h
        simp [h]
      · simp only [sectLookup, if_neg hq] at h
        exact List.mem_cons_of_mem _ (ih h)

theorem set_append_last {α : Type} (l : List α) (a b : α) :
    (l ++ [a]).set l.length b = l ++ [b] := by
  induction l with
  | nil => rfl
  | cons x xs ih => simp [List.set, ih]

theorem get_vertex_index_hit (g : MeshGeometry P N V) (p : P) (i : Nat)
    (h : posLookup g.vertex_indices p = some i) :
    g.get_vertex_index p = (i, g) := by
  simp [MeshGeometry.get_vertex_index, h]

theorem get_vertex_index_lookup_self (g : MeshGeometry P N V) (p : P) :
    posLookup (g.get_vertex_index p).2.vertex_indices p =
      some (g.get_vertex_index p).1 := by
  unfold MeshGeometry.get_vertex_index
  cases h : posLookup g.vertex_indices p with
  | none => simp [posLookup]
  | some i => simp [h]

theorem get_vertex_index_lookup_mono (g : MeshGeometry P N V) (p q : P) (i : Nat)
    (h : posLookup g.vertex_indices q = some i) :
    posLookup (g.get_vertex_index p).2.vertex_indices q = some i := by
  unfold MeshGeometry.get_vertex_index
  cases hp : posLookup g.vertex_indices p with
  | none =>
      by_cases hqp : q = p
      · subst hqp; rw [h] at hp; cases hp
      · simpa [posLookup, hqp] using h
  | some j => simpa [hp] using h

theorem get_vertex_index_spec (g : MeshGeometry P N V) (p : P) :
    (∃ i, posLookup g.vertex_indices p = some i ∧ g.get_vertex_index p = (i, g)) ∨
    (posLookup g.vertex_indices p = none ∧
      g.get_vertex_index p =
        (g.next_index,
         { g with vertex_indices := (p, g.next_index) :: g.vertex_indices,
                  next_index := g.next_index + 1 })) := by
  unfold MeshGeometry.get_vertex_index
  cases h : posLookup g.vertex_indices p with
  | none => right; exact ⟨rfl, rfl⟩
  | some i => left; exact ⟨i, rfl, rfl⟩

theorem get_vertex_index_same (g : MeshGeometry P N V) (p : P) :
    (g.get_vertex_index p).2.vertices = g.vertices ∧
    (g.get_vertex_index p).2.faces = g.faces ∧
    g.next_index ≤ (g.get_vertex_index p).2.next_index := by
  rcases get_vertex_index_spec g p with ⟨i, _, he⟩ | ⟨_, he⟩ <;> rw [he] <;>
    exact ⟨rfl, rfl, by simp⟩

theorem get_vertex_index_keeps (g : MeshGeometry P N V) (p : P)
    (hlt : ∀ q ∈ g.vertex_indices, q.2 < g.next_index)
    (hnd : (g.vertex_indices.map Prod.fst).Nodup)
    (hlen : g.vertex_indices.length = g.next_index) :
    (∀ q ∈ (g.get_vertex_index p).2.vertex_indices, q.2 < (g.get_vertex_index p).2.next_index) ∧
    ((g.get_vertex_index p).2.vertex_indices.map Prod.fst).Nodup ∧
    (g.get_vertex_index p).2.vertex_indices.length = (g.get_vertex_index p).2.next_index := by
  rcases get_vertex_index_spec g p with ⟨i, _, he⟩ | ⟨hnone, he⟩ <;> rw [he]
  · exact ⟨hlt, hnd, hlen⟩
  · refine ⟨?_, ?_, ?_⟩
    · intro q hq
      rcases List.mem_cons.1 hq with h | h
      · simp [h]
      · exact Nat.lt_trans (hlt q h) (Nat.lt_succ_self _)
    · simp only [List.map_cons, List.nodup_cons]
      exact ⟨posLookup_eq_none.1 hnone, hnd⟩
    · simp [hlen]

theorem resolveAll_state (ops : MeshOps P N V) (vs : List V) (g : MeshGeometry P N V) :
    (resolveAll ops g vs).2.vertices = g.vertices ∧
    (resolveAll ops g vs).2.faces = g.faces ∧
    g.next_index ≤ (resolveAll ops g vs).2.next_index ∧
    (resolveAll ops g vs).1.length = vs.length := by
  induction vs generalizing g with
  | nil => exact ⟨rfl, rfl, Nat.le_refl _, rfl⟩
  | cons v vs ih =>
      rcases hg : g.get_vertex_index (ops.position v) with ⟨i, g1⟩
      have h1 := get_vertex_index_same g (ops.position v)
      rw [hg] at h1
      have h2 := ih g1
      simp only [resolveAll, hg]
      rcases hr : resolveAll ops g1 vs with ⟨is, g2⟩
      rw [hr] at h2
      exact ⟨h2.1.trans h1.1, h2.2.1.trans h1.2.1,
        Nat.le_trans h1.2.2 h2.2.2.1, by simp [h2.2.2.2]⟩

theorem resolveAll_mono (ops : MeshOps P N V) (vs : List V) (g : MeshGeometry P N V)
    (q : P) (i : Nat) (h : posLookup g.vertex_indices q = some i) :
    posLookup (resolveAll ops g vs).2.vertex_indices q = some i := by
  induction vs generalizing g with
  | nil => exact h
  | cons v vs ih =>
      rcases hg : g.get_vertex_index (ops.position v) with ⟨j, g1⟩
      have h1 := get_vertex_index_lookup_mono g (ops.position v) q i h
      rw [hg] at h1
      simp only [resolveAll, hg]
      rcases hr : resolveAll ops g1 vs with ⟨is, g2⟩
      have := ih g1 h1
      rwa [hr] at this

theorem resolveAll_keeps (ops : MeshOps P N V) (vs : List V) (g : MeshGeometry P N V)
    (hlt : ∀ q ∈ g.vertex_indices, q.2 < g.next_index)
    (hnd : (g.vertex_indices.map Prod.fst).Nodup)
    (hlen : g.vertex_indices.length = g.next_index) :
    (∀ q ∈ (resolveAll ops g vs).2.vertex_indices,
        q.2 < (resolveAll ops g vs).2.next_index) ∧
    ((resolveAll ops g vs).2.vertex_indices.map Prod.fst).Nodup ∧
    (resolveAll ops g vs).2.vertex_indices.length = (resolveAll ops g vs).2.next_index ∧
    goodIds g.next_index (resolveAll ops g vs).1 (resolveAll ops g vs).2.next_index := by
  induction vs generalizing g with
  | nil => exact ⟨hlt, hnd, hlen, rfl⟩
  | cons v vs ih =>
      rcases hg : g.get_vertex_index (ops.position v) with ⟨i, g1⟩
      have hk := get_vertex_index_keeps g (ops.position v) hlt hnd hlen
      rw [hg] at hk
      simp only [resolveAll, hg]
      rcases hr : resolveAll ops g1 vs with ⟨is, g2⟩
      have h2 := ih g1 hk.1 hk.2.1 hk.2.2
      rw [hr] at h2
      refine ⟨h2.1, h2.2.1, h2.2.2.1, ?_⟩
      rcases get_vertex_index_spec g (ops.position v) with ⟨j, hsome, he⟩ | ⟨hnone, he⟩ <;>
        rw [he] at hg <;> injection hg with hi hg1 <;> subst hi <;> subst hg1
      · left
        exact ⟨hlt _ (posLookup_mem hsome), h2.2.2.2⟩
      · right
        exact ⟨rfl, h2.2.2.2⟩

theorem resolveAll_ids_lookup (ops : MeshOps P N V) (vs : List V) (g : MeshGeometry P N V) :
    ∀ j (hj : j < vs.length) (hj' : j < (resolveAll ops g vs).1.length),
      posLookup (resolveAll ops g vs).2.vertex_indices (ops.position vs[j]) =
        some (resolveAll ops g vs).1[j] := by
  induction vs generalizing g with
  | nil => intro j hj; cases hj
  | cons v vs ih =>
      rcases hg : g.get_vertex_index (ops.position v) with ⟨i, g1⟩
      have hself := get_vertex_index_lookup_self g (ops.position v)
      rw [hg] at hself
      simp only [resolveAll, hg]
      intro j hj hj'
      cases j with
      | zero =>
          simpa using resolveAll_mono ops vs g1 (ops.position v) i hself
      | succ j =>
          have hj2 : j < (resolveAll ops g1 vs).1.length := by
            simpa using Nat.lt_of_succ_lt_succ hj'
          simpa using ih g1 j (Nat.lt_of_succ_lt_succ hj) hj2

theorem resolveAll_isSome_iff (ops : MeshOps P N V) (vs : List V)
    (g : MeshGeometry P N V) (q : P) :
    (posLookup (resolveAll ops g vs).2.vertex_indices q).isSome = true ↔
      (posLookup g.vertex_indices q).isSome = true ∨ q ∈ vs.map ops.position := by
  induction vs generalizing g with
  | nil => simp [resolveAll]
  | cons v vs ih =>
      rcases hg : g.get_vertex_index (ops.position v) with ⟨i, g1⟩
      simp only [resolveAll, hg]
      rcases hr : resolveAll ops g1 vs with ⟨is, g2⟩
      have hih := ih g1
      rw [hr] at hih
      have step : (posLookup g1.vertex_indices q).isSome = true ↔
          (posLookup g.vertex_indices q).isSome = true ∨ q = ops.position v := by
        rcases get_vertex_index_spec g (ops.position v) with ⟨j, hsome, he⟩ | ⟨hnone, he⟩ <;>
          rw [he] at hg <;> injection hg with hi hg1 <;> subst hi <;> subst hg1
        · constructor
          · intro h; exact Or.inl h
          · rintro (h | rfl)
            · exact h
            · simp [hsome]
        · by_cases hq : q = ops.position v
          · subst hq; simp [posLookup]
          · simp [posLookup, hq]
      rw [hih, step]
      simp only [List.map_cons, List.mem_cons]
      tauto

theorem add_vertex_stale (g : MeshGeometry P N V) (i : Nat) (fi : SectionIndex) (v : V)
    (w : MeshVertex N V) (hw : g.vertices[i]? = some w) :
    g.add_vertex i fi v =
      .ok { g with vertices :=
        g.vertices.set i { data := v, faces := w.faces ++ [fi],
                           vertex_normal := w.vertex_normal } } := by
  have hi : i < g.vertices.length := by
    by_contra hlt
    rw [List.getElem?_eq_none (Nat.le_of_not_lt hlt)] at hw
    cases hw
  have hset : (g.vertices.set i { w with data := v })[i]? =
      some { w with data := v } :=
    List.getElem?_set_self (by simpa using hi)
  simp only [MeshGeometry.add_vertex, add_vertex_face, hw, hset, List.set_set,
    Except.map]

theorem add_vertex_fresh (g : MeshGeometry P N V) (fi : SectionIndex) (v : V) :
    g.add_vertex g.vertices.length fi v =
      .ok { g with vertices :=
        g.vertices ++ [{ data := v, faces := [fi], vertex_normal := none }] } := by
  have h1 : g.vertices[g.vertices.length]? = none :=
    List.getElem?_eq_none (Nat.le_refl _)
  have h2 := List.getElem?_concat_length g.vertices
    ({ data := v, faces := [], vertex_normal := none } : MeshVertex N V)
  simp only [MeshGeometry.add_vertex, add_vertex_face, h1, h2, set_append_last,
    List.nil_append, Except.map]

theorem getElem?_append_ne_length {α : Type} (l : List α) (u : α) (j : Nat)
    (h : j ≠ l.length) : (l ++ [u])[j]? = l[j]? := by
  rcases Nat.lt_or_ge j l.length with hlt | hge
  · rw [List.getElem?_append]
    simp [hlt]
  · have hgt : l.length < j := Nat.lt_of_le_of_ne hge (fun e => h e.symm)
    rw [List.getElem?_eq_none (by simp [Nat.succ_le_of_lt hgt]),
        List.getElem?_eq_none (Nat.le_of_lt hgt)]

theorem addVertices_cons (g : MeshGeometry P N V) (pairs : List (Nat × V))
    (fi : SectionIndex) (p : Nat × V) :
    addVertices g (p :: pairs) fi =
      (g.add_vertex p.1 fi p.2) >>= fun g2 => addVertices g2 pairs fi := by
  simp [addVertices, List.foldlM_cons]

theorem addVertices_spec (fi : SectionIndex) (pairs : List (Nat × V)) :
    ∀ (g : MeshGeometry P N V) (L' : Nat),
    goodIds g.vertices.length (pairs.map Prod.fst) L' →
    (pairs.map Prod.fst).Nodup →
    ∃ g', addVertices g pairs fi = .ok g' ∧
      g'.faces = g.faces ∧ g'.next_index = g.next_index ∧
      g'.vertex_indices = g.vertex_indices ∧
      g'.vertices.length = L' ∧
      (∀ j, j ∉ pairs.map Prod.fst → g'.vertices[j]? = g.vertices[j]?) ∧
      (∀ pr ∈ pairs, ∀ w, g.vertices[pr.1]? = some w →
         g'.vertices[pr.1]? = some { data := pr.2, faces := w.faces ++ [fi],
                                     vertex_normal := w.vertex_normal }) ∧
      (∀ pr ∈ pairs, g.vertices[pr.1]? = none →
         g'.vertices[pr.1]? = some { data := pr.2, faces := [fi],
                                     vertex_normal := none }) := by
  induction pairs with
  | nil =>
      intro g L' hgood _
      refine ⟨g, rfl, rfl, rfl, rfl, ?_, ?_, ?_, ?_⟩
      · exact hgood.symm
      · intro j _; rfl
      · intro pr h; cases h
      · intro pr h; cases h
  | cons p rest ih =>
      rintro g L' hgood hnd
      obtain ⟨i, v⟩ := p
      simp only [List.map_cons, List.nodup_cons] at hnd
      obtain ⟨hni, hndr⟩ := hnd
      rcases hgood with ⟨hstale, hrest⟩ | ⟨hfresh, hrest⟩
      · -- the id is already allocated: payload overwrite plus one push
        obtain ⟨w, hw⟩ : ∃ w, g.vertices[i]? = some w := by
          rcases h : g.vertices[i]? with _ | w
          · rw [List.getElem?_eq_none_iff] at h
            exact absurd hstale (Nat.not_lt.2 h)
          · exact ⟨w, rfl⟩
        set u : MeshVertex N V :=
          { data := v, faces := w.faces ++ [fi], vertex_normal := w.vertex_normal } with hu
        have hstep := add_vertex_stale g i fi v w hw
        set g2 : MeshGeometry P N V := { g with vertices := g.vertices.set i u } with hg2
        have hlen2 : g2.vertices.length = g.vertices.length := by
          simp [hg2]
        obtain ⟨g', hrun, hfaces, hnext, hvi, hlen, huntouched, hsome, hnone⟩ :=
          ih g2 L' (by rw [hlen2]; exact hrest) hndr
        refine ⟨g', ?_, hfaces, hnext, hvi, hlen, ?_, ?_, ?_⟩
        · rw [addVertices_cons, hstep]
          exact hrun
        · intro j hj
          simp only [List.map_cons, List.mem_cons, not_or] at hj
          rw [huntouched j hj.2]
          exact List.getElem?_set_ne (fun e => hj.1 e.symm)
        · rintro pr hpr w' hw'
          rcases List.mem_cons.1 hpr with rfl | hpr
          · have hji : (i, v).1 ∉ rest.map Prod.fst := hni
            rw [huntouched _ hji]
            have : g2.vertices[i]? = some u :=
              List.getElem?_set_self (by simpa using hstale)
            rw [hw] at hw'
            injection hw' with hw'
            subst hw'
            simpa [hg2] using this
          · have hne : pr.1 ≠ i := fun e => hni (e ▸ List.mem_map_of_mem _ hpr)
            have : g2.vertices[pr.1]? = g.vertices[pr.1]? :=
              List.getElem?_set_ne (fun e => hne e.symm)
            exact hsome pr hpr w' (this.trans hw')
        · rintro pr hpr hw'
          rcases List.mem_cons.1 hpr with rfl | hpr
          · rw [hw] at hw'; cases hw'
          · have hne : pr.1 ≠ i := fun e => hni (e ▸ List.mem_map_of_mem _ hpr)
            have heq : g2.vertices[pr.1]? = g.vertices[pr.1]? :=
              List.getElem?_set_ne (fun e => hne e.symm)
            exact hnone pr hpr (heq.trans hw')
      · -- the id is the watermark: a fresh vertex is pushed at the end
        subst hfresh
        have hstep := add_vertex_fresh g fi v
        set u : MeshVertex N V := { data := v, faces := [fi], vertex_normal := none } with hu
        set g2 : MeshGeometry P N V := { g with vertices := g.vertices ++ [u] } with hg2
        have hlen2 : g2.vertices.length = g.vertices.length + 1 := by
          simp [hg2]
        obtain ⟨g', hrun, hfaces, hnext, hvi, hlen, huntouched, hsome, hnone⟩ :=
          ih g2 L' (by rw [hlen2]; exact hrest) hndr
        refine ⟨g', ?_, hfaces, hnext, hvi, hlen, ?_, ?_, ?_⟩
        · rw [addVertices_cons, hstep]
          exact hrun
        · intro j hj
          simp only [List.map_cons, List.mem_cons, not_or] at hj
          rw [huntouched j hj.2]
          exact getElem?_append_ne_length _ _ _ hj.1
        · rintro pr hpr w' hw'
          rcases List.mem_cons.1 hpr with rfl | hpr
          · rw [List.getElem?_eq_none (Nat.le_refl _)] at hw'
            cases hw'
          · have hne : pr.1 ≠ g.vertices.length :=
              fun e => hni (e ▸ List.mem_map_of_mem _ hpr)
            have heq : g2.vertices[pr.1]? = g.vertices[pr.1]? :=
              getElem?_append_ne_length _ _ _ hne
            exact hsome pr hpr w' (heq.trans hw')
        · rintro pr hpr hw'
          rcases List.mem_cons.1 hpr with rfl | hpr
          · rw [huntouched _ hni]
            have : g2.vertices[g.vertices.length]? = some u :=
              List.getElem?_concat_length _ _
            simpa [hg2] using this
          · have hne : pr.1 ≠ g.vertices.length :=
              fun e => hni (e ▸ List.mem_map_of_mem _ hpr)
            have heq : g2.vertices[pr.1]? = g.vertices[pr.1]? :=
              getElem?_append_ne_length _ _ _ hne
            exact hnone pr hpr (heq.trans hw')

end Lemmas

section Lemmas2

variable {P N V : Type} [DecidableEq P]

theorem add_face3_data_dup_positions (ops : MeshOps P N V) (g : MeshGeometry P N V)
    (v1 v2 v3 : V) (d : FaceDataProps N V)
    (h : ops.position v1 = ops.position v2 ∨ ops.position v1 = ops.position v3
       ∨ ops.position v2 = ops.position v3) :
    g.add_face3_data ops v1 v2 v3 d = .error "Face must have 3 unique vertices" := by
  unfold MeshGeometry.add_face3_data
  rcases h1 : g.get_vertex_index (ops.position v1) with ⟨i1, g1⟩
  rcases h2 : g1.get_vertex_index (ops.position v2) with ⟨i2, g2⟩
  rcases h3 : g2.get_vertex_index (ops.position v3) with ⟨i3, g3⟩
  have hl1 : posLookup g1.vertex_indices (ops.position v1) = some i1 := by
    have := get_vertex_index_lookup_self g (ops.position v1)
    rwa [h1] at this
  have hl2 : posLookup g2.vertex_indices (ops.position v2) = some i2 := by
    have := get_vertex_index_lookup_self g1 (ops.position v2)
    rwa [h2] at this
  have hdup : i1 = i2 ∨ i1 = i3 ∨ i2 = i3 := by
    rcases h with h | h | h
    · left
      have := get_vertex_index_hit g1 (ops.position v2) i1 (h ▸ hl1)
      rw [this] at h2
      exact (Prod.mk.injEq _ _ _ _ ▸ h2).1
    · right; left
      have hmono : posLookup g2.vertex_indices (ops.position v1) = some i1 := by
        have := get_vertex_index_lookup_mono g1 (ops.position v2) (ops.position v1) i1 hl1
        rwa [h2] at this
      have := get_vertex_index_hit g2 (ops.position v3) i1 (h ▸ hmono)
      rw [this] at h3
      exact (Prod.mk.injEq _ _ _ _ ▸ h3).1
    · right; right
      have := get_vertex_index_hit g2 (ops.position v3) i2 (h ▸ hl2)
      rw [this] at h3
      exact (Prod.mk.injEq _ _ _ _ ▸ h3).1
  simp only [h1, h2, h3, Face.face3]
  rw [if_pos hdup]
  rfl

theorem add_face4_data_dup_positions (ops : MeshOps P N V) (g : MeshGeometry P N V)
    (v1 v2 v3 v4 : V) (d : FaceDataProps N V)
    (h : ops.position v1 = ops.position v2 ∨ ops.position v1 = ops.position v3
       ∨ ops.position v1 = ops.position v4 ∨ ops.position v2 = ops.position v3
       ∨ ops.position v2 = ops.position v4 ∨ ops.position v3 = ops.position v4) :
    g.add_face4_data ops v1 v2 v3 v4 d = .error "Face must have 4 unique vertices" := by
  unfold MeshGeometry.add_face4_data
  rcases h1 : g.get_vertex_index (ops.position v1) with ⟨i1, g1⟩
  rcases h2 : g1.get_vertex_index (ops.position v2) with ⟨i2, g2⟩
  rcases h3 : g2.get_vertex_index (ops.position v3) with ⟨i3, g3⟩
  rcases h4 : g3.get_vertex_index (ops.position v4) with ⟨i4, g4⟩
  have hl1 : posLookup g1.vertex_indices (ops.position v1) = some i1 := by
    have := get_vertex_index_lookup_self g (ops.position v1)
    rwa [h1] at this
  have hl2 : posLookup g2.vertex_indices (ops.position v2) = some i2 := by
    have := get_vertex_index_lookup_self g1 (ops.position v2)
    rwa [h2] at this
  have hl3 : posLookup g3.vertex_indices (ops.position v3) = some i3 := by
    have := get_vertex_index_lookup_self g2 (ops.position v3)
    rwa [h3] at this
  have hl1₂ : posLookup g2.vertex_indices (ops.position v1) = some i1 := by
    have := get_vertex_index_lookup_mono g1 (ops.position v2) (ops.position v1) i1 hl1
    rwa [h2] at this
  have hl1₃ : posLookup g3.vertex_indices (ops.position v1) = some i1 := by
    have := get_vertex_index_lookup_mono g2 (ops.position v3) (ops.position v1) i1 hl1₂
    rwa [h3] at this
  have hl2₃ : posLookup g3.vertex_indices (ops.position v2) = some i2 := by
    have := get_vertex_index_lookup_mono g2 (ops.position v3) (ops.position v2) i2 hl2
    rwa [h3] at this
  have hdup : i1 = i2 ∨ i1 = i3 ∨ i1 = i4 ∨ i2 = i3 ∨ i2 = i4 ∨ i3 = i4 := by
    rcases h with h | h | h | h | h | h
    · left
      have := get_vertex_index_hit g1 (ops.position v2) i1 (h ▸ hl1)
      rw [this] at h2
      exact (Prod.mk.injEq _ _ _ _ ▸ h2).1
    · right; left
      have := get_vertex_index_hit g2 (ops.position v3) i1 (h ▸ hl1₂)
      rw [this] at h3
      exact (Prod.mk.injEq _ _ _ _ ▸ h3).1
    · right; right; left
      have := get_vertex_index_hit g3 (ops.position v4) i1 (h ▸ hl1₃)
      rw [this] at h4
      exact (Prod.mk.injEq _ _ _ _ ▸ h4).1
    · right; right; right; left
      have := get_vertex_index_hit g2 (ops.position v3) i2 (h ▸ hl2)
      rw [this] at h3
      exact (Prod.mk.injEq _ _ _ _ ▸ h3).1
    · right; right; right; right; left
      have := get_vertex_index_hit g3 (ops.position v4) i2 (h ▸ hl2₃)
      rw [this] at h4
      exact (Prod.mk.injEq _ _ _ _ ▸ h4).1
    · right; right; right; right; right
      have := get_vertex_index_hit g3 (ops.position v4) i3 (h ▸ hl3)
      rw [this] at h4
      exact (Prod.mk.injEq _ _ _ _ ▸ h4).1
  simp only [h1, h2, h3, h4, Face.face4]
  rw [if_pos hdup]
  rfl

theorem ok_bind {ε α β : Type} (a : α) (f : α → Except ε β) :
    (Except.ok a : Except ε α) >>= f = f a := rfl

theorem err_bind {ε α β : Type} (s : ε) (f : α → Except ε β) :
    (Except.error s : Except ε α) >>= f = Except.error s := rfl

theorem exc_bind_pure {ε α : Type} (x : Except ε α) : x >>= pure = x := by
  cases x <;> rfl

theorem optHolds_iff {α : Type} {o : Option α} {p : α → Prop} :
    optHolds o p ↔ ∃ a, o = some a ∧ p a := by
  cases o <;> simp [optHolds]

theorem inv_iff (g : MeshGeometry P N V) : Inv g ↔
    ((∀ i v, g.vertices[i]? = some v → ∀ s ∈ v.faces,
        ∃ f, faceAt g s = some f ∧ i ∈ f.vertices) ∧
     (∀ kv ∈ g.faces, ∀ (idx : Nat) (f : Face N V), kv.2[idx]? = some f →
        ∀ vid ∈ f.vertices,
        ∃ v : MeshVertex N V, g.vertices[vid]? = some v ∧
          v.faces.count { sec := kv.1, index := idx } = 1)) := by
  unfold Inv
  constructor
  · rintro ⟨ha, hb⟩
    constructor
    · intro i v hi s hs
      have := ha (i, v) (List.mem_enum_iff_getElem?.2 hi) s hs
      exact optHolds_iff.1 this
    · intro kv hkv idx f hf vid hvid
      have := hb kv hkv (idx, f) (List.mem_enum_iff_getElem?.2 hf) vid hvid
      exact optHolds_iff.1 this
  · rintro ⟨ha, hb⟩
    constructor
    · rintro ⟨i, v⟩ hp s hs
      exact optHolds_iff.2 (ha i v (List.mem_enum_iff_getElem?.1 hp) s hs)
    · rintro kv hkv ⟨idx, f⟩ hq vid hvid
      exact optHolds_iff.2 (hb kv hkv idx f (List.mem_enum_iff_getElem?.1 hq) vid hvid)

theorem add_face3_data_eq_addFaceN (ops : MeshOps P N V) (g : MeshGeometry P N V)
    (v1 v2 v3 : V) (d : FaceDataProps N V) :
    g.add_face3_data ops v1 v2 v3 d =
      addFaceN ops g [v1, v2, v3] "Face must have 3 unique vertices" d := by
  rcases h1 : g.get_vertex_index (ops.position v1) with ⟨i1, g1⟩
  rcases h2 : g1.get_vertex_index (ops.position v2) with ⟨i2, g2⟩
  rcases h3 : g2.get_vertex_index (ops.position v3) with ⟨i3, g3⟩
  have hres : resolveAll ops g [v1, v2, v3] = ([i1, i2, i3], g3) := by
    simp [resolveAll, h1, h2, h3]
  have hiff : (i1 = i2 ∨ i1 = i3 ∨ i2 = i3) ↔ ¬ pairwiseNe [i1, i2, i3] := by
    simp [pairwiseNe]
    tauto
  simp only [MeshGeometry.add_face3_data, addFaceN, h1, h2, h3, hres, Face.face3]
  by_cases hdup : i1 = i2 ∨ i1 = i3 ∨ i2 = i3
  · rw [if_pos hdup, if_neg (hiff.1 hdup)]
    rfl
  · rw [if_neg hdup, if_pos (not_not.1 (fun hn => hdup (hiff.2 hn)))]
    simp [ok_bind, addVertices, addFacePushed, addFaceIdx, List.foldlM_cons,
      List.foldlM_nil, List.zip, List.zipWith, exc_bind_pure]

theorem add_face4_data_eq_addFaceN (ops : MeshOps P N V) (g : MeshGeometry P N V)
    (v1 v2 v3 v4 : V) (d : FaceDataProps N V) :
    g.add_face4_data ops v1 v2 v3 v4 d =
      addFaceN ops g [v1, v2, v3, v4] "Face must have 4 unique vertices" d := by
  rcases h1 : g.get_vertex_index (ops.position v1) with ⟨i1, g1⟩
  rcases h2 : g1.get_vertex_index (ops.position v2) with ⟨i2, g2⟩
  rcases h3 : g2.get_vertex_index (ops.position v3) with ⟨i3, g3⟩
  rcases h4 : g3.get_vertex_index (ops.position v4) with ⟨i4, g4⟩
  have hres : resolveAll ops g [v1, v2, v3, v4] = ([i1, i2, i3, i4], g4) := by
    simp [resolveAll, h1, h2, h3, h4]
  have hiff : (i1 = i2 ∨ i1 = i3 ∨ i1 = i4 ∨ i2 = i3 ∨ i2 = i4 ∨ i3 = i4) ↔
      ¬ pairwiseNe [i1, i2, i3, i4] := by
    simp [pairwiseNe]
    tauto
  simp only [MeshGeometry.add_face4_data, addFaceN, h1, h2, h3, h4, hres, Face.face4]
  by_cases hdup : i1 = i2 ∨ i1 = i3 ∨ i1 = i4 ∨ i2 = i3 ∨ i2 = i4 ∨ i3 = i4
  · rw [if_pos hdup, if_neg (hiff.1 hdup)]
    rfl
  · rw [if_neg hdup, if_pos (not_not.1 (fun hn => hdup (hiff.2 hn)))]
    simp [ok_bind, addVertices, addFacePushed, addFaceIdx, List.foldlM_cons,
      List.foldlM_nil, List.zip, List.zipWith, exc_bind_pure]

theorem mem_zip_left {l : List Nat} {l' : List V} {i : Nat}
    (hlen : l.length = l'.length) (hi : i ∈ l) : ∃ w, (i, w) ∈ l.zip l' := by
  obtain ⟨j, hj, he⟩ := List.mem_iff_getElem.1 hi
  have hj2 : j < l'.length := hlen ▸ hj
  have hj' : j < (l.zip l').length := by
    rw [List.length_zip, hlen]
    simp [hj2]
  refine ⟨l'[j], ?_⟩
  have := List.getElem_mem hj'
  rwa [List.getElem_zip, he] at this

theorem addFaceN_ok_spec (ops : MeshOps P N V) {g g' : MeshGeometry P N V} {vs : List V}
    {msg : String} {d : FaceDataProps N V} {ids : List Nat} {g1 : MeshGeometry P N V}
    (hr : resolveAll ops g vs = (ids, g1))
    (hnext : g.next_index = g.vertices.length)
    (hlt : ∀ q ∈ g.vertex_indices, q.2 < g.next_index)
    (hnd : (g.vertex_indices.map Prod.fst).Nodup)
    (hlen : g.vertex_indices.length = g.next_index)
    (hok : addFaceN ops g vs msg d = .ok g') :
    pairwiseNe ids ∧
    g'.faces = (addFacePushed g1 ids d).faces ∧
    g'.next_index = g1.next_index ∧
    g'.vertex_indices = g1.vertex_indices ∧
    g'.vertices.length = g1.next_index ∧
    (∀ j, j ∉ ids → g'.vertices[j]? = g.vertices[j]?) ∧
    (∀ pr ∈ ids.zip vs, ∀ w : MeshVertex N V, g.vertices[pr.1]? = some w →
       g'.vertices[pr.1]? = some { data := pr.2, faces := w.faces ++ [addFaceIdx g1 d],
                                   vertex_normal := w.vertex_normal }) ∧
    (∀ pr ∈ ids.zip vs, g.vertices[pr.1]? = none →
       g'.vertices[pr.1]? = some { data := pr.2, faces := [addFaceIdx g1 d],
                                   vertex_normal := none }) := by
  simp only [addFaceN, hr] at hok
  by_cases hp : pairwiseNe ids
  case neg => rw [if_neg hp] at hok; cases hok
  rw [if_pos hp] at hok
  have hstate := resolveAll_state ops vs g
  rw [hr] at hstate
  have hkeeps := resolveAll_keeps ops vs g hlt hnd hlen
  rw [hr] at hkeeps
  have hmapfst : (ids.zip vs).map Prod.fst = ids :=
    List.map_fst_zip _ _ (le_of_eq hstate.2.2.2)
  have hstart : (addFacePushed g1 ids d).vertices.length = g.vertices.length := by
    show g1.vertices.length = g.vertices.length
    rw [hstate.1]
  have hgood2 : goodIds (addFacePushed g1 ids d).vertices.length
      ((ids.zip vs).map Prod.fst) g1.next_index := by
    rw [hmapfst, hstart, ← hnext]
    exact hkeeps.2.2.2
  obtain ⟨g'', hrun, hfaces', hnext', hvi', hlen', hunt, hsome, hnone⟩ :=
    addVertices_spec (addFaceIdx g1 d) (ids.zip vs) (addFacePushed g1 ids d)
      g1.next_index hgood2 (by rw [hmapfst]; exact hp)
  rw [hrun] at hok
  injection hok with hok
  subst hok
  refine ⟨hp, hfaces', hnext', hvi', hlen', ?_, ?_, ?_⟩
  · intro j hj
    rw [hunt j (by rwa [hmapfst])]
    show g1.vertices[j]? = g.vertices[j]?
    rw [hstate.1]
  · intro pr hpr w hw
    refine hsome pr hpr w ?_
    show g1.vertices[pr.1]? = some w
    rw [hstate.1]; exact hw
  · intro pr hpr hw
    refine hnone pr hpr ?_
    show g1.vertices[pr.1]? = none
    rw [hstate.1]; exact hw

theorem addFacePushed_faces (g1 : MeshGeometry P N V) (ids : List Nat)
    (d : FaceDataProps N V) :
    (addFacePushed g1 ids d).faces =
      setSection g1.faces (d.sec.getD 0)
        (((sectLookup g1.faces (d.sec.getD 0)).getD []) ++
          [{ vertices := ids, face_normal := d.normal, data := d.data }]) := rfl

theorem addFaceIdx_eq (g1 : MeshGeometry P N V) (d : FaceDataProps N V) :
    addFaceIdx g1 d =
      { sec := d.sec.getD 0,
        index := ((sectLookup g1.faces (d.sec.getD 0)).getD []).length } := rfl

theorem getElem?_some_lt {α : Type} {l : List α} {i : Nat} {a : α}
    (h : l[i]? = some a) : i < l.length := by
  by_contra hn
  rw [List.getElem?_eq_none (Nat.le_of_not_lt hn)] at h
  cases h

theorem addFaceN_WF (ops : MeshOps P N V) {g g' : MeshGeometry P N V} {vs : List V}
    {msg : String} {d : FaceDataProps N V}
    (hwf : WF g) (harity : vs.length = 3 ∨ vs.length = 4)
    (hok : addFaceN ops g vs msg d = .ok g') : WF g' := by
  rcases hr : resolveAll ops g vs with ⟨ids, g1⟩
  obtain ⟨hp, hfaces', hnext', hvi', hlen', hunt, hsome, hnone⟩ :=
    addFaceN_ok_spec ops hr hwf.next_eq hwf.idx_lt hwf.keys_nodup hwf.idx_len hok
  have hstate := resolveAll_state ops vs g
  rw [hr] at hstate
  obtain ⟨hv1, hf1, _, hidslen⟩ := hstate
  have hkeeps := resolveAll_keeps ops vs g hwf.idx_lt hwf.keys_nodup hwf.idx_len
  rw [hr] at hkeeps
  obtain ⟨hlt1, hnd1, hlen1, hgood⟩ := hkeeps
  obtain ⟨sec, hsec⟩ : ∃ s, d.sec.getD 0 = s := ⟨_, rfl⟩
  obtain ⟨fs, hfs⟩ : ∃ l, (sectLookup g.faces sec).getD [] = l := ⟨_, rfl⟩
  obtain ⟨face, hface⟩ : ∃ f : Face N V,
      ({ vertices := ids, face_normal := d.normal, data := d.data } : Face N V) = f :=
    ⟨_, rfl⟩
  have hfid : addFaceIdx g1 d = { sec := sec, index := fs.length } := by
    rw [addFaceIdx_eq, hf1, hsec, hfs]
  have hfaces2 : g'.faces = setSection g.faces sec (fs ++ [face]) := by
    rw [hfaces', addFacePushed_faces, hf1, hsec, hfs, hface]
  have hfssplit : sectLookup g.faces sec = some fs ∨
      (sectLookup g.faces sec = none ∧ fs = []) := by
    rcases h : sectLookup g.faces sec with _ | l
    · right
      refine ⟨rfl, ?_⟩
      rw [h] at hfs
      exact hfs.symm
    · left
      rw [h] at hfs
      rw [show l = fs from hfs]
  have hlook_self : sectLookup g'.faces sec = some (fs ++ [face]) := by
    rw [hfaces2]
    exact sectLookup_setSection_self _ _ _
  have hlook_ne : ∀ s, s ≠ sec → sectLookup g'.faces s = sectLookup g.faces s := by
    intro s hs
    rw [hfaces2]
    exact sectLookup_setSection_ne _ _ _ _ hs
  obtain ⟨hA, hB⟩ := (inv_iff g).1 hwf.inv
  have hfaceAt_mono : ∀ (s : SectionIndex) (f : Face N V),
      faceAt g s = some f → faceAt g' s = some f := by
    intro s f hf
    unfold faceAt at hf ⊢
    by_cases hss : s.sec = sec
    · rw [hss] at hf ⊢
      rw [hlook_self]
      rcases hfssplit with hsm | ⟨hnn, _⟩
      · rw [hsm] at hf
        simp only [Option.some_bind] at hf ⊢
        have hlt : s.index < fs.length := getElem?_some_lt hf
        rw [List.getElem?_append]
        simp [hlt, hf]
      · rw [hnn] at hf
        cases hf
    · rw [hlook_ne _ hss]
      exact hf
  have hfinotin : ∀ (vid : Nat) (v : MeshVertex N V), g.vertices[vid]? = some v →
      ({ sec := sec, index := fs.length } : SectionIndex) ∉ v.faces := by
    intro vid v hv hmem
    obtain ⟨f, hfat, _⟩ := hA vid v hv _ hmem
    unfold faceAt at hfat
    rcases hfssplit with hsm | ⟨hnn, _⟩
    · simp only [hsm, Option.some_bind] at hfat
      rw [List.getElem?_eq_none (Nat.le_refl _)] at hfat
      cases hfat
    · simp only [hnn, Option.none_bind] at hfat
      cases hfat
  have hzip : ∀ i ∈ ids, ∃ w, (i, w) ∈ ids.zip vs :=
    fun i hi => mem_zip_left hidslen hi
  refine ⟨?_, ?_, ?_, ?_, ?_, ?_, ?_⟩
  · -- next_eq
    rw [hlen']
    exact hnext'
  · -- idx_lt
    rw [hvi', hnext']
    exact hlt1
  · -- keys_nodup
    rw [hvi']
    exact hnd1
  · -- idx_len
    rw [hvi', hnext']
    exact hlen1
  · -- sec_sorted
    rw [hfaces2]
    exact setSection_pairwise hwf.sec_sorted
  · -- faces_wf
    intro kv hkv f hfm
    rw [hfaces2] at hkv
    rcases mem_setSection hkv with he | hm
    · subst he
      rcases List.mem_append.1 hfm with hm | hm
      · rcases hfssplit with hsm | ⟨_, hnil⟩
        · exact hwf.faces_wf _ (mem_of_sectLookup hsm) f hm
        · rw [hnil] at hm
          cases hm
      · rw [List.mem_singleton.1 hm, ← hface]
        exact ⟨hp, hidslen ▸ harity⟩
    · exact hwf.faces_wf kv hm f hfm
  · -- inv
    rw [inv_iff]
    constructor
    · -- every back-reference resolves
      intro i v hi s hs
      by_cases hiid : i ∈ ids
      · obtain ⟨w, hwpair⟩ := hzip i hiid
        rcases hvold : g.vertices[i]? with _ | wOld
        · have hres := hnone (i, w) hwpair hvold
          rw [hfid] at hres
          rw [hi] at hres
          injection hres with hres
          subst hres
          rcases List.mem_singleton.1 hs with rfl
          refine ⟨face, ?_, ?_⟩
          · unfold faceAt
            rw [hlook_self]
            simp only [Option.some_bind]
            rw [List.getElem?_concat_length]
          · rw [← hface]
            exact hiid
        · have hres := hsome (i, w) hwpair wOld hvold
          rw [hfid] at hres
          rw [hi] at hres
          injection hres with hres
          subst hres
          rcases List.mem_append.1 hs with hold | hnew
          · obtain ⟨f, hfat, hmem⟩ := hA i wOld hvold s hold
            exact ⟨f, hfaceAt_mono s f hfat, hmem⟩
          · rcases List.mem_singleton.1 hnew with rfl
            refine ⟨face, ?_, ?_⟩
            · unfold faceAt
              rw [hlook_self]
              simp only [Option.some_bind]
              rw [List.getElem?_concat_length]
            · rw [← hface]
              exact hiid
      · have hold : g.vertices[i]? = some v := by
          rw [← hunt i hiid]
          exact hi
        obtain ⟨f, hfat, hmem⟩ := hA i v hold s hs
        exact ⟨f, hfaceAt_mono s f hfat, hmem⟩
    · -- every face vertex back-references exactly once
      intro kv hkv idx f hf vid hvid
      rw [hfaces2] at hkv
      have hcount_keep : ∀ (v : MeshVertex N V), g.vertices[vid]? = some v →
          (si : SectionIndex) → si ≠ { sec := sec, index := fs.length } →
          v.faces.count si = 1 →
          ∃ v' : MeshVertex N V, g'.vertices[vid]? = some v' ∧ v'.faces.count si = 1 := by
        intro v hv si hsi hcnt
        by_cases hvidid : vid ∈ ids
        · obtain ⟨w, hwpair⟩ := hzip vid hvidid
          have hres := hsome (vid, w) hwpair v hv
          rw [hfid] at hres
          refine ⟨_, hres, ?_⟩
          rw [List.count_append, hcnt]
          simp [List.count_singleton, hsi]
        · refine ⟨v, ?_, hcnt⟩
          rw [hunt vid hvidid]
          exact hv
      rcases mem_setSection hkv with he | hm
      · -- the updated section
        subst he
        rcases Nat.lt_trichotomy idx fs.length with hlt | heq | hgt
        · have hfold : fs[idx]? = some f := by
            rw [List.getElem?_append] at hf
            simpa [hlt] using hf
          rcases hfssplit with hsm | ⟨_, hnil⟩
          · obtain ⟨v, hv, hcnt⟩ := hB (sec, fs) (mem_of_sectLookup hsm) idx f hfold vid hvid
            exact hcount_keep v hv _ (by simp [SectionIndex.mk.injEq, Nat.ne_of_lt hlt]) hcnt
          · rw [hnil] at hfold
            cases hfold
        · have hfface : f = face := by
            rw [heq, List.getElem?_concat_length] at hf
            injection hf with hf
            exact hf.symm
          subst hfface
          have hvidids : vid ∈ ids := by
            rw [← hface] at hvid
            exact hvid
          obtain ⟨w, hwpair⟩ := hzip vid hvidids
          rcases hvold : g.vertices[vid]? with _ | wOld
          · have hres := hnone (vid, w) hwpair hvold
            rw [hfid] at hres
            refine ⟨_, hres, ?_⟩
            rw [heq]
            simp [List.count_singleton]
          · have hres := hsome (vid, w) hwpair wOld hvold
            rw [hfid] at hres
            refine ⟨_, hres, ?_⟩
            rw [heq, List.count_append,
              List.count_eq_zero.2 (hfinotin vid wOld hvold)]
            simp [List.count_singleton]
        · exfalso
          have : (fs ++ [face]).length ≤ idx := by
            simp only [List.length_append, List.length_singleton]
            exact Nat.succ_le_of_lt hgt
          rw [List.getElem?_eq_none this] at hf
          cases hf
      · -- an untouched section entry
        obtain ⟨v, hv, hcnt⟩ := hB kv hm idx f hf vid hvid
        have hne : ({ sec := kv.1, index := idx } : SectionIndex) ≠
            { sec := sec, index := fs.length } := by
          intro he
          have h1 : kv.1 = sec := (SectionIndex.mk.injEq _ _ _ _ ▸ he).1
          have h2 : idx = fs.length := (SectionIndex.mk.injEq _ _ _ _ ▸ he).2
          have hlk : sectLookup g.faces kv.1 = some kv.2 :=
            sectLookup_of_mem (sorted_keys_nodup hwf.sec_sorted) hm
          rw [h1] at hlk
          rcases hfssplit with hsm | ⟨hnn, _⟩
          · rw [hsm] at hlk
            injection hlk with hlk
            rw [← hlk, h2] at hf
            rw [List.getElem?_eq_none (Nat.le_refl _)] at hf
            cases hf
          · rw [hnn] at hlk
            cases hlk
        exact hcount_keep v hv _ hne hcnt

theorem swapRemove_spec {α : Type} (l : List α) (i : Nat) (hi : i < l.length) :
    ∃ x r, swapRemove l i = .ok (x, r) ∧ l[i]? = some x ∧
      r.length + 1 = l.length ∧
      (∀ j, j < l.length - 1 → r[j]? = if j = i then l[l.length - 1]? else l[j]?) ∧
      (∀ j, l.length - 1 ≤ j → r[j]? = none) := by
  have hne : l ≠ [] := by
    intro he
    rw [he] at hi
    cases hi
  have hlast : l.getLast? = l[l.length - 1]? := List.getLast?_eq_getElem? l
  have hlt : l.length - 1 < l.length := by
    have : 0 < l.length := Nat.pos_of_ne_zero (fun e => hne (List.length_eq_zero.1 e))
    exact Nat.sub_lt this Nat.one_pos
  obtain ⟨last, hlast2⟩ : ∃ a, l.getLast? = some a := by
    rw [hlast]
    exact ⟨_, List.getElem?_eq_getElem hlt⟩
  obtain ⟨x, hx⟩ : ∃ a, l[i]? = some a := ⟨_, List.getElem?_eq_getElem hi⟩
  refine ⟨x, (l.set i last).dropLast, ?_, hx, ?_, ?_, ?_⟩
  · unfold swapRemove
    rw [hx, hlast2]
  · rw [List.length_dropLast, List.length_set]
    exact Nat.succ_pred_eq_of_pos (Nat.lt_of_le_of_lt (Nat.zero_le _) hi)
  · intro j hj
    rw [List.getElem?_dropLast, List.length_set]
    rw [if_pos hj]
    by_cases hji : j = i
    · subst hji
      rw [List.getElem?_set_self (by simpa using hi), if_pos rfl, ← hlast, hlast2]
    · rw [List.getElem?_set_ne (fun e => hji e.symm), if_neg hji]
  · intro j hj
    rw [List.getElem?_dropLast, List.length_set]
    rw [if_neg (Nat.not_lt.2 hj)]

theorem strip_fold_spec (fi : SectionIndex) (ids : List Nat) :
    ∀ (vs : List (MeshVertex N V)), (∀ i ∈ ids, i < vs.length) →
    ∃ r, (ids.foldlM (fun vs i =>
        match vs[i]? with
        | none => Except.error "vertex index out of bounds"
        | some vert =>
            Except.ok (vs.set i
              { vert with faces := vert.faces.filter (fun j => j ≠ fi) })) vs) = .ok r ∧
      r.length = vs.length ∧
      (∀ j, j ∈ ids → r[j]? = (vs[j]?).map
        (fun v => { v with faces := v.faces.filter (fun x => x ≠ fi) })) ∧
      (∀ j, j ∉ ids → r[j]? = vs[j]?) := by
  induction ids with
  | nil =>
      intro vs _
      exact ⟨vs, rfl, rfl, fun j hj => absurd hj (List.not_mem_nil j), fun _ _ => rfl⟩
  | cons i rest ih =>
      intro vs hb
      have hi : i < vs.length := hb i (List.mem_cons_self _ _)
      obtain ⟨v, hv⟩ : ∃ v, vs[i]? = some v := ⟨_, List.getElem?_eq_getElem hi⟩
      set upd : MeshVertex N V → MeshVertex N V :=
        fun v => { v with faces := v.faces.filter (fun x => x ≠ fi) } with hupd
      have hidem : ∀ v, upd (upd v) = upd v := by
        intro v
        simp only [hupd, List.filter_filter]
        congr 1
        apply List.filter_congr
        intro a _
        simp [Bool.and_self]
      set vs1 := vs.set i (upd v) with hvs1
      have hlen1 : vs1.length = vs.length := List.length_set _ _ _
      obtain ⟨r, hrun, hrlen, hmem, hnotmem⟩ := ih vs1 (by
        intro j hj
        rw [hlen1]
        exact hb j (List.mem_cons_of_mem _ hj))
      refine ⟨r, ?_, hrlen.trans hlen1, ?_, ?_⟩
      · rw [List.foldlM_cons, hv, ok_bind]
        exact hrun
      · intro j hj
        rcases List.mem_cons.1 hj with rfl | hj2
        · by_cases hjr : j ∈ rest
          · rw [hmem j hjr, hv]
            have : vs1[j]? = some (upd v) :=
              List.getElem?_set_self (by simpa using hi)
            rw [this]
            simp only [Option.map_some']
            rw [hidem]
          · rw [hnotmem j hjr]
            have : vs1[j]? = some (upd v) :=
              List.getElem?_set_self (by simpa using hi)
            rw [this, hv]
            rfl
        · rw [hmem j hj2]
          by_cases hji : j = i
          · subst hji
            have : vs1[j]? = some (upd v) :=
              List.getElem?_set_self (by simpa using hi)
            rw [this, hv]
            simp only [Option.map_some']
            rw [hidem]
          · have : vs1[j]? = vs[j]? := List.getElem?_set_ne (fun e => hji e.symm)
            rw [this]
      · intro j hj
        simp only [List.mem_cons, not_or] at hj
        rw [hnotmem j hj.2]
        exact List.getElem?_set_ne (fun e => hj.1 e.symm)

theorem patch_fold_spec (fi : SectionIndex) (len : Nat) (ids : List Nat)
    (hnd : ids.Nodup) :
    ∀ vs : List (MeshVertex N V),
    (∀ i ∈ ids, ∃ v : MeshVertex N V, vs[i]? = some v ∧
        ({ index := len, sec := fi.sec } : SectionIndex) ∈ v.faces) →
    ∃ r, (ids.foldlM (fun vs v =>
        match vs[v]? with
        | none => Except.error "vertex index out of bounds"
        | some vert =>
            match vert.faces.findIdx? (fun i =>
                i = ({ index := len, sec := fi.sec } : SectionIndex)) with
            | none => Except.error "called Option unwrap on a none value"
            | some v_f_idx =>
                Except.ok (vs.set v
                  { vert with faces := vert.faces.set v_f_idx fi })) vs) = .ok r ∧
      r.length = vs.length ∧
      (∀ j, j ∉ ids → r[j]? = vs[j]?) ∧
      (∀ j (v : MeshVertex N V), j ∈ ids → vs[j]? = some v →
        ∃ v' : MeshVertex N V, r[j]? = some v' ∧ v'.data = v.data ∧
          v'.vertex_normal = v.vertex_normal ∧
          v'.faces.length = v.faces.length ∧
          (∀ s : SectionIndex, v'.faces.count s =
            v.faces.count s -
              (if ({ index := len, sec := fi.sec } : SectionIndex) = s then 1 else 0)
              + (if fi = s then 1 else 0)) ∧
          (∀ s : SectionIndex, s ∈ v'.faces → s ∈ v.faces ∨ s = fi)) := by
  induction ids with
  | nil =>
      intro vs _
      refine ⟨vs, rfl, rfl, fun _ _ => rfl, ?_⟩
      intro j v hj
      cases hj
  | cons i rest ih =>
      intro vs hb
      rw [List.nodup_cons] at hnd
      obtain ⟨v, hv, hvmem⟩ := hb i (List.mem_cons_self _ _)
      have hfind : (v.faces.findIdx? (fun x =>
          x = { index := len, sec := fi.sec })).isSome := by
        rw [List.findIdx?_isSome, List.any_eq_true]
        exact ⟨_, hvmem, by simp⟩
      obtain ⟨p, hp⟩ : ∃ p, v.faces.findIdx? (fun x =>
          x = { index := len, sec := fi.sec }) = some p :=
        Option.isSome_iff_exists.1 hfind
      have hpspec : ∃ hh : p < v.faces.length,
          v.faces[p] = { index := len, sec := fi.sec } := by
        rw [List.findIdx?_eq_some_iff_findIdx_eq] at hp
        obtain ⟨h1, h2⟩ := hp
        refine ⟨h1, ?_⟩
        have hw : List.findIdx (fun x =>
            decide (x = { index := len, sec := fi.sec })) v.faces < v.faces.length := by
          rw [h2]; exact h1
        have := @List.findIdx_getElem _
          (fun x => decide (x = { index := len, sec := fi.sec })) v.faces hw
        simp only [h2] at this
        simpa using this
      obtain ⟨hplt, hpval⟩ := hpspec
      set v1 : MeshVertex N V := { v with faces := v.faces.set p fi } with hv1
      set vs1 := vs.set i v1 with hvs1
      have hi : i < vs.length := getElem?_some_lt hv
      obtain ⟨r, hrun, hrlen, hnotmem, hmem⟩ := ih hnd.2 vs1 (by
        intro j hj
        obtain ⟨w, hw, hwmem⟩ := hb j (List.mem_cons_of_mem _ hj)
        have hji : j ≠ i := fun e => hnd.1 (e ▸ hj)
        refine ⟨w, ?_, hwmem⟩
        rw [hvs1]
        rw [List.getElem?_set_ne (fun e => hji e.symm)]
        exact hw)
      refine ⟨r, ?_, hrlen.trans (List.length_set _ _ _), ?_, ?_⟩
      · simp only [List.foldlM_cons, hv, hp, ok_bind]
        exact hrun
      · intro j hj
        simp only [List.mem_cons, not_or] at hj
        rw [hnotmem j hj.2]
        exact List.getElem?_set_ne (fun e => hj.1 e.symm)
      · intro j w hj hw
        rcases List.mem_cons.1 hj with rfl | hj2
        · rw [hv] at hw
          injection hw with hw
          subst hw
          have hres : r[j]? = some v1 := by
            rw [hnotmem j hnd.1]
            exact List.getElem?_set_self (by simpa using hi)
          refine ⟨v1, hres, rfl, rfl, List.length_set _ _ _, ?_, ?_⟩
          · intro s
            have := List.count_set fi s v.faces p hplt
            rw [hv1]
            simp only []
            rw [this, hpval]
            by_cases h1 : ({ index := len, sec := fi.sec } : SectionIndex) = s <;>
              by_cases h2 : fi = s <;>
              simp [h1, h2, beq_iff_eq]
          · intro s hs
            rcases List.mem_or_eq_of_mem_set hs with h | h
            · exact Or.inl h
            · exact Or.inr h
        · have hji : j ≠ i := fun e => hnd.1 (e ▸ hj2)
          have hw1 : vs1[j]? = some w := by
            rw [hvs1, List.getElem?_set_ne (fun e => hji e.symm)]
            exact hw
          exact hmem j w hj2 hw1

theorem count_filter_ne (l : List SectionIndex) (t s : SectionIndex) :
    (l.filter (fun x => x ≠ t)).count s = if s = t then 0 else l.count s := by
  by_cases hst : s = t
  · subst hst
    rw [if_pos rfl, List.count_eq_zero]
    intro hmem
    have := List.of_mem_filter hmem
    simp at this
  · rw [if_neg hst]
    exact List.count_filter (by simpa using hst)

theorem remove_face_internal_spec (k i : Nat) (cur : List (Face N V))
    (vertices : List (MeshVertex N V))
    (hi : i < cur.length)
    (removed moved : Face N V)
    (hrm : cur[i]? = some removed)
    (hmv : cur[cur.length - 1]? = some moved)
    (hrmb : ∀ vid ∈ removed.vertices, vid < vertices.length)
    (hmvnd : moved.vertices.Nodup)
    (hmv_mem : i ≠ cur.length - 1 → ∀ vid ∈ moved.vertices,
        ∃ v : MeshVertex N V, vertices[vid]? = some v ∧
          ({ sec := k, index := cur.length - 1 } : SectionIndex) ∈ v.faces) :
    ∃ fs' v',
      remove_face_internal cur vertices { sec := k, index := i } = .ok (fs', v') ∧
      fs'.length + 1 = cur.length ∧
      (∀ j, j < cur.length - 1 →
        fs'[j]? = if j = i then cur[cur.length - 1]? else cur[j]?) ∧
      (∀ j, cur.length - 1 ≤ j → fs'[j]? = none) ∧
      v'.length = vertices.length ∧
      (∀ j : Nat, (v'[j]?).map (fun v => v.data) =
        (vertices[j]?).map (fun v => v.data)) ∧
      (∀ j : Nat, (v'[j]?).map (fun v => v.vertex_normal) =
        (vertices[j]?).map (fun v => v.vertex_normal)) ∧
      (∀ j, j ∉ removed.vertices → (i = cur.length - 1 ∨ j ∉ moved.vertices) →
        v'[j]? = vertices[j]?) ∧
      (∀ j (v v2 : MeshVertex N V), vertices[j]? = some v → v'[j]? = some v2 →
        ∀ s : SectionIndex,
          v2.faces.count s =
            (if i ≠ cur.length - 1 ∧ j ∈ moved.vertices then
              (if s = { sec := k, index := i } ∧ j ∈ removed.vertices then 0
                else v.faces.count s)
                - (if ({ sec := k, index := cur.length - 1 } : SectionIndex) = s
                    then 1 else 0)
                + (if ({ sec := k, index := i } : SectionIndex) = s then 1 else 0)
            else
              (if s = { sec := k, index := i } ∧ j ∈ removed.vertices then 0
                else v.faces.count s))) ∧
      (∀ j (v v2 : MeshVertex N V), vertices[j]? = some v → v'[j]? = some v2 →
        ∀ s ∈ v2.faces, s ∈ v.faces ∨
          (i ≠ cur.length - 1 ∧ s = { sec := k, index := i } ∧ j ∈ moved.vertices)) := by
  obtain ⟨x, fs', hswap, hx, hfslen, hfsget, hfsnone⟩ := swapRemove_spec cur i hi
  rw [hrm] at hx
  injection hx with hx
  subst hx
  obtain ⟨v1, hstrip, hv1len, hv1mem, hv1not⟩ :=
    strip_fold_spec ({ sec := k, index := i } : SectionIndex) removed.vertices
      vertices hrmb
  have hlen' : fs'.length = cur.length - 1 := by
    have := hfslen
    rw [← this]
    simp
  by_cases hil : i = cur.length - 1
  · -- the removed slot was the last one: no patching
    refine ⟨fs', v1, ?_, hfslen, hfsget, hfsnone, hv1len, ?_, ?_, ?_, ?_, ?_⟩
    · simp only [remove_face_internal, hswap, ok_bind]
      rw [hstrip, ok_bind]
      rw [if_pos (show i = fs'.length by rw [hlen']; exact hil)]
    · intro j
      by_cases hj : j ∈ removed.vertices
      · rw [hv1mem j hj]
        cases vertices[j]? <;> rfl
      · rw [hv1not j hj]
    · intro j
      by_cases hj : j ∈ removed.vertices
      · rw [hv1mem j hj]
        cases vertices[j]? <;> rfl
      · rw [hv1not j hj]
    · intro j hj _
      exact hv1not j hj
    · intro j v v2 hv hv2 s
      rw [if_neg (by simp [hil])]
      by_cases hj : j ∈ removed.vertices
      · rw [hv1mem j hj, hv] at hv2
        injection hv2 with hv2
        subst hv2
        simp only []
        rw [count_filter_ne]
        by_cases hs : s = ({ sec := k, index := i } : SectionIndex)
        · rw [if_pos hs, if_pos ⟨hs, hj⟩]
        · rw [if_neg hs, if_neg (fun h => hs h.1)]
      · rw [hv1not j hj, hv] at hv2
        injection hv2 with hv2
        subst hv2
        rw [if_neg (fun h => hj h.2)]
    · intro j v v2 hv hv2 s hs
      by_cases hj : j ∈ removed.vertices
      · rw [hv1mem j hj, hv] at hv2
        injection hv2 with hv2
        subst hv2
        exact Or.inl (List.mem_of_mem_filter hs)
      · rw [hv1not j hj, hv] at hv2
        injection hv2 with hv2
        subst hv2
        exact Or.inl hs
  · -- a face is moved into the vacated slot and gets patched
    have hilt : i < cur.length - 1 :=
      Nat.lt_of_le_of_ne (Nat.le_sub_one_of_lt hi) hil
    have hmvget : fs'[i]? = some moved := by
      rw [hfsget i hilt, if_pos rfl]
      exact hmv
    have hpatchpre : ∀ vid ∈ moved.vertices,
        ∃ v : MeshVertex N V, v1[vid]? = some v ∧
          ({ index := cur.length - 1, sec := k } : SectionIndex) ∈ v.faces := by
      intro vid hvid
      obtain ⟨v, hv, hvmem⟩ := hmv_mem hil vid hvid
      by_cases hj : vid ∈ removed.vertices
      · refine ⟨_, by rw [hv1mem vid hj, hv]; rfl, ?_⟩
        simp only []
        rw [List.mem_filter]
        refine ⟨hvmem, ?_⟩
        simp only [decide_eq_true_eq]
        intro he
        have : cur.length - 1 = i := congrArg SectionIndex.index he
        exact hil this.symm
      · exact ⟨v, by rw [hv1not vid hj]; exact hv, hvmem⟩
    obtain ⟨v2, hpatch, hv2len, hv2not, hv2mem⟩ :=
      patch_fold_spec ({ sec := k, index := i } : SectionIndex) (cur.length - 1)
        moved.vertices hmvnd v1 hpatchpre
    have hstripdata : ∀ j : Nat, (v1[j]?).map (fun v : MeshVertex N V => v.data) =
        (vertices[j]?).map (fun v : MeshVertex N V => v.data) := by
      intro j
      by_cases hj : j ∈ removed.vertices
      · rw [hv1mem j hj]
        cases vertices[j]? <;> rfl
      · rw [hv1not j hj]
    have hstripnorm : ∀ j : Nat, (v1[j]?).map (fun v : MeshVertex N V => v.vertex_normal) =
        (vertices[j]?).map (fun v : MeshVertex N V => v.vertex_normal) := by
      intro j
      by_cases hj : j ∈ removed.vertices
      · rw [hv1mem j hj]
        cases vertices[j]? <;> rfl
      · rw [hv1not j hj]
    have hstripcount : ∀ (j : Nat) (v w : MeshVertex N V), vertices[j]? = some v →
        v1[j]? = some w → ∀ s : SectionIndex,
        w.faces.count s =
          (if s = { sec := k, index := i } ∧ j ∈ removed.vertices then 0
            else v.faces.count s) := by
      intro j v w hv hw s
      by_cases hj : j ∈ removed.vertices
      · rw [hv1mem j hj, hv] at hw
        injection hw with hw
        subst hw
        simp only []
        rw [count_filter_ne]
        by_cases hs : s = ({ sec := k, index := i } : SectionIndex)
        · rw [if_pos hs, if_pos ⟨hs, hj⟩]
        · rw [if_neg hs, if_neg (fun h => hs h.1)]
      · rw [hv1not j hj, hv] at hw
        injection hw with hw
        subst hw
        rw [if_neg (fun h => hj h.2)]
    have hstripmem : ∀ (j : Nat) (v w : MeshVertex N V), vertices[j]? = some v →
        v1[j]? = some w → ∀ s ∈ w.faces, s ∈ v.faces := by
      intro j v w hv hw s hs
      by_cases hj : j ∈ removed.vertices
      · rw [hv1mem j hj, hv] at hw
        injection hw with hw
        subst hw
        exact List.mem_of_mem_filter hs
      · rw [hv1not j hj, hv] at hw
        injection hw with hw
        subst hw
        exact hs
    refine ⟨fs', v2, ?_, hfslen, hfsget, hfsnone, hv2len.trans hv1len, ?_, ?_, ?_, ?_, ?_⟩
    · simp only [remove_face_internal, hswap, ok_bind]
      rw [hstrip, ok_bind]
      rw [if_neg (show ¬ i = fs'.length by rw [hlen']; exact hil)]
      simp only [hmvget]
      rw [hlen']
      rw [hpatch, ok_bind]
    · intro j
      by_cases hjm : j ∈ moved.vertices
      · obtain ⟨w, hw, _⟩ := hpatchpre j hjm
        obtain ⟨w', hw', hdata, _, _, _, _⟩ := hv2mem j w hjm hw
        rw [hw']
        have hsd := hstripdata j
        rw [hw] at hsd
        rw [← hsd]
        simp [hdata]
      · rw [hv2not j hjm]
        exact hstripdata j
    · intro j
      by_cases hjm : j ∈ moved.vertices
      · obtain ⟨w, hw, _⟩ := hpatchpre j hjm
        obtain ⟨w', hw', _, hnorm, _, _, _⟩ := hv2mem j w hjm hw
        rw [hw']
        have hsn := hstripnorm j
        rw [hw] at hsn
        rw [← hsn]
        simp [hnorm]
      · rw [hv2not j hjm]
        exact hstripnorm j
    · intro j hjr hjor
      rcases hjor with he | hjm
      · exact absurd he hil
      · rw [hv2not j hjm]
        exact hv1not j hjr
    · intro j v vv hv hvv s
      by_cases hjm : j ∈ moved.vertices
      · obtain ⟨w, hw, _⟩ := hpatchpre j hjm
        obtain ⟨w', hw', _, _, _, hcount, _⟩ := hv2mem j w hjm hw
        rw [hw'] at hvv
        injection hvv with hvv
        subst hvv
        rw [if_pos ⟨hil, hjm⟩, hcount s, hstripcount j v w hv hw s]
      · rw [hv2not j hjm] at hvv
        rw [if_neg (fun h => hjm h.2)]
        exact hstripcount j v vv hv hvv s
    · intro j v vv hv hvv s hs
      by_cases hjm : j ∈ moved.vertices
      · obtain ⟨w, hw, _⟩ := hpatchpre j hjm
        obtain ⟨w', hw', _, _, _, _, hmem2⟩ := hv2mem j w hjm hw
        rw [hw'] at hvv
        injection hvv with hvv
        subst hvv
        rcases hmem2 s hs with h | h
        · exact Or.inl (hstripmem j v w hv hw s h)
        · exact Or.inr ⟨hil, h, hjm⟩
      · rw [hv2not j hjm] at hvv
        exact Or.inl (hstripmem j v vv hv hvv s hs)

theorem mem_setSection_strong {α : Type} {m : List (Nat × α)} {k : Nat} {v : α}
    {kv : Nat × α} (hsort : m.Pairwise (fun a b => a.1 < b.1))
    (h : kv ∈ setSection m k v) :
    kv = (k, v) ∨ (kv ∈ m ∧ kv.1 ≠ k) := by
  induction m with
  | nil =>
      simp only [setSection] at h
      rcases List.mem_singleton.1 h with rfl
      exact Or.inl rfl
  | cons q rest ih =>
      obtain ⟨qk, qv⟩ := q
      rw [List.pairwise_cons] at hsort
      by_cases hq : k = qk
      · subst hq
        simp only [setSection, if_pos rfl] at h
        rcases List.mem_cons.1 h with h | h
        · exact Or.inl h
        · right
          refine ⟨List.mem_cons_of_mem _ h, ?_⟩
          intro he
          exact Nat.lt_irrefl _ (he ▸ hsort.1 kv h)
      · rcases Nat.lt_or_ge k qk with hlt | hge
        · simp only [setSection, if_neg hq, if_pos hlt] at h
          rcases List.mem_cons.1 h with h | h
          · exact Or.inl h
          · rcases List.mem_cons.1 h with h2 | h2
            · right
              refine ⟨List.mem_cons.2 (Or.inl h2), ?_⟩
              rw [h2]
              exact fun e => hq e.symm
            · right
              refine ⟨List.mem_cons_of_mem _ h2, ?_⟩
              intro he
              have := hsort.1 kv h2
              rw [he] at this
              exact Nat.lt_irrefl _ (Nat.lt_trans hlt this)
        · have hnlt : ¬ k < qk := Nat.not_lt.2 hge
          simp only [setSection, if_neg hq, if_neg hnlt] at h
          rcases List.mem_cons.1 h with h | h
          · right
            refine ⟨List.mem_cons.2 (Or.inl h), ?_⟩
            rw [h]
            exact fun e => hq e.symm
          · rcases ih hsort.2 h with h | h
            · exact Or.inl h
            · exact Or.inr ⟨List.mem_cons_of_mem _ h.1, h.2⟩

theorem remove_face_internal_WF (g : MeshGeometry P N V) (k i : Nat)
    (cur : List (Face N V)) (hwf : WF g)
    (hlk : sectLookup g.faces k = some cur) (hi : i < cur.length) :
    ∃ (removed moved : Face N V) (fs' : List (Face N V)) (v' : List (MeshVertex N V)),
      cur[i]? = some removed ∧ cur[cur.length - 1]? = some moved ∧
      remove_face_internal cur g.vertices { sec := k, index := i } = .ok (fs', v') ∧
      WF { g with faces := setSection g.faces k fs', vertices := v' } ∧
      fs'.length + 1 = cur.length ∧
      (∀ j, j < cur.length - 1 →
        fs'[j]? = if j = i then cur[cur.length - 1]? else cur[j]?) ∧
      (∀ j, cur.length - 1 ≤ j → fs'[j]? = none) ∧
      v'.length = g.vertices.length ∧
      (∀ j : Nat, (v'[j]?).map (fun v : MeshVertex N V => v.data) =
        (g.vertices[j]?).map (fun v : MeshVertex N V => v.data)) ∧
      (∀ j : Nat, (v'[j]?).map (fun v : MeshVertex N V => v.vertex_normal) =
        (g.vertices[j]?).map (fun v : MeshVertex N V => v.vertex_normal)) ∧
      (∀ j, j ∉ removed.vertices → (i = cur.length - 1 ∨ j ∉ moved.vertices) →
        v'[j]? = g.vertices[j]?) ∧
      (∀ j (v v2 : MeshVertex N V), g.vertices[j]? = some v → v'[j]? = some v2 →
        ∀ s : SectionIndex,
          v2.faces.count s =
            (if i ≠ cur.length - 1 ∧ j ∈ moved.vertices then
              (if s = { sec := k, index := i } ∧ j ∈ removed.vertices then 0
                else v.faces.count s)
                - (if ({ sec := k, index := cur.length - 1 } : SectionIndex) = s
                    then 1 else 0)
                + (if ({ sec := k, index := i } : SectionIndex) = s then 1 else 0)
            else
              (if s = { sec := k, index := i } ∧ j ∈ removed.vertices then 0
                else v.faces.count s))) := by
  obtain ⟨hA, hB⟩ := (inv_iff g).1 hwf.inv
  have hmemcur : (k, cur) ∈ g.faces := mem_of_sectLookup hlk
  have hfverts : ∀ (idx : Nat) (f : Face N V), cur[idx]? = some f →
      ∀ vid ∈ f.vertices, ∃ v : MeshVertex N V, g.vertices[vid]? = some v ∧
        v.faces.count { sec := k, index := idx } = 1 :=
    fun idx f hf vid hv => hB (k, cur) hmemcur idx f hf vid hv
  have hlpos : 0 < cur.length := Nat.lt_of_le_of_lt (Nat.zero_le _) hi
  have hlast_lt : cur.length - 1 < cur.length := Nat.sub_lt hlpos Nat.one_pos
  obtain ⟨removed, hrm⟩ : ∃ f, cur[i]? = some f := ⟨_, List.getElem?_eq_getElem hi⟩
  obtain ⟨moved, hmv⟩ : ∃ f, cur[cur.length - 1]? = some f :=
    ⟨_, List.getElem?_eq_getElem hlast_lt⟩
  have hrmb : ∀ vid ∈ removed.vertices, vid < g.vertices.length := by
    intro vid hv
    obtain ⟨v, hventry, _⟩ := hfverts i removed hrm vid hv
    exact getElem?_some_lt hventry
  have hmvwf := hwf.faces_wf (k, cur) hmemcur moved (List.mem_iff_getElem?.2 ⟨_, hmv⟩)
  have hmv_mem : i ≠ cur.length - 1 → ∀ vid ∈ moved.vertices,
      ∃ v : MeshVertex N V, g.vertices[vid]? = some v ∧
        ({ sec := k, index := cur.length - 1 } : SectionIndex) ∈ v.faces := by
    intro _ vid hv
    obtain ⟨v, hventry, hcnt⟩ := hfverts (cur.length - 1) moved hmv vid hv
    refine ⟨v, hventry, ?_⟩
    by_contra hnm
    rw [List.count_eq_zero.2 hnm] at hcnt
    cases hcnt
  obtain ⟨fs', v', hrun, hfslen, hfsget, hfsnone, hvlen, hdata, hnorm, huntouched,
      hcount, hmem⟩ :=
    remove_face_internal_spec k i cur g.vertices hi removed moved hrm hmv hrmb
      hmvwf.1 hmv_mem
  have hfslen' : fs'.length = cur.length - 1 := by omega
  have hsome' : ∀ (j : Nat) (v : MeshVertex N V), g.vertices[j]? = some v →
      ∃ vn : MeshVertex N V, v'[j]? = some vn := by
    intro j v hv
    have hd := hdata j
    rw [hv] at hd
    rcases h2 : v'[j]? with _ | vn
    · rw [h2] at hd
      cases hd
    · exact ⟨vn, rfl⟩
  have hsome2 : ∀ (j : Nat) (vn : MeshVertex N V), v'[j]? = some vn →
      ∃ v : MeshVertex N V, g.vertices[j]? = some v := by
    intro j vn hvn
    have hd := hdata j
    rw [hvn] at hd
    rcases h2 : g.vertices[j]? with _ | v
    · rw [h2] at hd
      cases hd
    · exact ⟨v, rfl⟩
  have hlookup1 : sectLookup (setSection g.faces k fs') k = some fs' :=
    sectLookup_setSection_self _ _ _
  have hlookup2 : ∀ s, s ≠ k →
      sectLookup (setSection g.faces k fs') s = sectLookup g.faces s :=
    fun s hs => sectLookup_setSection_ne _ _ _ _ hs
  have hfinotin : ∀ (vid : Nat) (v : MeshVertex N V), g.vertices[vid]? = some v →
      vid ∉ removed.vertices →
      v.faces.count { sec := k, index := i } = 0 := by
    intro vid v hv hnr
    rw [List.count_eq_zero]
    intro hmem2
    obtain ⟨f, hfat, hfm⟩ := hA vid v hv _ hmem2
    unfold faceAt at hfat
    simp only [hlk, Option.some_bind] at hfat
    rw [hrm] at hfat
    injection hfat with hfat
    subst hfat
    exact hnr hfm
  refine ⟨removed, moved, fs', v', hrm, hmv, hrun, ?_, hfslen, hfsget, hfsnone,
    hvlen, hdata, hnorm, huntouched, hcount⟩
  refine ⟨?_, ?_, ?_, ?_, ?_, ?_, ?_⟩
  · exact hwf.next_eq.trans hvlen.symm
  · exact hwf.idx_lt
  · exact hwf.keys_nodup
  · exact hwf.idx_len
  · exact setSection_pairwise hwf.sec_sorted
  · intro kv hkv f hfm
    rcases mem_setSection_strong hwf.sec_sorted hkv with he | ⟨hold, _⟩
    · subst he
      obtain ⟨j, hj⟩ := List.mem_iff_getElem?.1 hfm
      have hjlt : j < fs'.length := getElem?_some_lt hj
      rw [hfslen'] at hjlt
      have := hfsget j hjlt
      rw [hj] at this
      by_cases hji : j = i
      · rw [if_pos hji] at this
        rw [hmv] at this
        injection this with this
        exact hwf.faces_wf (k, cur) hmemcur f
          (List.mem_iff_getElem?.2 ⟨_, by rw [hmv, this]⟩)
      · rw [if_neg hji] at this
        exact hwf.faces_wf (k, cur) hmemcur f (List.mem_iff_getElem?.2 ⟨j, this.symm⟩)
    · exact hwf.faces_wf kv hold f hfm
  · rw [inv_iff]
    constructor
    · -- part (a): every back-reference in the new state resolves
      intro vid vn hvn s hs
      obtain ⟨v, hv⟩ := hsome2 vid vn hvn
      obtain ⟨ssec, sidx⟩ := s
      rcases hmem vid v vn hv hvn _ hs with hsold | ⟨hil, hsfi, hvidmv⟩
      · by_cases hsk : ssec = k
        · rw [hsk] at hs hsold ⊢
          obtain ⟨f, hfat, hfm⟩ := hA vid v hv _ hsold
          unfold faceAt at hfat
          simp only [hlk, Option.some_bind] at hfat
          have hslt : sidx < cur.length := getElem?_some_lt hfat
          by_cases hsi : sidx = i
          · rw [hsi] at hs hfat ⊢
            rw [hrm] at hfat
            injection hfat with hfat
            have hvidrm : vid ∈ removed.vertices := by
              rw [hfat]
              exact hfm
            have hcnt := hcount vid v vn hv hvn { sec := k, index := i }
            by_cases hpatch : i ≠ cur.length - 1 ∧ vid ∈ moved.vertices
            · refine ⟨moved, ?_, hpatch.2⟩
              unfold faceAt
              simp only [hlookup1, Option.some_bind]
              rw [hfsget i (by omega), if_pos rfl]
              exact hmv
            · exfalso
              rw [if_neg hpatch, if_pos ⟨rfl, hvidrm⟩] at hcnt
              exact (List.count_eq_zero.1 hcnt) hs
          · by_cases hslast : sidx = cur.length - 1
            · exfalso
              rw [hslast] at hs hfat
              rw [hmv] at hfat
              injection hfat with hfat
              have hfm2 : vid ∈ moved.vertices := by
                rw [hfat]
                exact hfm
              have hil2 : i ≠ cur.length - 1 := by
                intro he
                rw [← he] at hslast
                exact hsi hslast
              have hcnt := hcount vid v vn hv hvn { sec := k, index := cur.length - 1 }
              rw [if_pos ⟨hil2, hfm2⟩] at hcnt
              obtain ⟨v0, hv0, hcnt1⟩ := hfverts (cur.length - 1) moved hmv vid hfm2
              rw [hv0] at hv
              injection hv with hv
              rw [hv] at hcnt1
              have hne1 : ¬ (({ sec := k, index := cur.length - 1 } : SectionIndex) =
                  { sec := k, index := i } ∧ vid ∈ removed.vertices) := by
                rintro ⟨he, _⟩
                exact hil2 ((congrArg SectionIndex.index he).symm)
              have hne2 : ({ sec := k, index := i } : SectionIndex) ≠
                  { sec := k, index := cur.length - 1 } := by
                intro he
                exact hil2 (congrArg SectionIndex.index he)
              rw [if_neg hne1, if_pos rfl, if_neg hne2, hcnt1] at hcnt
              simp only [Nat.sub_self, Nat.add_zero] at hcnt
              exact (List.count_eq_zero.1 hcnt) hs
            · obtain ⟨ff, hfat2, hfm2⟩ : ∃ ff, cur[sidx]? = some ff ∧ vid ∈ ff.vertices :=
                ⟨f, hfat, hfm⟩
              refine ⟨ff, ?_, hfm2⟩
              unfold faceAt
              simp only [hlookup1, Option.some_bind]
              rw [hfsget sidx (by omega), if_neg hsi]
              exact hfat2
        · obtain ⟨f, hfat, hfm⟩ := hA vid v hv _ hsold
          refine ⟨f, ?_, hfm⟩
          unfold faceAt at hfat ⊢
          simp only []
          rw [hlookup2 ssec hsk]
          exact hfat
      · have hse : ssec = k := congrArg SectionIndex.sec hsfi
        have hsi2 : sidx = i := congrArg SectionIndex.index hsfi
        rw [hse, hsi2]
        refine ⟨moved, ?_, hvidmv⟩
        unfold faceAt
        simp only [hlookup1, Option.some_bind]
        rw [hfsget i (by omega), if_pos rfl]
        exact hmv
    · -- part (b): every stored face back-references once
      intro kv hkv idx f hf vid hvid
      rcases mem_setSection_strong hwf.sec_sorted hkv with he | ⟨hold, hkne⟩
      · subst he
        have hidxlt : idx < fs'.length := getElem?_some_lt hf
        have hidxlt1 : idx < cur.length - 1 := by omega
        have hface := hfsget idx hidxlt1
        rw [hf] at hface
        by_cases hidxi : idx = i
        · rw [if_pos hidxi] at hface
          rw [hmv] at hface
          injection hface with hface
          have hvidmv : vid ∈ moved.vertices := by
            rw [← hface]
            exact hvid
          obtain ⟨v0, hv0, hcnt1⟩ := hfverts (cur.length - 1) moved hmv vid hvidmv
          obtain ⟨vn, hvn⟩ := hsome' vid v0 hv0
          refine ⟨vn, hvn, ?_⟩
          have hcnt := hcount vid v0 vn hv0 hvn { sec := k, index := idx }
          have hil : i ≠ cur.length - 1 := by omega
          rw [if_pos ⟨hil, hvidmv⟩] at hcnt
          have hbase : (if ({ sec := k, index := idx } : SectionIndex) =
              { sec := k, index := i } ∧ vid ∈ removed.vertices then 0
                else v0.faces.count { sec := k, index := idx }) = 0 := by
            by_cases hvr : vid ∈ removed.vertices
            · rw [if_pos ⟨by rw [hidxi], hvr⟩]
            · rw [if_neg (fun h => hvr h.2)]
              rw [hidxi]
              exact hfinotin vid v0 hv0 hvr
          rw [hbase] at hcnt
          rw [if_neg ?hne3, if_pos (by rw [hidxi])] at hcnt
          case hne3 =>
            intro he
            have := congrArg SectionIndex.index he
            simp only [] at this
            omega
          simpa using hcnt
        · rw [if_neg hidxi] at hface
          obtain ⟨v0, hv0, hcnt1⟩ := hfverts idx f hface.symm vid hvid
          obtain ⟨vn, hvn⟩ := hsome' vid v0 hv0
          refine ⟨vn, hvn, ?_⟩
          have hcnt := hcount vid v0 vn hv0 hvn { sec := k, index := idx }
          have hne1 : ¬ (({ sec := k, index := idx } : SectionIndex) =
              { sec := k, index := i } ∧ vid ∈ removed.vertices) := by
            rintro ⟨he, _⟩
            exact hidxi (congrArg SectionIndex.index he)
          have hne2 : ({ sec := k, index := cur.length - 1 } : SectionIndex) ≠
              { sec := k, index := idx } := by
            intro he
            have := congrArg SectionIndex.index he
            simp only [] at this
            omega
          have hne3 : ({ sec := k, index := i } : SectionIndex) ≠
              { sec := k, index := idx } := by
            intro he
            have := congrArg SectionIndex.index he
            simp only [] at this
            omega
          by_cases hpatch : i ≠ cur.length - 1 ∧ vid ∈ moved.vertices
          · rw [if_pos hpatch, if_neg hne1, if_neg hne2, if_neg hne3] at hcnt
            simpa [hcnt1] using hcnt
          · rw [if_neg hpatch, if_neg hne1] at hcnt
            rw [hcnt1] at hcnt
            exact hcnt
      · obtain ⟨v0, hv0, hcnt1⟩ := hB kv hold idx f hf vid hvid
        obtain ⟨vn, hvn⟩ := hsome' vid v0 hv0
        refine ⟨vn, hvn, ?_⟩
        have hcnt := hcount vid v0 vn hv0 hvn { sec := kv.1, index := idx }
        have hne1 : ¬ (({ sec := kv.1, index := idx } : SectionIndex) =
            { sec := k, index := i } ∧ vid ∈ removed.vertices) := by
          rintro ⟨he, _⟩
          exact hkne (congrArg SectionIndex.sec he)
        have hne2 : ({ sec := k, index := cur.length - 1 } : SectionIndex) ≠
            { sec := kv.1, index := idx } := by
          intro he
          exact hkne ((congrArg SectionIndex.sec he).symm)
        have hne3 : ({ sec := k, index := i } : SectionIndex) ≠
            { sec := kv.1, index := idx } := by
          intro he
          exact hkne ((congrArg SectionIndex.sec he).symm)
        by_cases hpatch : i ≠ cur.length - 1 ∧ vid ∈ moved.vertices
        · rw [if_pos hpatch, if_neg hne1, if_neg hne2, if_neg hne3] at hcnt
          simpa [hcnt1] using hcnt
        · rw [if_neg hpatch, if_neg hne1] at hcnt
          rw [hcnt1] at hcnt
          exact hcnt

theorem add_vertex_face_ok (vs : List (MeshVertex N V)) (i : Nat)
    (fi : SectionIndex) (v : MeshVertex N V) (hv : vs[i]? = some v) :
    add_vertex_face vs i fi = .ok (vs.set i { v with faces := v.faces ++ [fi] }) := by
  unfold add_vertex_face
  rw [hv]

theorem push3_spec (vs : List (MeshVertex N V)) (a b c : Nat) (fi : SectionIndex)
    (hab : a ≠ b) (hac : a ≠ c) (hbc : b ≠ c)
    (ha : a < vs.length) (hb : b < vs.length) (hc : c < vs.length) :
    ∃ r1 r2 r, add_vertex_face vs a fi = .ok r1 ∧
      add_vertex_face r1 b fi = .ok r2 ∧
      add_vertex_face r2 c fi = .ok r ∧
      r.length = vs.length ∧
      (∀ j, j ≠ a → j ≠ b → j ≠ c → r[j]? = vs[j]?) ∧
      (∀ j (v : MeshVertex N V), (j = a ∨ j = b ∨ j = c) → vs[j]? = some v →
        r[j]? = some { v with faces := v.faces ++ [fi] }) := by
  obtain ⟨va, hva⟩ : ∃ v, vs[a]? = some v := ⟨_, List.getElem?_eq_getElem ha⟩
  obtain ⟨vb, hvb⟩ : ∃ v, vs[b]? = some v := ⟨_, List.getElem?_eq_getElem hb⟩
  obtain ⟨vc, hvc⟩ : ∃ v, vs[c]? = some v := ⟨_, List.getElem?_eq_getElem hc⟩
  set va' : MeshVertex N V := { va with faces := va.faces ++ [fi] } with hva'
  set vb' : MeshVertex N V := { vb with faces := vb.faces ++ [fi] } with hvb'
  set vc' : MeshVertex N V := { vc with faces := vc.faces ++ [fi] } with hvc'
  have h1 := add_vertex_face_ok vs a fi va hva
  set vs1 := vs.set a va' with hvs1
  have hvb1 : vs1[b]? = some vb := by
    rw [hvs1, List.getElem?_set_ne hab]
    exact hvb
  have h2 := add_vertex_face_ok vs1 b fi vb hvb1
  set vs2 := vs1.set b vb' with hvs2
  have hvc2 : vs2[c]? = some vc := by
    rw [hvs2, List.getElem?_set_ne hbc, hvs1, List.getElem?_set_ne hac]
    exact hvc
  have h3 := add_vertex_face_ok vs2 c fi vc hvc2
  refine ⟨vs1, vs2, vs2.set c vc', h1, ?_, h3, ?_, ?_, ?_⟩
  · exact h2
  · simp [hvs2, hvs1]
  · intro j hja hjb hjc
    rw [List.getElem?_set_ne (fun e => hjc e.symm), hvs2,
      List.getElem?_set_ne (fun e => hjb e.symm), hvs1,
      List.getElem?_set_ne (fun e => hja e.symm)]
  · rintro j v (rfl | rfl | rfl) hv
    · rw [hva] at hv
      injection hv with hv
      subst hv
      rw [List.getElem?_set_ne (fun e => hac e.symm), hvs2,
        List.getElem?_set_ne (fun e => hab e.symm), hvs1,
        List.getElem?_set_self (by simpa using ha)]
    · rw [hvb] at hv
      injection hv with hv
      subst hv
      rw [List.getElem?_set_ne (fun e => hbc e.symm), hvs2,
        List.getElem?_set_self (by simp [hvs1]; exact hb)]
    · rw [hvc] at hv
      injection hv with hv
      subst hv
      rw [List.getElem?_set_self (by simp [hvs2, hvs1]; exact hc)]

theorem append_face_WF (g : MeshGeometry P N V) (k : Nat) (cur : List (Face N V))
    (f : Face N V) (vs' : List (MeshVertex N V))
    (hwf : WF g) (hlk : sectLookup g.faces k = some cur)
    (hnd : f.vertices.Nodup)
    (harity : f.vertices.length = 3 ∨ f.vertices.length = 4)
    (hb : ∀ vid ∈ f.vertices, vid < g.vertices.length)
    (hlen : vs'.length = g.vertices.length)
    (hunt : ∀ j, j ∉ f.vertices → vs'[j]? = g.vertices[j]?)
    (htch : ∀ j (v : MeshVertex N V), j ∈ f.vertices → g.vertices[j]? = some v →
       vs'[j]? = some { v with
         faces := v.faces ++ [{ sec := k, index := cur.length }] }) :
    WF { g with faces := setSection g.faces k (cur ++ [f]), vertices := vs' } := by
  obtain ⟨hA, hB⟩ := (inv_iff g).1 hwf.inv
  have hmemcur : (k, cur) ∈ g.faces := mem_of_sectLookup hlk
  have hlookup1 : sectLookup (setSection g.faces k (cur ++ [f])) k = some (cur ++ [f]) :=
    sectLookup_setSection_self _ _ _
  have hlookup2 : ∀ s, s ≠ k →
      sectLookup (setSection g.faces k (cur ++ [f])) s = sectLookup g.faces s :=
    fun s hs => sectLookup_setSection_ne _ _ _ _ hs
  have hfaceAt_mono : ∀ (s : SectionIndex) (ff : Face N V),
      faceAt g s = some ff →
      faceAt { g with faces := setSection g.faces k (cur ++ [f]), vertices := vs' }
        s = some ff := by
    intro s ff hfat
    unfold faceAt at hfat ⊢
    by_cases hss : s.sec = k
    · rw [hss] at hfat ⊢
      simp only [hlk, Option.some_bind] at hfat
      simp only [hlookup1, Option.some_bind]
      have hlt : s.index < cur.length := getElem?_some_lt hfat
      rw [List.getElem?_append]
      simp [hlt, hfat]
    · simp only []
      rw [hlookup2 s.sec hss]
      exact hfat
  have hnewnotin : ∀ (vid : Nat) (v : MeshVertex N V), g.vertices[vid]? = some v →
      ({ sec := k, index := cur.length } : SectionIndex) ∉ v.faces := by
    intro vid v hv hmem2
    obtain ⟨ff, hfat, _⟩ := hA vid v hv _ hmem2
    unfold faceAt at hfat
    simp only [hlk, Option.some_bind] at hfat
    rw [List.getElem?_eq_none (Nat.le_refl _)] at hfat
    cases hfat
  refine ⟨?_, ?_, ?_, ?_, ?_, ?_, ?_⟩
  · exact hwf.next_eq.trans hlen.symm
  · exact hwf.idx_lt
  · exact hwf.keys_nodup
  · exact hwf.idx_len
  · exact setSection_pairwise hwf.sec_sorted
  · intro kv hkv ff hfm
    rcases mem_setSection_strong hwf.sec_sorted hkv with he | ⟨hold, _⟩
    · subst he
      rcases List.mem_append.1 hfm with hm | hm
      · exact hwf.faces_wf (k, cur) hmemcur ff hm
      · rw [List.mem_singleton.1 hm]
        exact ⟨hnd, harity⟩
    · exact hwf.faces_wf kv hold ff hfm
  · rw [inv_iff]
    constructor
    · intro vid vn hvn s hs
      by_cases hvid : vid ∈ f.vertices
      · obtain ⟨v, hv⟩ : ∃ v, g.vertices[vid]? = some v :=
          ⟨_, List.getElem?_eq_getElem (hb vid hvid)⟩
        have htc := htch vid v hvid hv
        rw [hvn] at htc
        injection htc with htc
        subst htc
        rcases List.mem_append.1 hs with hold | hnew
        · obtain ⟨ff, hfat, hfm⟩ := hA vid v hv s hold
          exact ⟨ff, hfaceAt_mono s ff hfat, hfm⟩
        · rcases List.mem_singleton.1 hnew with rfl
          refine ⟨f, ?_, hvid⟩
          unfold faceAt
          simp only [hlookup1, Option.some_bind]
          rw [List.getElem?_concat_length]
      · have hvold : g.vertices[vid]? = some vn := by
          rw [← hunt vid hvid]
          exact hvn
        obtain ⟨ff, hfat, hfm⟩ := hA vid vn hvold s hs
        exact ⟨ff, hfaceAt_mono s ff hfat, hfm⟩
    · intro kv hkv idx ff hf vid hvid
      rcases mem_setSection_strong hwf.sec_sorted hkv with he | ⟨hold, hkne⟩
      · subst he
        rcases Nat.lt_trichotomy idx cur.length with hlt | heq | hgt
        · have hfold : cur[idx]? = some ff := by
            rw [List.getElem?_append] at hf
            simpa [hlt] using hf
          obtain ⟨v, hv, hcnt⟩ := hB (k, cur) hmemcur idx ff hfold vid hvid
          by_cases hvidf : vid ∈ f.vertices
          · have htc := htch vid v hvidf hv
            refine ⟨_, htc, ?_⟩
            rw [List.count_append, hcnt]
            have : ({ sec := k, index := cur.length } : SectionIndex) ≠
                { sec := k, index := idx } := by
              intro he
              have := congrArg SectionIndex.index he
              simp only [] at this
              omega
            simp [List.count_singleton, this]
          · refine ⟨v, ?_, hcnt⟩
            rw [hunt vid hvidf]
            exact hv
        · have hff : ff = f := by
            rw [heq, List.getElem?_concat_length] at hf
            injection hf with hf
            exact hf.symm
          subst hff
          obtain ⟨v, hv⟩ : ∃ v, g.vertices[vid]? = some v :=
            ⟨_, List.getElem?_eq_getElem (hb vid hvid)⟩
          have htc := htch vid v hvid hv
          refine ⟨_, htc, ?_⟩
          rw [heq, List.count_append,
            List.count_eq_zero.2 (hnewnotin vid v hv)]
          simp [List.count_singleton]
        · exfalso
          have : (cur ++ [f]).length ≤ idx := by
            simp only [List.length_append, List.length_singleton]
            exact Nat.succ_le_of_lt hgt
          rw [List.getElem?_eq_none this] at hf
          cases hf
      · obtain ⟨v, hv, hcnt⟩ := hB kv hold idx ff hf vid hvid
        by_cases hvidf : vid ∈ f.vertices
        · obtain ⟨w, hw⟩ : ∃ w, g.vertices[vid]? = some w :=
            ⟨_, List.getElem?_eq_getElem (hb vid hvidf)⟩
          rw [hw] at hv
          injection hv with hv
          have hcnt2 : w.faces.count { sec := kv.1, index := idx } = 1 := by
            rw [hv]
            exact hcnt
          have htc := htch vid w hvidf hw
          refine ⟨_, htc, ?_⟩
          rw [List.count_append, hcnt2]
          have : ({ sec := k, index := cur.length } : SectionIndex) ≠
              { sec := kv.1, index := idx } := by
            intro he
            exact hkne ((congrArg SectionIndex.sec he).symm)
          simp [List.count_singleton, this]
        · refine ⟨v, ?_, hcnt⟩
          rw [hunt vid hvidf]
          exact hv

theorem setSection_setSection {α : Type} (m : List (Nat × α)) (k : Nat) (x y : α) :
    setSection (setSection m k x) k y = setSection m k y := by
  induction m with
  | nil => simp [setSection]
  | cons q rest ih =>
      obtain ⟨qk, qv⟩ := q
      by_cases hq : k = qk
      · subst hq
        simp [setSection]
      · rcases Nat.lt_or_ge k qk with hlt | hge
        · simp [setSection, hq, hlt]
        · have hnlt : ¬ k < qk := Nat.not_lt.2 hge
          simp [setSection, hq, hnlt, ih]

theorem triangulateQuad_WF (h : MeshGeometry P N V) (k : Nat)
    (cur : List (Face N V)) (i : Nat) (a b c d : Nat) (normal : Option N)
    (dt : Option V)
    (hwf : WF h) (hlk : sectLookup h.faces k = some cur) (hi : i < cur.length)
    (hnd : ([a, b, c, d] : List Nat).Nodup)
    (hbnd : ∀ v ∈ ([a, b, c, d] : List Nat), v < h.vertices.length) :
    ∃ fsR vs2,
      triangulateQuad k (cur, h.vertices)
          (i, [a, b, c, d], normal, dt) =
        .ok (fsR ++ [{ vertices := [a, b, c], face_normal := normal, data := dt },
                     { vertices := [a, c, d], face_normal := normal, data := dt }],
             vs2) ∧
      WF { h with
        faces := setSection h.faces k
          (fsR ++ [{ vertices := [a, b, c], face_normal := normal, data := dt },
                   { vertices := [a, c, d], face_normal := normal, data := dt }]),
        vertices := vs2 } ∧
      fsR.length + 1 = cur.length ∧
      (∀ j, j < cur.length - 1 →
        fsR[j]? = if j = i then cur[cur.length - 1]? else cur[j]?) ∧
      (∀ j, cur.length - 1 ≤ j → fsR[j]? = none) ∧
      vs2.length = h.vertices.length := by
  simp only [List.nodup_cons, List.mem_cons, List.not_mem_nil, or_false,
    List.nodup_nil, and_true, not_false_iff, not_or] at hnd
  obtain ⟨⟨hab, hac, had⟩, ⟨hbc, hbd⟩, hcd⟩ := hnd
  have ha : a < h.vertices.length := hbnd a (by simp)
  have hbb : b < h.vertices.length := hbnd b (by simp)
  have hcc : c < h.vertices.length := hbnd c (by simp)
  have hdd : d < h.vertices.length := hbnd d (by simp)
  obtain ⟨removed, moved, fs', v1, hrm, hmv, hrun1, hwf1, hfslen, hfsget, hfsnone,
      hv1len, _, _, _, _⟩ := remove_face_internal_WF h k i cur hwf hlk hi
  set t1 : Face N V := { vertices := [a, b, c], face_normal := normal, data := dt }
    with ht1
  set t2 : Face N V := { vertices := [a, c, d], face_normal := normal, data := dt }
    with ht2
  have hface3a : Face.face3 a b c normal dt = .ok t1 := by
    rw [Face.face3, if_neg (by tauto)]
  have hface3b : Face.face3 a c d normal dt = .ok t2 := by
    rw [Face.face3, if_neg (by tauto)]
  obtain ⟨r1, r2, rmid, hp1, hp2, hp3, hmidlen, hmidunt, hmidtch⟩ :=
    push3_spec v1 a b c { sec := k, index := fs'.length } hab hac hbc
      (by rw [hv1len]; exact ha) (by rw [hv1len]; exact hbb)
      (by rw [hv1len]; exact hcc)
  have hwf2 := append_face_WF _ k fs' t1 rmid hwf1 (sectLookup_setSection_self _ _ _)
    (by simp [ht1]; tauto)
    (by simp [ht1])
    (by
      intro vid hv
      simp only [ht1, List.mem_cons, List.not_mem_nil, or_false] at hv
      rcases hv with rfl | rfl | rfl
      · show vid < v1.length
        rw [hv1len]; exact ha
      · show vid < v1.length
        rw [hv1len]; exact hbb
      · show vid < v1.length
        rw [hv1len]; exact hcc)
    hmidlen
    (by
      intro j hj
      simp only [ht1, List.mem_cons, List.not_mem_nil, or_false, not_or] at hj
      exact hmidunt j hj.1 hj.2.1 hj.2.2)
    (by
      intro j v hj hv
      simp only [ht1, List.mem_cons, List.not_mem_nil, or_false] at hj
      rcases hj with rfl | rfl | rfl
      · exact hmidtch j v (Or.inl rfl) hv
      · exact hmidtch j v (Or.inr (Or.inl rfl)) hv
      · exact hmidtch j v (Or.inr (Or.inr rfl)) hv)
  dsimp only at hwf2
  rw [setSection_setSection] at hwf2
  obtain ⟨s1, s2, vs2, hq1, hq2, hq3, hvs2len, hvs2unt, hvs2tch⟩ :=
    push3_spec rmid a c d { sec := k, index := (fs' ++ [t1]).length } hac had hcd
      (by rw [hmidlen, hv1len]; exact ha)
      (by rw [hmidlen, hv1len]; exact hcc)
      (by rw [hmidlen, hv1len]; exact hdd)
  have hwf3 := append_face_WF _ k (fs' ++ [t1]) t2 vs2 hwf2
    (sectLookup_setSection_self _ _ _)
    (by simp [ht2]; tauto)
    (by simp [ht2])
    (by
      intro vid hv
      simp only [ht2, List.mem_cons, List.not_mem_nil, or_false] at hv
      rcases hv with rfl | rfl | rfl
      · show vid < rmid.length
        rw [hmidlen, hv1len]; exact ha
      · show vid < rmid.length
        rw [hmidlen, hv1len]; exact hcc
      · show vid < rmid.length
        rw [hmidlen, hv1len]; exact hdd)
    hvs2len
    (by
      intro j hj
      simp only [ht2, List.mem_cons, List.not_mem_nil, or_false, not_or] at hj
      exact hvs2unt j hj.1 hj.2.1 hj.2.2)
    (by
      intro j v hj hv
      simp only [ht2, List.mem_cons, List.not_mem_nil, or_false] at hj
      rcases hj with rfl | rfl | rfl
      · exact hvs2tch j v (Or.inl rfl) hv
      · exact hvs2tch j v (Or.inr (Or.inl rfl)) hv
      · exact hvs2tch j v (Or.inr (Or.inr rfl)) hv)
  dsimp only at hwf3
  rw [setSection_setSection] at hwf3
  refine ⟨fs', vs2, ?_, ?_, hfslen, hfsget, hfsnone,
    hvs2len.trans (hmidlen.trans hv1len)⟩
  · simp only [triangulateQuad]
    rw [hrun1, ok_bind]
    simp only [List.getElem?_cons_zero, List.getElem?_cons_succ, ok_bind]
    rw [hface3a, ok_bind, hp1, ok_bind, hp2, ok_bind, hp3, ok_bind]
    rw [hface3b, ok_bind, hq1, ok_bind, hq2, ok_bind, hq3]
    rw [List.append_assoc]
    rfl
  · rw [List.append_assoc] at hwf3
    exact hwf3

/-- Writing back the value already stored at a present key leaves the sorted
map unchanged. -/
theorem setSection_self_of_mem {α : Type} {m : List (Nat × α)} {k : Nat} {v : α}
    (hmem : (k, v) ∈ m) (hsort : m.Pairwise (fun a b => a.1 < b.1)) :
    setSection m k v = m := by
  induction m with
  | nil => cases hmem
  | cons kv rest ih =>
    obtain ⟨k', v'⟩ := kv
    rw [List.pairwise_cons] at hsort
    rcases List.mem_cons.1 hmem with heq | hmem2
    · rw [← heq]
      simp [setSection]
    · have hk'lt : k' < k := hsort.1 (k, v) hmem2
      simp only [setSection, if_neg (by omega : ¬k = k'),
        if_neg (by omega : ¬k < k')]
      rw [ih hmem2 hsort.2]

/-- Reading an index inside the left part of an append. -/
theorem getElem?_append_lt {α : Type} (l₁ l₂ : List α) (n : Nat)
    (h : n < l₁.length) : (l₁ ++ l₂)[n]? = l₁[n]? := by
  rw [List.getElem?_append, if_pos h]

/-- The quad-processing fold of `triangulate` over one section: given a list
of collected quads in strictly decreasing index order that exactly covers the
4-vertex faces of the current list, the fold succeeds, adds one face per quad,
leaves no 4-vertex face, preserves well-formedness and the vertex count, and
every resulting face normal already occurs in the input list. -/
theorem triQuads_fold_WF (h : MeshGeometry P N V) (k : Nat)
    (L : List (Nat × List Nat × Option N × Option V)) (cur : List (Face N V))
    (hwf : WF h) (hlk : sectLookup h.faces k = some cur)
    (hdec : (L.map Prod.fst).Pairwise (fun a b => b < a))
    (hent : ∀ e ∈ L, ∃ f : Face N V, cur[e.1]? = some f ∧
      f.vertices = e.2.1 ∧ f.face_normal = e.2.2.1 ∧ f.data = e.2.2.2 ∧
      e.2.1.length = 4)
    (honly : ∀ j : Nat, ∀ f : Face N V, cur[j]? = some f →
      f.vertices.length = 4 → j ∈ L.map Prod.fst) :
    ∃ cur' vs',
      L.foldlM (triangulateQuad k) (cur, h.vertices) = .ok (cur', vs') ∧
      WF { h with faces := setSection h.faces k cur', vertices := vs' } ∧
      cur'.length = cur.length + L.length ∧
      (∀ f ∈ cur', f.vertices.length ≠ 4) ∧
      (∀ f ∈ cur', ∃ f0 ∈ cur, f.face_normal = f0.face_normal) ∧
      vs'.length = h.vertices.length := by
  induction L generalizing h cur with
  | nil =>
    refine ⟨cur, h.vertices, rfl, ?_, by simp, ?_, ?_, rfl⟩
    · rw [setSection_self_of_mem (mem_of_sectLookup hlk) hwf.sec_sorted]
      exact hwf
    · intro f hf hlen4
      obtain ⟨j, hj⟩ := List.mem_iff_getElem?.1 hf
      exact absurd (honly j f hj hlen4) (List.not_mem_nil j)
    · intro f hf
      exact ⟨f, hf, rfl⟩
  | cons e rest ih =>
    obtain ⟨i, verts, nrm, dt⟩ := e
    obtain ⟨fq, hfq, hfqv0, hfqn0, hfqd0, hvlen40⟩ :=
      hent (i, verts, nrm, dt) (List.mem_cons_self _ _)
    have hfqv : fq.vertices = verts := hfqv0
    have hfqn : fq.face_normal = nrm := hfqn0
    have hfqd : fq.data = dt := hfqd0
    have hvlen4 : verts.length = 4 := hvlen40
    have hi : i < cur.length := getElem?_some_lt hfq
    have hmemcur : (k, cur) ∈ h.faces := mem_of_sectLookup hlk
    have hfqwf := hwf.faces_wf (k, cur) hmemcur fq (List.mem_iff_getElem?.2 ⟨_, hfq⟩)
    have hnd : verts.Nodup := hfqv ▸ hfqwf.1
    have hbnd : ∀ v ∈ verts, v < h.vertices.length := by
      intro v hv
      obtain ⟨-, hB⟩ := (inv_iff h).1 hwf.inv
      have hvmem : v ∈ fq.vertices := by rw [hfqv]; exact hv
      have := hB (k, cur) hmemcur i fq hfq v hvmem
      obtain ⟨w, hw, -⟩ := this
      exact getElem?_some_lt hw
    obtain ⟨a, b, c, d, rfl⟩ : ∃ a b c d, verts = [a, b, c, d] := by
      rcases verts with - | ⟨a, - | ⟨b, - | ⟨c, - | ⟨d, - | ⟨x, t⟩⟩⟩⟩⟩ <;>
        first
          | (exact ⟨_, _, _, _, rfl⟩)
          | (exfalso; simp at hvlen4)
    obtain ⟨fsR, vs2, hrun, hwf2, hRlen, hRget, hRnone, hvs2len⟩ :=
      triangulateQuad_WF h k cur i a b c d nrm dt hwf hlk hi hnd hbnd
    simp only [List.map_cons, List.pairwise_cons] at hdec
    have hRlen' : fsR.length = cur.length - 1 := by omega
    set t1 : Face N V := { vertices := [a, b, c], face_normal := nrm, data := dt }
      with ht1
    set t2 : Face N V := { vertices := [a, c, d], face_normal := nrm, data := dt }
      with ht2
    set cur1 : List (Face N V) := fsR ++ [t1, t2] with hcur1
    set h1 : MeshGeometry P N V :=
      { h with faces := setSection h.faces k cur1, vertices := vs2 } with hh1
    have hlk1 : sectLookup h1.faces k = some cur1 := sectLookup_setSection_self _ _ _
    have hmemR : ∀ f ∈ fsR, f ∈ cur := by
      intro f hf
      obtain ⟨j, hj⟩ := List.mem_iff_getElem?.1 hf
      have hjlt : j < fsR.length := getElem?_some_lt hj
      rw [hRget j (by omega)] at hj
      by_cases hji : j = i
      · rw [if_pos hji] at hj
        exact List.mem_iff_getElem?.2 ⟨_, hj⟩
      · rw [if_neg hji] at hj
        exact List.mem_iff_getElem?.2 ⟨_, hj⟩
    have hmem1 : ∀ f ∈ cur1, ∃ f0 ∈ cur, f.face_normal = f0.face_normal := by
      intro f hf
      rw [hcur1, List.mem_append] at hf
      rcases hf with hf | hf
      · exact ⟨f, hmemR f hf, rfl⟩
      · have hmemfq : fq ∈ cur := List.mem_iff_getElem?.2 ⟨_, hfq⟩
        simp only [List.mem_cons, List.not_mem_nil, or_false] at hf
        rcases hf with rfl | rfl
        · exact ⟨fq, hmemfq, by rw [ht1, hfqn]⟩
        · exact ⟨fq, hmemfq, by rw [ht2, hfqn]⟩
    have hent1 : ∀ e ∈ rest, ∃ f : Face N V, cur1[e.1]? = some f ∧
        f.vertices = e.2.1 ∧ f.face_normal = e.2.2.1 ∧ f.data = e.2.2.2 ∧
        e.2.1.length = 4 := by
      intro e he
      obtain ⟨f, hf, hfv, hfn, hfd, hflen⟩ := hent e (List.mem_cons_of_mem _ he)
      refine ⟨f, ?_, hfv, hfn, hfd, hflen⟩
      have hlt : e.1 < i := hdec.1 e.1 (List.mem_map_of_mem Prod.fst he)
      have hlt' : e.1 < fsR.length := by omega
      rw [hcur1, getElem?_append_lt _ _ _ hlt', hRget e.1 (by omega),
        if_neg (by omega : ¬e.1 = i)]
      exact hf
    have honly1 : ∀ j : Nat, ∀ f : Face N V, cur1[j]? = some f →
        f.vertices.length = 4 → j ∈ rest.map Prod.fst := by
      intro j f hf hlen4
      by_cases hjR : j < fsR.length
      · rw [hcur1, getElem?_append_lt _ _ _ hjR, hRget j (by omega)] at hf
        by_cases hji : j = i
        · rw [if_pos hji] at hf
          have := honly (cur.length - 1) f hf hlen4
          simp only [List.map_cons, List.mem_cons] at this
          rcases this with hl | hl
          · omega
          · have := hdec.1 (cur.length - 1) hl
            omega
        · rw [if_neg hji] at hf
          have := honly j f hf hlen4
          simp only [List.map_cons, List.mem_cons] at this
          rcases this with hl | hl
          · exact absurd hl hji
          · exact hl
      · exfalso
        rw [hcur1, List.getElem?_append_right (by omega)] at hf
        rcases hsub : j - fsR.length with - | m
        · rw [hsub] at hf
          simp only [List.getElem?_cons_zero, Option.some_inj] at hf
          rw [← hf, ht1] at hlen4
          simp at hlen4
        · rw [hsub] at hf
          rcases m with - | m2
          · simp only [List.getElem?_cons_succ, List.getElem?_cons_zero,
              Option.some_inj] at hf
            rw [← hf, ht2] at hlen4
            simp at hlen4
          · simp at hf
    obtain ⟨cur', vs', hrun2, hwf3, hlen2, hno4, hnormmem, hvslen2⟩ :=
      ih h1 cur1 hwf2 hlk1 hdec.2 hent1 honly1
    have hwf3' : WF { h with faces := setSection h.faces k cur', vertices := vs' } := by
      have : setSection h1.faces k cur' = setSection h.faces k cur' := by
        rw [hh1]
        exact setSection_setSection h.faces k cur1 cur'
      rw [hh1] at hwf3
      dsimp only at hwf3
      rw [setSection_setSection] at hwf3
      exact hwf3
    refine ⟨cur', vs', ?_, hwf3', ?_, hno4, ?_, ?_⟩
    · rw [List.foldlM_cons, hrun, ok_bind]
      exact hrun2
    · have : cur1.length = fsR.length + 2 := by simp [hcur1]
      simp only [List.length_cons]
      omega
    · intro f hf
      obtain ⟨f1, hf1, he1⟩ := hnormmem f hf
      obtain ⟨f0, hf0, he0⟩ := hmem1 f1 hf1
      exact ⟨f0, hf0, he1.trans he0⟩
    · rw [hvslen2, hh1]
      exact hvs2len

/-- The enumerate-filter of `triangulate` keeps as many entries as a plain
filter on the payloads. -/
theorem enumFrom_filter_length {α : Type} (q : α → Bool) (l : List α) (n : Nat) :
    ((List.enumFrom n l).filter (fun p => q p.2)).length = (l.filter q).length := by
  induction l generalizing n with
  | nil => rfl
  | cons x xs ih =>
    simp only [List.enumFrom, List.filter]
    cases hq : q x <;> simp [hq, ih (n + 1)]

/-- `MeshGeometry::triangulate` on one section: the quad fold on the section's
face list succeeds; the resulting list has one extra face per original quad
and no 4-vertex face, well-formedness and the vertex count are preserved, and
every resulting face normal already occurs in the input list. -/
theorem triangulateSection_WF (h : MeshGeometry P N V) (k : Nat)
    (cur : List (Face N V)) (hwf : WF h) (hlk : sectLookup h.faces k = some cur) :
    ∃ cur' vs',
      triangulateSection k cur h.vertices = .ok (cur', vs') ∧
      WF { h with faces := setSection h.faces k cur', vertices := vs' } ∧
      cur'.length =
        cur.length + (cur.filter (fun f => f.vertices.length = 4)).length ∧
      (∀ f ∈ cur', f.vertices.length ≠ 4) ∧
      (∀ f ∈ cur', ∃ f0 ∈ cur, f.face_normal = f0.face_normal) ∧
      vs'.length = h.vertices.length := by
  rw [triangulateSection]
  set L := ((cur.enum.filter (fun p => p.2.vertices.length = 4)).map
      (fun p => (p.1, p.2.vertices, p.2.face_normal, p.2.data))).reverse with hL
  have henum : cur.enum.Pairwise (fun a b => a.1 < b.1) := by
    have hr := List.pairwise_lt_range cur.length
    rw [← List.enum_map_fst] at hr
    exact List.pairwise_map.1 hr
  have hdec : (L.map Prod.fst).Pairwise (fun a b => b < a) := by
    rw [hL, List.map_reverse, List.pairwise_reverse, List.map_map,
      List.pairwise_map]
    exact (henum.filter _).imp (fun hab => hab)
  have hent : ∀ e ∈ L, ∃ f : Face N V, cur[e.1]? = some f ∧
      f.vertices = e.2.1 ∧ f.face_normal = e.2.2.1 ∧ f.data = e.2.2.2 ∧
      e.2.1.length = 4 := by
    intro e he
    rw [hL, List.mem_reverse, List.mem_map] at he
    obtain ⟨p, hp, rfl⟩ := he
    rw [List.mem_filter] at hp
    refine ⟨p.2, List.mem_enum_iff_getElem?.1 hp.1, rfl, rfl, rfl, ?_⟩
    exact of_decide_eq_true hp.2
  have honly : ∀ j : Nat, ∀ f : Face N V, cur[j]? = some f →
      f.vertices.length = 4 → j ∈ L.map Prod.fst := by
    intro j f hj hlen4
    rw [hL, List.map_reverse, List.mem_reverse, List.map_map, List.mem_map]
    refine ⟨(j, f), ?_, rfl⟩
    rw [List.mem_filter]
    exact ⟨List.mem_enum_iff_getElem?.2 hj, decide_eq_true hlen4⟩
  obtain ⟨cur', vs', hrun, hwf', hlen, hno4, hnorm, hvlen⟩ :=
    triQuads_fold_WF h k L cur hwf hlk hdec hent honly
  refine ⟨cur', vs', hrun, hwf', ?_, hno4, hnorm, hvlen⟩
  rw [hlen, hL, List.length_reverse, List.length_map]
  have : cur.enum = List.enumFrom 0 cur := rfl
  have hq := enumFrom_filter_length (fun f => decide (f.vertices.length = 4)) cur 0
  rw [this, hq]

/-- A section without quads is left untouched by the quad fold. -/
theorem triangulateSection_no_quads (k : Nat) (cur : List (Face N V))
    (vs : List (MeshVertex N V)) (hno : ∀ f ∈ cur, f.vertices.length ≠ 4) :
    triangulateSection k cur vs = .ok (cur, vs) := by
  rw [triangulateSection]
  have : cur.enum.filter (fun p => p.2.vertices.length = 4) = [] := by
    rw [List.filter_eq_nil]
    intro p hp
    have hmem : p.2 ∈ cur := by
      have := List.mem_enum_iff_getElem?.1 ((Prod.mk.eta (p := p)) ▸ hp)
      exact List.mem_iff_getElem?.2 ⟨p.1, this⟩
    simp only [decide_eq_true_eq]
    exact hno p.2 hmem
  rw [this]
  rfl

/-- Lookup of the middle key of a split sorted map. -/
theorem sectLookup_append_cons {α : Type} (m1 : List (Nat × α)) (k : Nat) (v : α)
    (m2 : List (Nat × α)) (hne : ∀ kv ∈ m1, kv.1 ≠ k) :
    sectLookup (m1 ++ (k, v) :: m2) k = some v := by
  induction m1 with
  | nil => simp [sectLookup]
  | cons kv rest ih =>
    obtain ⟨k', v'⟩ := kv
    have hk' : k' ≠ k := hne (k', v') (List.mem_cons_self _ _)
    have hkk : ¬k = k' := fun e => hk' e.symm
    simp only [List.cons_append, sectLookup, List.append_eq, if_neg hkk]
    exact ih (fun kv hkv => hne kv (List.mem_cons_of_mem _ hkv))

/-- Overwriting the middle key of a split sorted map replaces just its value. -/
theorem setSection_append_cons {α : Type} (m1 : List (Nat × α)) (k : Nat) (v w : α)
    (m2 : List (Nat × α)) (hlt : ∀ kv ∈ m1, kv.1 < k) :
    setSection (m1 ++ (k, v) :: m2) k w = m1 ++ (k, w) :: m2 := by
  induction m1 with
  | nil => simp [setSection]
  | cons kv rest ih =>
    obtain ⟨k', v'⟩ := kv
    have hk' : k' < k := hlt (k', v') (List.mem_cons_self _ _)
    simp only [List.cons_append, setSection, List.append_eq,
      if_neg (by omega : ¬k = k'), if_neg (by omega : ¬k < k')]
    rw [ih (fun kv hkv => hlt kv (List.mem_cons_of_mem _ hkv))]

/-- The outer fold of `MeshGeometry::triangulate`, rebuilding the section map
in key order: every section is processed by the quad fold, keys are kept, per
section the face count grows by the section's quad count and no quad remains,
and well-formedness and the vertex count are preserved. -/
theorem triangulate_fold_WF (rest : List (Nat × List (Face N V)))
    (h : MeshGeometry P N V) (m1 : List (Nat × List (Face N V)))
    (hwf : WF h) (hfaces : h.faces = m1 ++ rest) :
    ∃ m' vs',
      rest.foldlM
        (fun (acc : List (Nat × List (Face N V)) × List (MeshVertex N V)) kv => do
          let (fs, vertices) ← triangulateSection kv.1 kv.2 acc.2
          .ok (acc.1 ++ [(kv.1, fs)], vertices))
        (m1, h.vertices) = .ok (m1 ++ m', vs') ∧
      WF { h with faces := m1 ++ m', vertices := vs' } ∧
      m'.map Prod.fst = rest.map Prod.fst ∧
      List.Forall₂ (fun (a b : Nat × List (Face N V)) =>
        a.2.length =
          b.2.length + (b.2.filter (fun f => f.vertices.length = 4)).length ∧
        (∀ f ∈ a.2, f.vertices.length ≠ 4) ∧
        (∀ f ∈ a.2, ∃ f0 ∈ b.2, f.face_normal = f0.face_normal)) m' rest ∧
      vs'.length = h.vertices.length := by
  induction rest generalizing h m1 with
  | nil =>
    rw [List.append_nil] at hfaces
    refine ⟨[], h.vertices, by simp only [List.foldlM_nil, List.append_nil]; rfl,
      ?_, rfl, List.Forall₂.nil, rfl⟩
    rw [List.append_nil, ← hfaces]
    exact hwf
  | cons kv rest2 ih =>
    obtain ⟨k, fs0⟩ := kv
    have hsorted : h.faces.Pairwise (fun a b => a.1 < b.1) := hwf.sec_sorted
    rw [hfaces] at hsorted
    have hlt : ∀ kv ∈ m1, kv.1 < k := by
      intro kv hkv
      exact (List.pairwise_append.1 hsorted).2.2 kv hkv (k, fs0)
        (List.mem_cons_self _ _)
    have hlk : sectLookup h.faces k = some fs0 := by
      rw [hfaces]
      exact sectLookup_append_cons m1 k fs0 rest2 (fun kv hkv => by
        have := hlt kv hkv
        omega)
    obtain ⟨cur', vs1, hrun, hwf1, hlen, hno4, hnorm, hvlen1⟩ :=
      triangulateSection_WF h k fs0 hwf hlk
    have hset : setSection h.faces k cur' = m1 ++ (k, cur') :: rest2 := by
      rw [hfaces]
      exact setSection_append_cons m1 k fs0 cur' rest2 hlt
    rw [hset] at hwf1
    set h1 : MeshGeometry P N V :=
      { h with faces := m1 ++ (k, cur') :: rest2, vertices := vs1 } with hh1
    have hfaces1 : h1.faces = (m1 ++ [(k, cur')]) ++ rest2 := by
      rw [hh1]
      simp
    obtain ⟨m'', vs'', hrun2, hwf2, hkeys2, hrel2, hvlen2⟩ :=
      ih h1 (m1 ++ [(k, cur')]) hwf1 hfaces1
    have hverts1 : h1.vertices = vs1 := rfl
    refine ⟨(k, cur') :: m'', vs'', ?_, ?_, ?_, ?_, ?_⟩
    · rw [List.foldlM_cons]
      simp only [hrun, ok_bind]
      rw [hverts1] at hrun2
      rw [hrun2]
      simp
    · have heq : (m1 ++ [(k, cur')]) ++ m'' = m1 ++ (k, cur') :: m'' := by simp
      rw [heq] at hwf2
      exact hwf2
    · simp only [List.map_cons, hkeys2]
    · exact List.Forall₂.cons ⟨hlen, hno4, hnorm⟩ hrel2
    · rw [hvlen2, hverts1, hvlen1]

/-- `MeshGeometry::triangulate` on a well-formed mesh: it succeeds, keeps the
section keys and the vertex count, grows each section by its quad count,
leaves no 4-vertex face anywhere, keeps every face normal drawn from the old
section, and preserves well-formedness. -/
theorem triangulate_WF (g : MeshGeometry P N V) (hwf : WF g) :
    ∃ g', g.triangulate = .ok g' ∧ WF g' ∧
      g'.faces.map Prod.fst = g.faces.map Prod.fst ∧
      List.Forall₂ (fun (a b : Nat × List (Face N V)) =>
        a.2.length =
          b.2.length + (b.2.filter (fun f => f.vertices.length = 4)).length ∧
        (∀ f ∈ a.2, f.vertices.length ≠ 4) ∧
        (∀ f ∈ a.2, ∃ f0 ∈ b.2, f.face_normal = f0.face_normal))
        g'.faces g.faces ∧
      g'.vertices.length = g.vertices.length := by
  obtain ⟨m', vs', hrun, hwf', hkeys, hrel, hvlen⟩ :=
    triangulate_fold_WF g.faces g [] hwf rfl
  rw [List.nil_append] at hrun hwf'
  refine ⟨{ g with faces := m', vertices := vs' }, ?_, hwf', hkeys, hrel, hvlen⟩
  rw [MeshGeometry.triangulate, hrun, ok_bind]

/-- A mesh without quads is left unchanged by `triangulate`. -/
theorem triangulate_no_quads (g : MeshGeometry P N V)
    (hno : ∀ kv ∈ g.faces, ∀ f ∈ kv.2, f.vertices.length ≠ 4) :
    g.triangulate = .ok g := by
  have hfold : ∀ (rest m1 : List (Nat × List (Face N V)))
      (vs : List (MeshVertex N V)),
      (∀ kv ∈ rest, ∀ f ∈ kv.2, f.vertices.length ≠ 4) →
      rest.foldlM
        (fun (acc : List (Nat × List (Face N V)) × List (MeshVertex N V)) kv => do
          let (fs, vertices) ← triangulateSection kv.1 kv.2 acc.2
          .ok (acc.1 ++ [(kv.1, fs)], vertices))
        (m1, vs) = .ok (m1 ++ rest, vs) := by
    intro rest
    induction rest with
    | nil =>
      intro m1 vs _
      simp only [List.foldlM_nil, List.append_nil]
      rfl
    | cons kv rest2 ih =>
      intro m1 vs hno'
      obtain ⟨k, fs0⟩ := kv
      rw [List.foldlM_cons]
      have hsec := triangulateSection_no_quads k fs0 vs
        (hno' (k, fs0) (List.mem_cons_self _ _))
      simp only [hsec, ok_bind]
      rw [ih (m1 ++ [(k, fs0)]) vs
        (fun kv hkv => hno' kv (List.mem_cons_of_mem _ hkv))]
      simp
  rw [MeshGeometry.triangulate, hfold g.faces [] g.vertices hno, List.nil_append,
    ok_bind]

/-- `add_face3_data` preserves well-formedness. -/
theorem add_face3_data_WF (ops : MeshOps P N V) {g g' : MeshGeometry P N V}
    (v1 v2 v3 : V) (d : FaceDataProps N V) (hwf : WF g)
    (hok : g.add_face3_data ops v1 v2 v3 d = .ok g') : WF g' := by
  rw [add_face3_data_eq_addFaceN] at hok
  exact addFaceN_WF ops hwf (Or.inl (by rfl)) hok

/-- `add_face4_data` preserves well-formedness. -/
theorem add_face4_data_WF (ops : MeshOps P N V) {g g' : MeshGeometry P N V}
    (v1 v2 v3 v4 : V) (d : FaceDataProps N V) (hwf : WF g)
    (hok : g.add_face4_data ops v1 v2 v3 v4 d = .ok g') : WF g' := by
  rw [add_face4_data_eq_addFaceN] at hok
  exact addFaceN_WF ops hwf (Or.inr (by rfl)) hok

/-- `remove_face` preserves well-formedness. -/
theorem remove_face_WF {g g' : MeshGeometry P N V} (fi : SectionIndex) (hwf : WF g)
    (hok : g.remove_face fi = .ok g') : WF g' := by
  rw [MeshGeometry.remove_face] at hok
  rcases hlk : sectLookup g.faces fi.sec with - | fs
  · rw [hlk] at hok
    cases hok
  · simp only [hlk] at hok
    by_cases hi : fi.index < fs.length
    · obtain ⟨removed, moved, fs', v', -, -, hrun, hwf', -, -, -, -, -, -, -, -⟩ :=
        remove_face_internal_WF g fi.sec fi.index fs hwf hlk hi
      have hfi : ({ sec := fi.sec, index := fi.index } : SectionIndex) = fi := rfl
      rw [hfi] at hrun
      simp only [hrun, ok_bind] at hok
      injection hok with hok
      rw [← hok]
      exact hwf'
    · exfalso
      have hnone : fs[fi.index]? = none :=
        List.getElem?_eq_none (Nat.le_of_not_lt hi)
      simp only [remove_face_internal, swapRemove, hnone, err_bind] at hok
      cases hok

/-- Every public operation preserves well-formedness. -/
theorem applyOp_WF (ops : MeshOps P N V) {g g' : MeshGeometry P N V} (op : Op N V)
    (hwf : WF g) (hok : applyOp ops g op = .ok g') : WF g' := by
  cases op with
  | addFace3 v1 v2 v3 d => exact add_face3_data_WF ops v1 v2 v3 d hwf hok
  | addFace4 v1 v2 v3 v4 d => exact add_face4_data_WF ops v1 v2 v3 v4 d hwf hok
  | removeFace fi => exact remove_face_WF fi hwf hok
  | triangulateOp =>
    obtain ⟨g'', hrun, hwf', -, -, -⟩ := triangulate_WF g hwf
    rw [applyOp] at hok
    rw [hrun] at hok
    injection hok with hok
    rw [← hok]
    exact hwf'

/-- A run of public operations from a well-formed mesh ends well-formed. -/
theorem runOps_WF (ops : MeshOps P N V) (l : List (Op N V))
    {g g' : MeshGeometry P N V} (hwf : WF g) (hok : runOps ops l g = .ok g') :
    WF g' := by
  induction l generalizing g with
  | nil =>
    rw [runOps] at hok
    injection hok with hok
    rw [← hok]
    exact hwf
  | cons op rest ih =>
    rw [runOps] at hok
    rcases hstep : applyOp ops g op with e | g1
    · rw [hstep, err_bind] at hok
      cases hok
    · rw [hstep, ok_bind] at hok
      exact ih (applyOp_WF ops op hwf hstep) hok

/-- The empty mesh is well-formed. -/
theorem WF_new : WF (MeshGeometry.new P N V) := by
  refine ⟨rfl, ?_, List.nodup_nil, rfl, List.Pairwise.nil, ?_, ?_, ?_⟩
  · intro p hp
    cases hp
  · intro kv hkv
    cases hkv
  · intro p hp
    cases hp
  · intro kv hkv
    cases hkv

/-- Corresponding right-hand element of a `Forall₂`. -/
theorem forall₂_mem_left {α β : Type} {R : α → β → Prop} {l1 : List α}
    {l2 : List β} (h : List.Forall₂ R l1 l2) {a : α} (ha : a ∈ l1) :
    ∃ b ∈ l2, R a b := by
  induction h with
  | nil => cases ha
  | cons hR hrest ih =>
    rcases List.mem_cons.1 ha with rfl | ha2
    · exact ⟨_, List.mem_cons_self _ _, hR⟩
    · obtain ⟨b, hb, hRb⟩ := ih ha2
      exact ⟨b, List.mem_cons_of_mem _ hb, hRb⟩

/-- Weaken a `Forall₂` pointwise, with right-hand membership available. -/
theorem forall₂_imp_mem {α β : Type} {R S : α → β → Prop} {l1 : List α}
    {l2 : List β} (h : List.Forall₂ R l1 l2) :
    (∀ a b, b ∈ l2 → R a b → S a b) → List.Forall₂ S l1 l2 := by
  induction h with
  | nil => exact fun _ => List.Forall₂.nil
  | cons hR hrest ih =>
    intro himp
    exact List.Forall₂.cons (himp _ _ (List.mem_cons_self _ _) hR)
      (ih (fun a b hb hr => himp a b (List.mem_cons_of_mem _ hb) hr))

/-- `addVertices` never touches the dedup map or the fresh-id counter. -/
theorem addVertices_vi (g : MeshGeometry P N V) (pairs : List (Nat × V))
    (fi : SectionIndex) {g' : MeshGeometry P N V}
    (hok : addVertices g pairs fi = .ok g') :
    g'.vertex_indices = g.vertex_indices ∧ g'.next_index = g.next_index := by
  induction pairs generalizing g with
  | nil =>
    rw [addVertices, List.foldlM_nil] at hok
    injection hok with hok
    rw [← hok]
    exact ⟨rfl, rfl⟩
  | cons pr rest ih =>
    rw [addVertices, List.foldlM_cons] at hok
    rcases hstep : g.add_vertex pr.1 fi pr.2 with e | g1
    · rw [hstep, err_bind] at hok
      cases hok
    · rw [hstep, ok_bind] at hok
      have h1 : g1.vertex_indices = g.vertex_indices ∧ g1.next_index = g.next_index := by
        rw [MeshGeometry.add_vertex] at hstep
        rcases hvf : add_vertex_face
            (match g.vertices[pr.1]? with
             | some v => g.vertices.set pr.1 { v with data := pr.2 }
             | none => g.vertices ++ [{ data := pr.2, faces := [], vertex_normal := none }])
            pr.1 fi with e | vs
        · rw [hvf] at hstep
          cases hstep
        · rw [hvf] at hstep
          injection hstep with hstep
          rw [← hstep]
          exact ⟨rfl, rfl⟩
      have h2 := ih g1 hok
      exact ⟨h1.1 ▸ h2.1, h1.2 ▸ h2.2⟩

/-- Every public operation keeps existing position→id bindings. -/
theorem applyOp_binding (ops : MeshOps P N V) {g g' : MeshGeometry P N V}
    (op : Op N V) (p : P) (i : Nat)
    (hp : posLookup g.vertex_indices p = some i)
    (hok : applyOp ops g op = .ok g') :
    posLookup g'.vertex_indices p = some i := by
  have haddN : ∀ (vs : List V) (msg : String) (d : FaceDataProps N V),
      addFaceN ops g vs msg d = .ok g' →
      posLookup g'.vertex_indices p = some i := by
    intro vs msg d hok'
    rw [addFaceN] at hok'
    rcases hr : resolveAll ops g vs with ⟨ids, g1⟩
    rw [hr] at hok'
    dsimp only at hok'
    by_cases hpne : pairwiseNe ids
    · rw [if_pos hpne] at hok'
      obtain ⟨hvi, -⟩ := addVertices_vi _ _ _ hok'
      have : (addFacePushed g1 ids d).vertex_indices = g1.vertex_indices := rfl
      rw [hvi, this]
      have := resolveAll_mono ops vs g p i hp
      rwa [hr] at this
    · rw [if_neg hpne] at hok'
      cases hok'
  cases op with
  | addFace3 v1 v2 v3 d =>
    rw [applyOp, add_face3_data_eq_addFaceN] at hok
    exact haddN _ _ _ hok
  | addFace4 v1 v2 v3 v4 d =>
    rw [applyOp, add_face4_data_eq_addFaceN] at hok
    exact haddN _ _ _ hok
  | removeFace fi =>
    rw [applyOp, MeshGeometry.remove_face] at hok
    rcases hlk : sectLookup g.faces fi.sec with - | fs
    · rw [hlk] at hok
      cases hok
    · simp only [hlk] at hok
      rcases hri : remove_face_internal fs g.vertices fi with e | pr
      · rw [hri, err_bind] at hok
        cases hok
      · obtain ⟨fs2, v2⟩ := pr
        simp only [hri, ok_bind] at hok
        injection hok with hok
        rw [← hok]
        exact hp
  | triangulateOp =>
    rw [applyOp, MeshGeometry.triangulate] at hok
    rcases hfold : g.faces.foldlM
        (fun (acc : List (Nat × List (Face N V)) × List (MeshVertex N V)) kv => do
          let (fs, vertices) ← triangulateSection kv.1 kv.2 acc.2
          .ok (acc.1 ++ [(kv.1, fs)], vertices))
        ([], g.vertices) with e | pr
    · rw [hfold, err_bind] at hok
      cases hok
    · obtain ⟨m2, vs2⟩ := pr
      simp only [hfold, ok_bind] at hok
      injection hok with hok
      rw [← hok]
      exact hp

/-- A run of public operations keeps existing position→id bindings. -/
theorem runOps_binding (ops : MeshOps P N V) (l : List (Op N V))
    {g g' : MeshGeometry P N V} (p : P) (i : Nat)
    (hp : posLookup g.vertex_indices p = some i)
    (hok : runOps ops l g = .ok g') :
    posLookup g'.vertex_indices p = some i := by
  induction l generalizing g with
  | nil =>
    rw [runOps] at hok
    injection hok with hok
    rw [← hok]
    exact hp
  | cons op rest ih =>
    rw [runOps] at hok
    rcases hstep : applyOp ops g op with e | g1
    · rw [hstep, err_bind] at hok
      cases hok
    · rw [hstep, ok_bind] at hok
      exact ih (applyOp_binding ops op p i hp hstep) hok

/-- A list's `toFinset` has full cardinality exactly when it has no
duplicates. -/
theorem toFinset_card_eq_iff_nodup {α : Type} [DecidableEq α] (l : List α) :
    l.toFinset.card = l.length ↔ l.Nodup := by
  constructor
  · intro h
    rw [List.card_toFinset] at h
    exact List.dedup_eq_self.1 ((List.dedup_sublist l).eq_of_length h)
  · exact List.toFinset_card_of_nodup

/-- `get_vertex_index` keeps the dedup map tracking exactly the positions
seen so far, the fresh-id counter their distinct count. -/
theorem get_vertex_index_card (g : MeshGeometry P N V) (p : P) (seen : List P)
    (hseen : ∀ q : P, (posLookup g.vertex_indices q).isSome ↔ q ∈ seen)
    (hcard : g.next_index = seen.toFinset.card) :
    (∀ q : P, (posLookup (g.get_vertex_index p).2.vertex_indices q).isSome ↔
      q ∈ seen ++ [p]) ∧
    (g.get_vertex_index p).2.next_index = (seen ++ [p]).toFinset.card := by
  have hfins : (seen ++ [p]).toFinset = insert p seen.toFinset := by
    ext q
    simp [or_comm]
  rcases hl : posLookup g.vertex_indices p with - | i
  · have hpn : p ∉ seen := by
      rw [← hseen p, hl]
      simp
    rw [MeshGeometry.get_vertex_index, hl]
    refine ⟨?_, ?_⟩
    · intro q
      dsimp only
      rw [posLookup]
      by_cases hq : q = p
      · subst hq
        simp
      · rw [if_neg hq, hseen q]
        simp [hq]
    · dsimp only
      rw [hfins, Finset.card_insert_of_not_mem (by rwa [List.mem_toFinset]),
        ← hcard]
  · have hpm : p ∈ seen := (hseen p).1 (by rw [hl]; rfl)
    rw [MeshGeometry.get_vertex_index, hl]
    refine ⟨?_, ?_⟩
    · intro q
      dsimp only
      rw [hseen q]
      simp only [List.mem_append, List.mem_singleton]
      constructor
      · exact Or.inl
      · rintro (h | rfl)
        · exact h
        · exact hpm
    · dsimp only
      rw [hfins, Finset.insert_eq_self.2 (List.mem_toFinset.2 hpm), hcard]

/-- `resolveAll` keeps the seen-position tracking. -/
theorem resolveAll_card (ops : MeshOps P N V) (vs : List V)
    (g : MeshGeometry P N V) (seen : List P)
    (hseen : ∀ q : P, (posLookup g.vertex_indices q).isSome ↔ q ∈ seen)
    (hcard : g.next_index = seen.toFinset.card) :
    (∀ q : P, (posLookup (resolveAll ops g vs).2.vertex_indices q).isSome ↔
      q ∈ seen ++ vs.map ops.position) ∧
    (resolveAll ops g vs).2.next_index =
      (seen ++ vs.map ops.position).toFinset.card := by
  induction vs generalizing g seen with
  | nil =>
    constructor
    · intro q
      simpa using hseen q
    · simpa using hcard
  | cons v rest ih =>
    obtain ⟨h1, h2⟩ := get_vertex_index_card g (ops.position v) seen hseen hcard
    rcases hg : g.get_vertex_index (ops.position v) with ⟨i, g1⟩
    rw [hg] at h1 h2
    obtain ⟨h3, h4⟩ := ih g1 (seen ++ [ops.position v]) h1 h2
    constructor
    · intro q
      have := h3 q
      simp only [resolveAll, hg]
      simpa [List.append_assoc] using this
    · simp only [resolveAll, hg]
      simpa [List.append_assoc] using h4

/-- A successful `addFaceN` changes the dedup map and the counter exactly as
its `resolveAll` prefix does. -/
theorem addFaceN_vi (ops : MeshOps P N V) {g g' : MeshGeometry P N V}
    (vs : List V) (msg : String) (d : FaceDataProps N V)
    (hok : addFaceN ops g vs msg d = .ok g') :
    g'.vertex_indices = (resolveAll ops g vs).2.vertex_indices ∧
    g'.next_index = (resolveAll ops g vs).2.next_index := by
  rw [addFaceN] at hok
  rcases hr : resolveAll ops g vs with ⟨ids, g1⟩
  rw [hr] at hok
  dsimp only at hok
  by_cases hpne : pairwiseNe ids
  · rw [if_pos hpne] at hok
    obtain ⟨hvi, hni⟩ := addVertices_vi _ _ _ hok
    exact ⟨hvi, hni⟩
  · rw [if_neg hpne] at hok
    cases hok

/-- A run of `add_face3`/`add_face4` calls from a well-formed mesh ends
well-formed. -/
theorem runCalls_WF (ops : MeshOps P N V) (cs : List (FaceCall V))
    {g g' : MeshGeometry P N V} (hwf : WF g) (hok : runCalls ops cs g = .ok g') :
    WF g' := by
  induction cs generalizing g with
  | nil =>
    rw [runCalls] at hok
    injection hok with hok
    rw [← hok]
    exact hwf
  | cons c rest ih =>
    cases c with
    | f3 a b c3 =>
      replace hok : g.add_face3 ops a b c3 >>= runCalls ops rest = .ok g' := hok
      rcases hstep : g.add_face3 ops a b c3 with e | g1
      · rw [hstep, err_bind] at hok
        cases hok
      · rw [hstep, ok_bind] at hok
        exact ih (add_face3_data_WF ops a b c3 _ hwf hstep) hok
    | f4 a b c3 d4 =>
      replace hok : g.add_face4 ops a b c3 d4 >>= runCalls ops rest = .ok g' := hok
      rcases hstep : g.add_face4 ops a b c3 d4 with e | g1
      · rw [hstep, err_bind] at hok
        cases hok
      · rw [hstep, ok_bind] at hok
        exact ih (add_face4_data_WF ops a b c3 d4 _ hwf hstep) hok

/-- Across a successful run of face calls, the fresh-id counter counts the
distinct payload positions supplied so far. -/
theorem runCalls_card (ops : MeshOps P N V) (cs : List (FaceCall V))
    {g g' : MeshGeometry P N V} (seen : List P)
    (hseen : ∀ q : P, (posLookup g.vertex_indices q).isSome ↔ q ∈ seen)
    (hcard : g.next_index = seen.toFinset.card)
    (hok : runCalls ops cs g = .ok g') :
    g'.next_index = (seen ++ callPositions ops cs).toFinset.card := by
  induction cs generalizing g seen with
  | nil =>
    rw [runCalls] at hok
    injection hok with hok
    rw [← hok, callPositions, List.append_nil]
    exact hcard
  | cons c rest ih =>
    have hstep : ∀ (ps : List V) (msg : String) {g1 : MeshGeometry P N V},
        addFaceN ops g ps msg (FaceDataProps.default N V) = .ok g1 →
        runCalls ops rest g1 = .ok g' →
        c.payloads = ps →
        g'.next_index = (seen ++ callPositions ops (c :: rest)).toFinset.card := by
      intro ps msg g1 haddok hrest hps
      obtain ⟨hvi, hni⟩ := addFaceN_vi ops ps msg _ haddok
      obtain ⟨h1, h2⟩ := resolveAll_card ops ps g seen hseen hcard
      have hseen1 : ∀ q : P, (posLookup g1.vertex_indices q).isSome ↔
          q ∈ seen ++ ps.map ops.position := by
        intro q
        rw [hvi]
        exact h1 q
      have hcard1 : g1.next_index = (seen ++ ps.map ops.position).toFinset.card := by
        rw [hni]
        exact h2
      have := ih (seen ++ ps.map ops.position) hseen1 hcard1 hrest
      rw [this, callPositions, hps, List.append_assoc]
    cases c with
    | f3 a b c3 =>
      replace hok : g.add_face3 ops a b c3 >>= runCalls ops rest = .ok g' := hok
      rcases hadd : g.add_face3 ops a b c3 with e | g1
      · rw [hadd, err_bind] at hok
        cases hok
      · rw [hadd, ok_bind] at hok
        rw [MeshGeometry.add_face3, add_face3_data_eq_addFaceN] at hadd
        exact hstep [a, b, c3] _ hadd hok rfl
    | f4 a b c3 d4 =>
      replace hok : g.add_face4 ops a b c3 d4 >>= runCalls ops rest = .ok g' := hok
      rcases hadd : g.add_face4 ops a b c3 d4 with e | g1
      · rw [hadd, err_bind] at hok
        cases hok
      · rw [hadd, ok_bind] at hok
        rw [MeshGeometry.add_face4, add_face4_data_eq_addFaceN] at hadd
        exact hstep [a, b, c3, d4] _ hadd hok rfl

/-- Length of the supplied positions against the triangle-equivalent count:
at most `3×`, with equality exactly when no call is a quad. -/
theorem callPositions_length (ops : MeshOps P N V) (cs : List (FaceCall V)) :
    (callPositions ops cs).length ≤ 3 * trisTotal cs ∧
    ((callPositions ops cs).length = 3 * trisTotal cs ↔
      ∀ c ∈ cs, c.isQuad = false) := by
  induction cs with
  | nil =>
    refine ⟨Nat.le_refl _, ?_⟩
    simp [callPositions, trisTotal]
  | cons c rest ih =>
    have hlen : (callPositions ops (c :: rest)).length =
        c.payloads.length + (callPositions ops rest).length := by
      rw [callPositions, List.length_append, List.length_map]
    have htr : trisTotal (c :: rest) = c.triEquiv + trisTotal rest := by
      rw [trisTotal, List.map_cons, List.sum_cons, trisTotal]
    cases c with
    | f3 a b c3 =>
      have hp : (FaceCall.f3 a b c3 : FaceCall V).payloads.length = 3 := rfl
      have he : (FaceCall.f3 a b c3 : FaceCall V).triEquiv = 1 := rfl
      rw [hlen, htr, hp, he]
      constructor
      · omega
      · rw [Nat.mul_add]
        constructor
        · intro h c hc
          rcases List.mem_cons.1 hc with rfl | hc2
          · rfl
          · exact (ih.2.1 (by omega)) c hc2
        · intro h
          have := ih.2.2 (fun c hc => h c (List.mem_cons_of_mem _ hc))
          omega
    | f4 a b c3 d4 =>
      have hp : (FaceCall.f4 a b c3 d4 : FaceCall V).payloads.length = 4 := rfl
      have he : (FaceCall.f4 a b c3 d4 : FaceCall V).triEquiv = 2 := rfl
      rw [hlen, htr, hp, he]
      have h1 := ih.1
      constructor
      · omega
      · constructor
        · intro h
          omega
        · intro h
          have := h (FaceCall.f4 a b c3 d4) (List.mem_cons_self _ _)
          simp [FaceCall.isQuad] at this

/-- Pointwise `getElem?` view of a `Forall₂`. -/
theorem forall₂_getElem? {α β : Type} {R : α → β → Prop} {l1 : List α}
    {l2 : List β} (h : List.Forall₂ R l1 l2) (i : Nat) :
    (l1[i]? = none ∧ l2[i]? = none) ∨
    ∃ a b, l1[i]? = some a ∧ l2[i]? = some b ∧ R a b := by
  induction h generalizing i with
  | nil => exact Or.inl ⟨rfl, rfl⟩
  | cons hR hrest ih =>
    cases i with
    | zero =>
      exact Or.inr ⟨_, _, List.getElem?_cons_zero, List.getElem?_cons_zero, hR⟩
    | succ j =>
      simp only [List.getElem?_cons_succ]
      exact ih j

/-- A key-preserving `Forall₂` keeps the key list. -/
theorem forall₂_map_fst {α β : Type} {S : α → β → Prop}
    {m1 : List (Nat × α)} {m2 : List (Nat × β)}
    (h : List.Forall₂ (fun a b => a.1 = b.1 ∧ S a.2 b.2) m1 m2) :
    m1.map Prod.fst = m2.map Prod.fst := by
  induction h with
  | nil => rfl
  | cons hR hrest ih =>
    simp only [List.map_cons, ih, hR.1]

/-- A key-preserving `Forall₂` relates the `sectLookup`s pointwise. -/
theorem forall₂_sectLookup {α β : Type} {S : α → β → Prop}
    {m1 : List (Nat × α)} {m2 : List (Nat × β)}
    (h : List.Forall₂ (fun a b => a.1 = b.1 ∧ S a.2 b.2) m1 m2) (k : Nat) :
    (sectLookup m1 k = none ∧ sectLookup m2 k = none) ∨
    ∃ x y, sectLookup m1 k = some x ∧ sectLookup m2 k = some y ∧ S x y := by
  induction h with
  | nil => exact Or.inl ⟨rfl, rfl⟩
  | cons hR hrest ih =>
    rename_i a b l1' l2'
    obtain ⟨k1, x⟩ := a
    obtain ⟨k2, y⟩ := b
    obtain ⟨hk, hS⟩ := hR
    simp only at hk
    subst hk
    by_cases hkk : k = k1
    · subst hkk
      exact Or.inr ⟨x, y, by rw [sectLookup, if_pos rfl],
        by rw [sectLookup, if_pos rfl], hS⟩
    · rw [show sectLookup ((k1, x) :: l1') k = sectLookup l1' k from by
          rw [sectLookup, if_neg hkk],
        show sectLookup ((k1, y) :: l2') k = sectLookup l2' k from by
          rw [sectLookup, if_neg hkk]]
      exact ih

/-- Structural congruence for well-formedness: a mesh with identical
vertices, counter and dedup map, and a face map with the same keys and
pointwise faces carrying the same vertex-id lists, inherits `WF`. -/
theorem WF_congr (g g1 : MeshGeometry P N V)
    (hv : g1.vertices = g.vertices) (hn : g1.next_index = g.next_index)
    (hvi : g1.vertex_indices = g.vertex_indices)
    (hf : List.Forall₂ (fun a b : Nat × List (Face N V) => a.1 = b.1 ∧
      List.Forall₂ (fun f' f : Face N V => f'.vertices = f.vertices) a.2 b.2)
      g1.faces g.faces)
    (hwf : WF g) : WF g1 := by
  have hkeys : g1.faces.map Prod.fst = g.faces.map Prod.fst :=
    forall₂_map_fst hf
  obtain ⟨hA, hB⟩ := (inv_iff g).1 hwf.inv
  refine ⟨?_, ?_, ?_, ?_, ?_, ?_, ?_⟩
  · rw [hv, hn]
    exact hwf.next_eq
  · rw [hvi, hn]
    exact hwf.idx_lt
  · rw [hvi]
    exact hwf.keys_nodup
  · rw [hvi, hn]
    exact hwf.idx_len
  · have h2 := List.pairwise_map.2 hwf.sec_sorted
    rw [← hkeys] at h2
    exact List.pairwise_map.1 h2
  · intro kv hkv f hfm
    obtain ⟨b, hb, hkb, hinner⟩ := forall₂_mem_left hf hkv
    obtain ⟨f0, hf0, hfv⟩ := forall₂_mem_left hinner hfm
    have := hwf.faces_wf b hb f0 hf0
    rw [hfv]
    exact this
  · rw [inv_iff]
    constructor
    · intro i v hi s hs
      rw [hv] at hi
      obtain ⟨f, hfat, hmem⟩ := hA i v hi s hs
      rw [faceAt] at hfat
      rcases forall₂_sectLookup hf s.sec with ⟨h1, h2⟩ | ⟨x, y, h1, h2, hS⟩
      · rw [h2] at hfat
        cases hfat
      · rw [h2] at hfat
        rw [show (Option.some y).bind (fun fs => fs[s.index]?) = y[s.index]?
          from rfl] at hfat
        rcases forall₂_getElem? hS s.index with ⟨hx, hy⟩ | ⟨fx, fy, hx, hy, hfv⟩
        · rw [hy] at hfat
          cases hfat
        · have hfyf : fy = f := by
            rw [hy] at hfat
            injection hfat
          refine ⟨fx, ?_, ?_⟩
          · rw [faceAt, h1]
            rw [show (Option.some x).bind (fun fs => fs[s.index]?) = x[s.index]?
              from rfl]
            exact hx
          · rw [hfv, hfyf]
            exact hmem
    · intro kv hkv idx f hfidx vid hvid
      obtain ⟨b, hb, hkb, hinner⟩ := forall₂_mem_left hf hkv
      rcases forall₂_getElem? hinner idx with ⟨hx, hy⟩ | ⟨fx, fy, hx, hy, hfv⟩
      · rw [hfidx] at hx
        cases hx
      · have hfxf : fx = f := by
          rw [hfidx] at hx
          injection hx with h
          exact h.symm
        obtain ⟨v, hvv, hcnt⟩ := hB b hb idx fy hy vid (by
          rw [← hfv, hfxf]
          exact hvid)
        refine ⟨v, ?_, ?_⟩
        · rw [hv]
          exact hvv
        · rw [hkb]
          exact hcnt

/-- `genFaceNormal` succeeds on a 3- or 4-vertex face with in-bounds vertex
ids, keeps the vertex-id list and payload, makes the normal present, and
keeps an already-present normal. -/
theorem genFaceNormal_ok (ops : MeshOps P N V) (vs : List (MeshVertex N V))
    (f : Face N V)
    (hlen : f.vertices.length = 3 ∨ f.vertices.length = 4)
    (hbnd : ∀ vid ∈ f.vertices, vid < vs.length) :
    ∃ f', genFaceNormal ops vs f = .ok f' ∧ f'.vertices = f.vertices ∧
      f'.data = f.data ∧ f'.face_normal.isSome ∧
      (∀ n, f.face_normal = some n → f'.face_normal = some n) := by
  rcases hnm : f.face_normal with - | n0
  · obtain ⟨a, b, c, rest, hfv⟩ : ∃ a b c rest, f.vertices = a :: b :: c :: rest := by
      rcases hv : f.vertices with - | ⟨a, - | ⟨b, - | ⟨c, t⟩⟩⟩ <;>
        first
          | (exact ⟨_, _, _, _, rfl⟩)
          | (exfalso; rw [hv] at hlen; simp at hlen)
    obtain ⟨wa, hwa⟩ : ∃ w, vs[a]? = some w :=
      ⟨_, List.getElem?_eq_getElem (hbnd a (by rw [hfv]; simp))⟩
    obtain ⟨wb, hwb⟩ : ∃ w, vs[b]? = some w :=
      ⟨_, List.getElem?_eq_getElem (hbnd b (by rw [hfv]; simp))⟩
    obtain ⟨wc, hwc⟩ : ∃ w, vs[c]? = some w :=
      ⟨_, List.getElem?_eq_getElem (hbnd c (by rw [hfv]; simp))⟩
    rcases hrest : rest with - | ⟨d, rest2⟩
    · rw [hrest] at hfv
      set nrm : N := ops.face_normal_of (ops.position wa.data)
        (ops.position wb.data) (ops.position wc.data) none with hnrm
      refine ⟨{ f with face_normal := some nrm }, ?_, rfl, rfl, rfl, ?_⟩
      · simp only [genFaceNormal, hnm, hfv, List.getElem?_cons_zero,
          List.getElem?_cons_succ, ok_bind, hwa, hwb, hwc, List.length_cons,
          List.length_nil]
        rw [if_neg (by omega)]
      · intro n hn
        first
          | (exact absurd hn (by simp))
          | (rw [hnm] at hn; cases hn)
    · have hlen4 : rest2 = [] := by
        rw [hfv, hrest] at hlen
        rcases hlen with h | h
        · simp at h
        · simp only [List.length_cons] at h
          exact List.length_eq_zero.1 (by omega)
      subst hlen4
      rw [hrest] at hfv
      obtain ⟨wd, hwd⟩ : ∃ w, vs[d]? = some w :=
        ⟨_, List.getElem?_eq_getElem (hbnd d (by rw [hfv]; simp))⟩
      set nrm : N := ops.face_normal_of (ops.position wa.data)
        (ops.position wb.data) (ops.position wc.data)
        (some (ops.position wd.data)) with hnrm
      refine ⟨{ f with face_normal := some nrm }, ?_, rfl, rfl, rfl, ?_⟩
      · simp only [genFaceNormal, hnm, hfv, List.getElem?_cons_zero,
          List.getElem?_cons_succ, ok_bind, hwa, hwb, hwc, hwd, List.length_cons,
          List.length_nil]
        rw [if_pos (by omega)]
      · intro n hn
        first
          | (exact absurd hn (by simp))
          | (rw [hnm] at hn; cases hn)
  · refine ⟨f, ?_, rfl, rfl, ?_, ?_⟩
    · simp only [genFaceNormal, hnm]
    · simp [hnm]
    · intro n hn
      first
        | exact hn
        | exact hnm.trans hn

/-- `mapM genFaceNormal` over a face list of a well-formed section. -/
theorem mapM_genFaceNormal (ops : MeshOps P N V) (vs : List (MeshVertex N V))
    (fs : List (Face N V))
    (h : ∀ f ∈ fs, (f.vertices.length = 3 ∨ f.vertices.length = 4) ∧
      ∀ vid ∈ f.vertices, vid < vs.length) :
    ∃ fs', fs.mapM (genFaceNormal ops vs) = .ok fs' ∧
      List.Forall₂ (fun f' f : Face N V => f'.vertices = f.vertices ∧
        f'.data = f.data ∧ f'.face_normal.isSome ∧
        (∀ n, f.face_normal = some n → f'.face_normal = some n)) fs' fs := by
  induction fs with
  | nil => exact ⟨[], rfl, List.Forall₂.nil⟩
  | cons f rest ih =>
    obtain ⟨hf1, hf2⟩ := h f (List.mem_cons_self _ _)
    obtain ⟨f', hok, hfv, hfd, hfs, hkeep⟩ := genFaceNormal_ok ops vs f hf1 hf2
    obtain ⟨fs', hok2, hrel⟩ := ih (fun f2 hf2m => h f2 (List.mem_cons_of_mem _ hf2m))
    refine ⟨f' :: fs', ?_, List.Forall₂.cons ⟨hfv, hfd, hfs, hkeep⟩ hrel⟩
    rw [List.mapM_cons, hok, ok_bind, hok2, ok_bind]
    rfl

/-- `generate_face_normals` on a well-formed mesh: it succeeds, preserves
everything but the face normals (same keys, same per-face vertex lists and
payloads, same vertex store), makes every face normal present, and preserves
well-formedness. -/
theorem generate_face_normals_WF (ops : MeshOps P N V) (g : MeshGeometry P N V)
    (hwf : WF g) :
    ∃ g1, g.generate_face_normals ops = .ok g1 ∧ WF g1 ∧
      g1.vertices = g.vertices ∧ g1.next_index = g.next_index ∧
      g1.vertex_indices = g.vertex_indices ∧
      List.Forall₂ (fun a b : Nat × List (Face N V) => a.1 = b.1 ∧
        List.Forall₂ (fun f' f : Face N V => f'.vertices = f.vertices ∧
          f'.data = f.data ∧ f'.face_normal.isSome) a.2 b.2) g1.faces g.faces := by
  obtain ⟨-, hB⟩ := (inv_iff g).1 hwf.inv
  have hall : ∀ kv ∈ g.faces, ∀ f ∈ kv.2,
      (f.vertices.length = 3 ∨ f.vertices.length = 4) ∧
      ∀ vid ∈ f.vertices, vid < g.vertices.length := by
    intro kv hkv f hfm
    refine ⟨(hwf.faces_wf kv hkv f hfm).2, ?_⟩
    intro vid hvid
    obtain ⟨idx, hidx⟩ := List.mem_iff_getElem?.1 hfm
    obtain ⟨v, hvv, -⟩ := hB kv hkv idx f hidx vid hvid
    exact getElem?_some_lt hvv
  have hmap : ∀ m : List (Nat × List (Face N V)),
      (∀ kv ∈ m, ∀ f ∈ kv.2,
        (f.vertices.length = 3 ∨ f.vertices.length = 4) ∧
        ∀ vid ∈ f.vertices, vid < g.vertices.length) →
      ∃ m', m.mapM (fun kv => do
          let fs ← kv.2.mapM (genFaceNormal ops g.vertices)
          .ok (kv.1, fs)) = .ok m' ∧
        List.Forall₂ (fun a b : Nat × List (Face N V) => a.1 = b.1 ∧
          List.Forall₂ (fun f' f : Face N V => f'.vertices = f.vertices ∧
            f'.data = f.data ∧ f'.face_normal.isSome) a.2 b.2) m' m := by
    intro m
    induction m with
    | nil => exact fun _ => ⟨[], rfl, List.Forall₂.nil⟩
    | cons kv rest ih =>
      intro hm
      obtain ⟨fs', hok, hrel⟩ := mapM_genFaceNormal ops g.vertices kv.2
        (hm kv (List.mem_cons_self _ _))
      obtain ⟨m', hok2, hrel2⟩ := ih (fun kv2 h2 f hf =>
        hm kv2 (List.mem_cons_of_mem _ h2) f hf)
      refine ⟨(kv.1, fs') :: m', ?_,
        List.Forall₂.cons ⟨rfl, hrel.imp (fun a b hab => ⟨hab.1, hab.2.1, hab.2.2.1⟩)⟩
          hrel2⟩
      rw [List.mapM_cons, hok, ok_bind, ok_bind, hok2, ok_bind]
      rfl
  obtain ⟨m', hok, hrel⟩ := hmap g.faces hall
  refine ⟨{ g with faces := m' }, ?_, ?_, rfl, rfl, rfl, hrel⟩
  · rw [MeshGeometry.generate_face_normals, hok, ok_bind]
  · exact WF_congr g { g with faces := m' } rfl rfl rfl
      (hrel.imp (fun a b hab =>
        ⟨hab.1, hab.2.imp (fun f' f hf => hf.1)⟩)) hwf

/-- `calculate_vertex_normal` succeeds whenever every referenced face exists
and carries a normal: its two unwrap sites are then unreachable. -/
theorem calculate_vertex_normal_ok (ops : MeshOps P N V) (fs : List (Face N V))
    (idxs : List Nat)
    (h : ∀ i ∈ idxs, ∃ f, fs[i]? = some f ∧ f.face_normal.isSome) :
    ∃ n, calculate_vertex_normal ops fs idxs = .ok n := by
  have h2 : ∃ ns, idxs.mapM (fun face_idx =>
      match fs[face_idx]? with
      | none => (.error "face index out of bounds" : Except String N)
      | some face =>
          match face.face_normal with
          | none => .error "called Option unwrap on a none value"
          | some n => .ok n) = .ok ns := by
    induction idxs with
    | nil => exact ⟨[], rfl⟩
    | cons i rest ih =>
      obtain ⟨f, hf, hsome⟩ := h i (List.mem_cons_self _ _)
      rcases hn : f.face_normal with - | n
      · rw [hn] at hsome
        cases hsome
      · obtain ⟨ns, hns⟩ := ih (fun j hj => h j (List.mem_cons_of_mem _ hj))
        refine ⟨n :: ns, ?_⟩
        rw [List.mapM_cons]
        simp only [hf, hn, ok_bind, hns]
        rfl
  obtain ⟨ns, hns⟩ := h2
  refine ⟨ops.avg_normals ns, ?_⟩
  rw [calculate_vertex_normal, hns, ok_bind]

/-- Generic success-and-length lemma for the record-appending folds of the
emission branches: when every step deterministically appends a fixed chunk of
known length, the whole fold succeeds and appends their concatenation. -/
theorem foldlM_append_spec {α β : Type} (l : List α)
    (st : List β → α → Except String (List β)) (w : α → Nat)
    (hstep : ∀ a ∈ l, ∃ xs : List β, xs.length = w a ∧
      ∀ buf, st buf a = .ok (buf ++ xs)) :
    ∃ xs : List β, xs.length = (l.map w).sum ∧
      ∀ buf, l.foldlM st buf = .ok (buf ++ xs) := by
  induction l with
  | nil =>
    refine ⟨[], rfl, fun buf => ?_⟩
    rw [List.foldlM_nil, List.append_nil]
    rfl
  | cons a rest ih =>
    obtain ⟨xs, hlen, hst⟩ := hstep a (List.mem_cons_self _ _)
    obtain ⟨ys, hlen2, hfold⟩ := ih (fun b hb => hstep b (List.mem_cons_of_mem _ hb))
    refine ⟨xs ++ ys, by simp [hlen, hlen2], fun buf => ?_⟩
    rw [List.foldlM_cons, hst buf, ok_bind, hfold (buf ++ xs), List.append_assoc]

/-- Summing the per-section length relation of `triangulate`. -/
theorem forall₂_sum_length {N V : Type}
    {l1 l2 : List (Nat × List (Face N V))}
    (h : List.Forall₂ (fun a b : Nat × List (Face N V) =>
      a.2.length =
        b.2.length + (b.2.filter (fun f => f.vertices.length = 4)).length) l1 l2) :
    (l1.map (fun kv => kv.2.length)).sum =
      (l2.map (fun kv => kv.2.length)).sum +
      (l2.map (fun kv =>
        (kv.2.filter (fun f => f.vertices.length = 4)).length)).sum := by
  induction h with
  | nil => rfl
  | cons hR hrest ih =>
    simp only [List.map_cons, List.sum_cons, hR, ih]
    omega

/-- Faces with identical vertex-id lists are counted alike by the quad
filter. -/
theorem forall₂_quadfilter_length {N V : Type} {fs1 fs2 : List (Face N V)}
    (h : List.Forall₂ (fun f' f : Face N V => f'.vertices = f.vertices) fs1 fs2) :
    (fs1.filter (fun f => f.vertices.length = 4)).length =
      (fs2.filter (fun f => f.vertices.length = 4)).length := by
  induction h with
  | nil => rfl
  | cons hR hrest ih =>
    simp only [List.filter_cons, hR]
    split
    · simp only [List.length_cons, ih]
    · exact ih

/-- A structure-preserving `Forall₂` (as produced by
`generate_face_normals`) keeps the total face count and the total quad
count. -/
theorem forall₂_counts_eq {N V : Type} {l1 l2 : List (Nat × List (Face N V))}
    (h : List.Forall₂ (fun a b : Nat × List (Face N V) => a.1 = b.1 ∧
      List.Forall₂ (fun f' f : Face N V => f'.vertices = f.vertices) a.2 b.2)
      l1 l2) :
    (l1.map (fun kv => kv.2.length)).sum = (l2.map (fun kv => kv.2.length)).sum ∧
    (l1.map (fun kv =>
        (kv.2.filter (fun f => f.vertices.length = 4)).length)).sum =
      (l2.map (fun kv =>
        (kv.2.filter (fun f => f.vertices.length = 4)).length)).sum := by
  induction h with
  | nil => exact ⟨rfl, rfl⟩
  | cons hR hrest ih =>
    constructor
    · simp only [List.map_cons, List.sum_cons, hR.2.length_eq, ih.1]
    · simp only [List.map_cons, List.sum_cons, forall₂_quadfilter_length hR.2,
        ih.2]

/-- Length of the flat index list of the `NoNormals` branch, one section. -/
theorem flat_verts_length {N V : Type} (fs : List (Face N V))
    (h3 : ∀ f ∈ fs, f.vertices.length = 3) :
    (fs.flatMap (fun face => face.vertices.map (fun v => v % 2 ^ 32))).length =
      3 * fs.length := by
  induction fs with
  | nil => rfl
  | cons f rest ih =>
    simp only [List.flatMap_cons, List.length_append, List.length_map,
      h3 f (List.mem_cons_self _ _),
      ih (fun f2 hf2 => h3 f2 (List.mem_cons_of_mem _ hf2)), List.length_cons]
    omega

/-- Length of the flat index list of the `NoNormals` branch, all sections. -/
theorem noNormals_indices_length {N V : Type}
    (m : List (Nat × List (Face N V)))
    (h3 : ∀ kv ∈ m, ∀ f ∈ kv.2, f.vertices.length = 3) :
    (m.flatMap (fun kv =>
        kv.2.flatMap (fun face => face.vertices.map (fun v => v % 2 ^ 32)))).length =
      3 * (m.map (fun kv => kv.2.length)).sum := by
  induction m with
  | nil => rfl
  | cons kv rest ih =>
    simp only [List.flatMap_cons, List.length_append,
      flat_verts_length kv.2 (h3 kv (List.mem_cons_self _ _)),
      ih (fun kv2 h2 => h3 kv2 (List.mem_cons_of_mem _ h2)), List.map_cons,
      List.sum_cons]
    omega

/-- Summing a constant weight. -/
theorem sum_map_const {α : Type} (l : List α) (w : α → Nat) (c : Nat)
    (h : ∀ a ∈ l, w a = c) : (l.map w).sum = c * l.length := by
  induction l with
  | nil => simp
  | cons a rest ih =>
    rw [List.map_cons, List.sum_cons, h a (List.mem_cons_self _ _),
      ih (fun b hb => h b (List.mem_cons_of_mem _ hb)), List.length_cons,
      Nat.mul_succ]
    omega

/-- Pulling a factor of three out of a sum. -/
theorem sum_map_three {α : Type} (l : List α) (w : α → Nat) :
    (l.map (fun a => 3 * w a)).sum = 3 * (l.map w).sum := by
  induction l with
  | nil => rfl
  | cons a rest ih =>
    simp only [List.map_cons, List.sum_cons, ih, Nat.mul_add]

/-- The mesh after `generate_face_normals` and `triangulate`: both steps
succeed, well-formedness and the vertex count survive, the total face count
is the original total plus the original quad count, and every face has 3
vertices and a present normal. -/
theorem gen_tri_mesh (ops : MeshOps P N V) (g : MeshGeometry P N V)
    (hwf : WF g) :
    ∃ g1 g2, g.generate_face_normals ops = .ok g1 ∧ g1.triangulate = .ok g2 ∧
      WF g2 ∧
      g2.vertices.length = g.vertices.length ∧
      (g2.faces.map (fun kv => kv.2.length)).sum =
        facesTotal g + quadsTotal g ∧
      (∀ kv ∈ g2.faces, ∀ f ∈ kv.2, f.vertices.length = 3) ∧
      (∀ kv ∈ g2.faces, ∀ f ∈ kv.2, f.face_normal.isSome) := by
  obtain ⟨g1, hok1, hwf1, hv1, -, -, hrel1⟩ := generate_face_normals_WF ops g hwf
  have hsome1 : ∀ kv ∈ g1.faces, ∀ f ∈ kv.2, f.face_normal.isSome := by
    intro kv hkv f hf
    obtain ⟨b, -, -, hinner⟩ := forall₂_mem_left hrel1 hkv
    obtain ⟨f0, -, -, -, hs⟩ := forall₂_mem_left hinner hf
    exact hs
  obtain ⟨hc1, hc2⟩ := forall₂_counts_eq (hrel1.imp (fun a b hab =>
    ⟨hab.1, hab.2.imp (fun f' f hf => hf.1)⟩))
  obtain ⟨g2, hok2, hwf2, -, hrel2, hvlen2⟩ := triangulate_WF g1 hwf1
  have hno4 : ∀ kv ∈ g2.faces, ∀ f ∈ kv.2, f.vertices.length ≠ 4 := by
    intro kv hkv f hf
    obtain ⟨b, -, hR⟩ := forall₂_mem_left hrel2 hkv
    exact hR.2.1 f hf
  have h3 : ∀ kv ∈ g2.faces, ∀ f ∈ kv.2, f.vertices.length = 3 := by
    intro kv hkv f hf
    rcases (hwf2.faces_wf kv hkv f hf).2 with h | h
    · exact h
    · exact absurd h (hno4 kv hkv f hf)
  have hsome2 : ∀ kv ∈ g2.faces, ∀ f ∈ kv.2, f.face_normal.isSome := by
    intro kv hkv f hf
    obtain ⟨b, hb, -, -, hnorm⟩ := forall₂_mem_left hrel2 hkv
    obtain ⟨f0, hf0, heq⟩ := hnorm f hf
    rw [heq]
    exact hsome1 b hb f0 hf0
  refine ⟨g1, g2, hok1, hok2, hwf2, by rw [hvlen2, hv1], ?_, h3, hsome2⟩
  have hsum := forall₂_sum_length (hrel2.imp (fun a b hab => hab.1))
  rw [hsum, facesTotal, quadsTotal, hc1, hc2]

/-- The single-quad demo mesh is well-formed. -/
theorem WF_demoQuad : WF demoQuad :=
  ⟨by decide, by decide, by decide, by decide, by decide, by decide, by decide⟩

/-- The single-triangle demo mesh is well-formed. -/
theorem WF_demoTri : WF demoTri :=
  ⟨by decide, by decide, by decide, by decide, by decide, by decide, by decide⟩

end Lemmas2

section Claims

variable {P N V : Type} [DecidableEq P]

/-- C2 (code divergence, evaluated at the failing input): for the mesh built
from the single quad `(0,0,0)-(1,0,0)-(1,1,0)-(0,1,0)` in the default
section, `to_renderable_buffer_by_type(VertexNormals)` returns
`vertex_count = 6` and `index_count = 6` — not the `vertex_count = 4` the
claim states.  The scan of the `VertexNormals` branch pushes one entry per
back-reference of a vertex, not one per `(vertex, section)` pair, and after
triangulation the two shared quad corners each carry two back-references. -/
theorem C2_single_quad_vertex_normals_counts :
    ((MeshGeometry.new (Nat × Nat × Nat) Unit (Nat × Nat × Nat)).add_face4 demoOps
        (0, 0, 0) (1, 0, 0) (1, 1, 0) (0, 1, 0)).bind
      (fun g => (g.to_renderable_buffer_by_type demoOps .VertexNormals).map
        (fun r => (r.2.vertex_count, r.2.index_count))) = .ok (6, 6) := by
  rfl

/-- C3 (counterexample): calling `add_face3` with two payloads whose
positions are bit-identical does not report an error to the caller — it
panics (the `.error` constructor models the process abort of `panic!`; the
Rust function has no error-return channel at all). -/
theorem C3_face3_duplicate_position_aborts :
    (MeshGeometry.new (Nat × Nat × Nat) Unit (Nat × Nat × Nat)).add_face3 demoOps
        (0, 0, 0) (0, 0, 0) (1, 0, 0) =
      .error "Face must have 3 unique vertices" := by
  rfl

/-- C3 (amended): constructing a face with fewer than 3 distinct vertex ids
(two bit-identical positions among the three payloads) makes `add_face3` /
`add_face3_data` panic with "Face must have 3 unique vertices" — a process
abort, not an error value returned to the caller. -/
theorem C3_face3_duplicate_position_panics (ops : MeshOps P N V)
    (g : MeshGeometry P N V) (v1 v2 v3 : V) (d : FaceDataProps N V)
    (h : ops.position v1 = ops.position v2 ∨ ops.position v1 = ops.position v3
       ∨ ops.position v2 = ops.position v3) :
    g.add_face3_data ops v1 v2 v3 d = .error "Face must have 3 unique vertices" ∧
    g.add_face3 ops v1 v2 v3 = .error "Face must have 3 unique vertices" :=
  ⟨add_face3_data_dup_positions ops g v1 v2 v3 d h,
   add_face3_data_dup_positions ops g v1 v2 v3 _ h⟩

/-- C3 (witness for the amended theorem): concrete duplicate-position call. -/
theorem C3_face3_duplicate_position_panics_witness :
    (MeshGeometry.new (Nat × Nat × Nat) Unit (Nat × Nat × Nat)).add_face3_data demoOps
        (0, 0, 0) (0, 0, 0) (2, 0, 0) (FaceDataProps.default Unit (Nat × Nat × Nat)) =
        .error "Face must have 3 unique vertices" ∧
    (MeshGeometry.new (Nat × Nat × Nat) Unit (Nat × Nat × Nat)).add_face3 demoOps
        (0, 0, 0) (0, 0, 0) (2, 0, 0) =
        .error "Face must have 3 unique vertices" :=
  C3_face3_duplicate_position_panics demoOps _ _ _ _ _ (Or.inl rfl)

/-- C9: whenever two of the four payloads given to `add_face4` /
`add_face4_data` have bit-identical positions — including the case where
exactly 3 distinct ids remain — the call panics with "Face must have 4
unique vertices" instead of accepting the face or degrading it to a
triangle. -/
theorem C9_face4_duplicate_position_panics (ops : MeshOps P N V)
    (g : MeshGeometry P N V) (v1 v2 v3 v4 : V) (d : FaceDataProps N V)
    (h : ops.position v1 = ops.position v2 ∨ ops.position v1 = ops.position v3
       ∨ ops.position v1 = ops.position v4 ∨ ops.position v2 = ops.position v3
       ∨ ops.position v2 = ops.position v4 ∨ ops.position v3 = ops.position v4) :
    g.add_face4_data ops v1 v2 v3 v4 d = .error "Face must have 4 unique vertices" ∧
    g.add_face4 ops v1 v2 v3 v4 = .error "Face must have 4 unique vertices" :=
  ⟨add_face4_data_dup_positions ops g v1 v2 v3 v4 d h,
   add_face4_data_dup_positions ops g v1 v2 v3 v4 _ h⟩

/-- C9 (witness): a quad call with exactly 3 distinct positions (`v2 = v4`)
panics — the case the spec's "fewer than 3 unique ids" rule does not cover. -/
theorem C9_face4_duplicate_position_panics_witness :
    (MeshGeometry.new (Nat × Nat × Nat) Unit (Nat × Nat × Nat)).add_face4_data demoOps
        (0, 0, 0) (1, 0, 0) (2, 0, 0) (1, 0, 0)
        (FaceDataProps.default Unit (Nat × Nat × Nat)) =
        .error "Face must have 4 unique vertices" ∧
    (MeshGeometry.new (Nat × Nat × Nat) Unit (Nat × Nat × Nat)).add_face4 demoOps
        (0, 0, 0) (1, 0, 0) (2, 0, 0) (1, 0, 0) =
        .error "Face must have 4 unique vertices" :=
  C9_face4_duplicate_position_panics demoOps _ _ _ _ _ _
    (Or.inr (Or.inr (Or.inr (Or.inr (Or.inl rfl)))))

/-- C1: after any successful sequence of the public operations (`add_face3` /
`add_face3_data` / `add_face4` / `add_face4_data` via `Op.addFace3/4`,
`remove_face`, `triangulate`) starting from the empty mesh, the bidirectional
consistency invariant holds: every back-reference of every vertex resolves to
an existing face listing the vertex's id, and every vertex id of every stored
face carries that face's `SectionIndex` exactly once in its back-reference
list. -/
theorem C1_bidirectional_invariant (ops : MeshOps P N V) (l : List (Op N V))
    (g : MeshGeometry P N V)
    (hrun : runOps ops l (MeshGeometry.new P N V) = .ok g) : Inv g :=
  (runOps_WF ops l WF_new hrun).inv

/-- Witness for C1: a concrete run of a quad add, a triangle add, a
triangulation and a removal, reaching a mesh satisfying the invariant. -/
theorem C1_bidirectional_invariant_witness :
    runOps demoOps demoOpList
        (MeshGeometry.new (Nat × Nat × Nat) Unit (Nat × Nat × Nat)) =
      .ok demoRunMesh ∧
    Inv demoRunMesh :=
  ⟨rfl, C1_bidirectional_invariant demoOps demoOpList demoRunMesh rfl⟩

/-- C4: on a well-formed mesh, `triangulate` succeeds; afterwards every
stored face has exactly 3 vertices (in particular no section contains a
4-vertex face), the section keys are unchanged, per section the face count
grows by exactly the number of original quads (so a mesh of only quads ends
with twice the prior count per section), the vertex count is unchanged, and a
second `triangulate` returns the mesh unchanged. -/
theorem C4_triangulate_effects (g : MeshGeometry P N V) (hwf : WF g) :
    ∃ g', g.triangulate = .ok g' ∧
      (∀ kv ∈ g'.faces, ∀ f ∈ kv.2, f.vertices.length = 3) ∧
      g'.faces.map Prod.fst = g.faces.map Prod.fst ∧
      List.Forall₂ (fun a b : Nat × List (Face N V) =>
        a.2.length =
          b.2.length + (b.2.filter (fun f => f.vertices.length = 4)).length)
        g'.faces g.faces ∧
      ((∀ kv ∈ g.faces, ∀ f ∈ kv.2, f.vertices.length = 4) →
        List.Forall₂ (fun a b : Nat × List (Face N V) =>
          a.2.length = 2 * b.2.length) g'.faces g.faces) ∧
      g'.vertices.length = g.vertices.length ∧
      g'.triangulate = .ok g' := by
  obtain ⟨g', hrun, hwf', hkeys, hrel, hvlen⟩ := triangulate_WF g hwf
  have hno4 : ∀ kv ∈ g'.faces, ∀ f ∈ kv.2, f.vertices.length ≠ 4 := by
    intro kv hkv f hf
    obtain ⟨b, hb, hR⟩ := forall₂_mem_left hrel hkv
    exact hR.2.1 f hf
  have h3 : ∀ kv ∈ g'.faces, ∀ f ∈ kv.2, f.vertices.length = 3 := by
    intro kv hkv f hf
    rcases (hwf'.faces_wf kv hkv f hf).2 with h | h
    · exact h
    · exact absurd h (hno4 kv hkv f hf)
  refine ⟨g', hrun, h3, hkeys, hrel.imp (fun a b hab => hab.1), ?_, hvlen,
    triangulate_no_quads g' hno4⟩
  intro hall
  refine forall₂_imp_mem hrel (fun a b hb hR => ?_)
  have hfull : b.2.filter (fun f => f.vertices.length = 4) = b.2 :=
    List.filter_eq_self.2 (fun f hf => decide_eq_true (hall b hb f hf))
  rw [hR.1, hfull]
  omega

/-- Witness for C4 at the single-quad mesh. -/
theorem C4_triangulate_effects_witness :
    ∃ g', demoQuad.triangulate = .ok g' ∧
      (∀ kv ∈ g'.faces, ∀ f ∈ kv.2, f.vertices.length = 3) ∧
      g'.faces.map Prod.fst = demoQuad.faces.map Prod.fst ∧
      List.Forall₂ (fun a b : Nat × List (Face Unit (Nat × Nat × Nat)) =>
        a.2.length =
          b.2.length + (b.2.filter (fun f => f.vertices.length = 4)).length)
        g'.faces demoQuad.faces ∧
      ((∀ kv ∈ demoQuad.faces, ∀ f ∈ kv.2, f.vertices.length = 4) →
        List.Forall₂ (fun a b : Nat × List (Face Unit (Nat × Nat × Nat)) =>
          a.2.length = 2 * b.2.length) g'.faces demoQuad.faces) ∧
      g'.vertices.length = demoQuad.vertices.length ∧
      g'.triangulate = .ok g' :=
  C4_triangulate_effects demoQuad WF_demoQuad

/-- C5: on a well-formed mesh, removing a valid `SectionIndex` swap-removes
the face from its section's list (`fs'` below), leaves every other section
untouched, keeps every vertex payload and cached normal, leaves every vertex
of neither the removed nor the moved face untouched, and rewrites
back-reference multiset counts exactly as described: the removed face's
vertices lose all copies of the removed `SectionIndex`; when the vacated slot
was not the last, each vertex of the moved face additionally trades one
reference to the old last slot for one reference to the vacated slot. -/
theorem C5_remove_face_spec (g : MeshGeometry P N V) (fi : SectionIndex)
    (cur : List (Face N V)) (hwf : WF g)
    (hlk : sectLookup g.faces fi.sec = some cur) (hi : fi.index < cur.length) :
    ∃ (removed moved : Face N V) (fs' : List (Face N V))
      (v' : List (MeshVertex N V)),
      cur[fi.index]? = some removed ∧ cur[cur.length - 1]? = some moved ∧
      g.remove_face fi =
        .ok { g with faces := setSection g.faces fi.sec fs', vertices := v' } ∧
      fs'.length + 1 = cur.length ∧
      (∀ j, j < cur.length - 1 →
        fs'[j]? = if j = fi.index then cur[cur.length - 1]? else cur[j]?) ∧
      (∀ j, cur.length - 1 ≤ j → fs'[j]? = none) ∧
      (∀ k, k ≠ fi.sec →
        sectLookup (setSection g.faces fi.sec fs') k = sectLookup g.faces k) ∧
      v'.length = g.vertices.length ∧
      (∀ j : Nat, (v'[j]?).map (fun v : MeshVertex N V => v.data) =
        (g.vertices[j]?).map (fun v : MeshVertex N V => v.data)) ∧
      (∀ j : Nat, (v'[j]?).map (fun v : MeshVertex N V => v.vertex_normal) =
        (g.vertices[j]?).map (fun v : MeshVertex N V => v.vertex_normal)) ∧
      (∀ j, j ∉ removed.vertices →
        (fi.index = cur.length - 1 ∨ j ∉ moved.vertices) →
        v'[j]? = g.vertices[j]?) ∧
      (∀ j (v v2 : MeshVertex N V), g.vertices[j]? = some v → v'[j]? = some v2 →
        ∀ s : SectionIndex,
          v2.faces.count s =
            (if fi.index ≠ cur.length - 1 ∧ j ∈ moved.vertices then
              (if s = fi ∧ j ∈ removed.vertices then 0 else v.faces.count s)
                - (if ({ sec := fi.sec, index := cur.length - 1 } : SectionIndex)
                    = s then 1 else 0)
                + (if fi = s then 1 else 0)
            else
              (if s = fi ∧ j ∈ removed.vertices then 0
                else v.faces.count s))) := by
  obtain ⟨removed, moved, fs', v', hrm, hmv, hrun, hwf', hfslen, hfsget, hfsnone,
      hv1len, hdata, hnorm, huntouched, hcount⟩ :=
    remove_face_internal_WF g fi.sec fi.index cur hwf hlk hi
  have hfi : ({ sec := fi.sec, index := fi.index } : SectionIndex) = fi := rfl
  rw [hfi] at hrun
  refine ⟨removed, moved, fs', v', hrm, hmv, ?_, hfslen, ?_, hfsnone, ?_,
    hv1len, hdata, hnorm, huntouched, ?_⟩
  · rw [MeshGeometry.remove_face]
    simp only [hlk, hrun, ok_bind]
  · intro j hj
    rw [hfsget j hj]
  · intro k hk
    exact sectLookup_setSection_ne g.faces fi.sec k fs' hk
  · intro j v v2 hv hv2 s
    have := hcount j v v2 hv hv2 s
    rw [this]

/-- Witness for C5: removing the only face of the single-quad mesh. -/
theorem C5_remove_face_spec_witness :
    ∃ (removed moved : Face Unit (Nat × Nat × Nat))
      (fs' : List (Face Unit (Nat × Nat × Nat)))
      (v' : List (MeshVertex Unit (Nat × Nat × Nat))),
      ([{ vertices := [0, 1, 2, 3], face_normal := none, data := none }] :
          List (Face Unit (Nat × Nat × Nat)))[(0 : Nat)]? = some removed ∧
      ([{ vertices := [0, 1, 2, 3], face_normal := none, data := none }] :
          List (Face Unit (Nat × Nat × Nat)))[(0 : Nat)]? = some moved ∧
      demoQuad.remove_face { sec := 0, index := 0 } =
        .ok { demoQuad with
          faces := setSection demoQuad.faces 0 fs', vertices := v' } ∧
      fs'.length + 1 = 1 ∧
      (∀ j, j < 0 → fs'[j]? =
        if j = 0 then
          ([{ vertices := [0, 1, 2, 3], face_normal := none, data := none }] :
            List (Face Unit (Nat × Nat × Nat)))[(0 : Nat)]?
        else
          ([{ vertices := [0, 1, 2, 3], face_normal := none, data := none }] :
            List (Face Unit (Nat × Nat × Nat)))[j]?) ∧
      (∀ j, 0 ≤ j → fs'[j]? = none) ∧
      (∀ k, k ≠ 0 →
        sectLookup (setSection demoQuad.faces 0 fs') k =
          sectLookup demoQuad.faces k) ∧
      v'.length = demoQuad.vertices.length ∧
      (∀ j : Nat, (v'[j]?).map (fun v : MeshVertex Unit (Nat × Nat × Nat) => v.data) =
        (demoQuad.vertices[j]?).map
          (fun v : MeshVertex Unit (Nat × Nat × Nat) => v.data)) ∧
      (∀ j : Nat,
        (v'[j]?).map (fun v : MeshVertex Unit (Nat × Nat × Nat) => v.vertex_normal) =
        (demoQuad.vertices[j]?).map
          (fun v : MeshVertex Unit (Nat × Nat × Nat) => v.vertex_normal)) ∧
      (∀ j, j ∉ removed.vertices → ((0 : Nat) = 0 ∨ j ∉ moved.vertices) →
        v'[j]? = demoQuad.vertices[j]?) ∧
      (∀ j (v v2 : MeshVertex Unit (Nat × Nat × Nat)),
        demoQuad.vertices[j]? = some v → v'[j]? = some v2 →
        ∀ s : SectionIndex,
          v2.faces.count s =
            (if (0 : Nat) ≠ 0 ∧ j ∈ moved.vertices then
              (if s = { sec := 0, index := 0 } ∧ j ∈ removed.vertices then 0
                else v.faces.count s)
                - (if ({ sec := 0, index := 0 } : SectionIndex) = s then 1 else 0)
                + (if ({ sec := 0, index := 0 } : SectionIndex) = s then 1 else 0)
            else
              (if s = { sec := 0, index := 0 } ∧ j ∈ removed.vertices then 0
                else v.faces.count s))) :=
  C5_remove_face_spec demoQuad { sec := 0, index := 0 }
    [{ vertices := [0, 1, 2, 3], face_normal := none, data := none }]
    WF_demoQuad (by decide) (by decide)

/-- C8: position dedup with last-write-wins payload.  (a) Resolving a
position already in the dedup map returns the stored id and leaves the mesh
unchanged; (b) an unseen position is assigned the next sequential id and
recorded; (c) a binding, once present, survives any successful run of public
operations unchanged; (d) a successful `add_face3_data` call and (e) a
successful `add_face4_data` call each overwrite the payload of every vertex
they resolved with the payload supplied by that call (last write wins), which
covers all four `add_face*` entry points since `add_face3`/`add_face4` are
these with default props. -/
theorem C8_dedup_last_write (ops : MeshOps P N V) (g : MeshGeometry P N V)
    (p : P) :
    (∀ i : Nat, posLookup g.vertex_indices p = some i →
      g.get_vertex_index p = (i, g)) ∧
    (posLookup g.vertex_indices p = none →
      g.get_vertex_index p =
        (g.next_index,
         { g with vertex_indices := (p, g.next_index) :: g.vertex_indices,
                  next_index := g.next_index + 1 })) ∧
    (∀ (l : List (Op N V)) (i : Nat) (g' : MeshGeometry P N V),
      posLookup g.vertex_indices p = some i → runOps ops l g = .ok g' →
      posLookup g'.vertex_indices p = some i) ∧
    (∀ (v1 v2 v3 : V) (d : FaceDataProps N V) (g' : MeshGeometry P N V),
      WF g → g.add_face3_data ops v1 v2 v3 d = .ok g' →
      ∀ pr ∈ (resolveAll ops g [v1, v2, v3]).1.zip [v1, v2, v3],
        (g'.vertices[pr.1]?).map (fun w : MeshVertex N V => w.data) =
          some pr.2) ∧
    (∀ (v1 v2 v3 v4 : V) (d : FaceDataProps N V) (g' : MeshGeometry P N V),
      WF g → g.add_face4_data ops v1 v2 v3 v4 d = .ok g' →
      ∀ pr ∈ (resolveAll ops g [v1, v2, v3, v4]).1.zip [v1, v2, v3, v4],
        (g'.vertices[pr.1]?).map (fun w : MeshVertex N V => w.data) =
          some pr.2) := by
  refine ⟨fun i h => get_vertex_index_hit g p i h, ?_, ?_, ?_, ?_⟩
  · intro h
    rw [MeshGeometry.get_vertex_index, h]
  · intro l i g' hp hok
    exact runOps_binding ops l p i hp hok
  · intro v1 v2 v3 d g' hwf hok pr hpr
    rw [add_face3_data_eq_addFaceN] at hok
    rcases hr : resolveAll ops g [v1, v2, v3] with ⟨ids, g1⟩
    obtain ⟨-, -, -, -, -, -, hsome, hnone⟩ :=
      addFaceN_ok_spec ops hr hwf.next_eq hwf.idx_lt hwf.keys_nodup hwf.idx_len hok
    rw [hr] at hpr
    rcases hv : g.vertices[pr.1]? with - | w
    · rw [hnone pr hpr hv]
      rfl
    · rw [hsome pr hpr w hv]
      rfl
  · intro v1 v2 v3 v4 d g' hwf hok pr hpr
    rw [add_face4_data_eq_addFaceN] at hok
    rcases hr : resolveAll ops g [v1, v2, v3, v4] with ⟨ids, g1⟩
    obtain ⟨-, -, -, -, -, -, hsome, hnone⟩ :=
      addFaceN_ok_spec ops hr hwf.next_eq hwf.idx_lt hwf.keys_nodup hwf.idx_len hok
    rw [hr] at hpr
    rcases hv : g.vertices[pr.1]? with - | w
    · rw [hnone pr hpr hv]
      rfl
    · rw [hsome pr hpr w hv]
      rfl

/-- Witness for C8 at the single-triangle mesh: a seen position keeps its id
and state, an unseen one gets the next id, the binding survives a
`triangulate`, and a later call referencing position `(0,0,0)` overwrites the
resolved vertices' payloads. -/
theorem C8_dedup_last_write_witness :
    demoTri.get_vertex_index (1, 0, 0) = (1, demoTri) ∧
    demoTri.get_vertex_index (7, 7, 7) =
      (3, { demoTri with
              vertex_indices := ((7, 7, 7), 3) :: demoTri.vertex_indices,
              next_index := 4 }) ∧
    posLookup demoTri.vertex_indices (1, 0, 0) = some 1 ∧
    (((demoTri.add_face3_data demoOps (0, 0, 0) (9, 9, 9) (8, 8, 8)
        (FaceDataProps.default Unit (Nat × Nat × Nat))).toOption.getD
        (MeshGeometry.new (Nat × Nat × Nat) Unit
          (Nat × Nat × Nat))).vertices[(3 : Nat)]?).map
      (fun w : MeshVertex Unit (Nat × Nat × Nat) => w.data) = some (9, 9, 9) ∧
    (((demoTri.add_face4_data demoOps (0, 0, 0) (9, 9, 9) (8, 8, 8) (7, 7, 7)
        (FaceDataProps.default Unit (Nat × Nat × Nat))).toOption.getD
        (MeshGeometry.new (Nat × Nat × Nat) Unit
          (Nat × Nat × Nat))).vertices[(5 : Nat)]?).map
      (fun w : MeshVertex Unit (Nat × Nat × Nat) => w.data) = some (7, 7, 7) :=
  ⟨(C8_dedup_last_write demoOps demoTri (1, 0, 0)).1 1 (by rfl),
   (C8_dedup_last_write demoOps demoTri (7, 7, 7)).2.1 (by rfl),
   (C8_dedup_last_write demoOps demoTri (1, 0, 0)).2.2.1 [Op.triangulateOp] 1
     demoTri (by rfl) (by rfl),
   (C8_dedup_last_write demoOps demoTri (0, 0, 0)).2.2.2.1 (0, 0, 0) (9, 9, 9)
     (8, 8, 8) (FaceDataProps.default Unit (Nat × Nat × Nat)) _ WF_demoTri
     (by rfl) (3, (9, 9, 9)) (by decide),
   (C8_dedup_last_write demoOps demoTri (0, 0, 0)).2.2.2.2 (0, 0, 0) (9, 9, 9)
     (8, 8, 8) (7, 7, 7) (FaceDataProps.default Unit (Nat × Nat × Nat)) _
     WF_demoTri (by rfl) (5, (7, 7, 7)) (by decide)⟩

/-- C7 (amended): for any successful sequence of `add_face3`/`add_face4`
calls from the empty mesh, the stored vertex count is at most `3×` the
triangle-equivalent face count, and equality holds exactly when no call is an
`add_face4` **and** no two input payload positions are bit-identical.  (The
claim's original equality condition — distinct positions alone — is refuted
by `C7_quad_breaks_equality`.) -/
theorem C7_vertex_bound (ops : MeshOps P N V) (cs : List (FaceCall V))
    (g : MeshGeometry P N V)
    (hok : runCalls ops cs (MeshGeometry.new P N V) = .ok g) :
    g.vertices.length ≤ 3 * trisTotal cs ∧
    (g.vertices.length = 3 * trisTotal cs ↔
      (∀ c ∈ cs, c.isQuad = false) ∧ (callPositions ops cs).Nodup) := by
  have hwf : WF g := runCalls_WF ops cs WF_new hok
  have hlen : g.vertices.length = g.next_index := hwf.next_eq.symm
  have hcard : g.next_index = (callPositions ops cs).toFinset.card := by
    have := runCalls_card ops cs ([] : List P)
      (fun q => by simp [posLookup, MeshGeometry.new]) (by rfl) hok
    simpa using this
  obtain ⟨hle, hiff⟩ := callPositions_length ops cs
  have hcle : (callPositions ops cs).toFinset.card ≤
      (callPositions ops cs).length := List.toFinset_card_le _
  constructor
  · omega
  · rw [hlen, hcard]
    constructor
    · intro h
      have h1 : (callPositions ops cs).length = 3 * trisTotal cs := by omega
      have h2 : (callPositions ops cs).toFinset.card =
          (callPositions ops cs).length := by omega
      exact ⟨hiff.1 h1, (toFinset_card_eq_iff_nodup _).1 h2⟩
    · rintro ⟨hq, hnd⟩
      rw [(toFinset_card_eq_iff_nodup _).2 hnd, hiff.2 hq]

/-- Counterexample to C7 as stated: a single `add_face4` with four pairwise
distinct positions succeeds, yet stores 4 vertices while the
triangle-equivalent count is 2, so `4 ≠ 3 × 2` even though no two input
positions are bit-identical. -/
theorem C7_quad_breaks_equality :
    runCalls demoOps [FaceCall.f4 (0, 0, 0) (1, 0, 0) (1, 1, 0) (0, 1, 0)]
        (MeshGeometry.new (Nat × Nat × Nat) Unit (Nat × Nat × Nat)) =
      .ok demoQuad ∧
    (callPositions demoOps
      [FaceCall.f4 (0, 0, 0) (1, 0, 0) (1, 1, 0) (0, 1, 0)]).Nodup ∧
    demoQuad.vertices.length = 4 ∧
    3 * trisTotal [FaceCall.f4 (0, 0, 0) (1, 0, 0) (1, 1, 0) (0, 1, 0)] = 6 :=
  ⟨rfl, by decide, rfl, rfl⟩

/-- Witness for C7 at the single-triangle call list, where equality holds. -/
theorem C7_vertex_bound_witness :
    demoTri.vertices.length ≤ 3 * trisTotal demoCallsTri ∧
    (demoTri.vertices.length = 3 * trisTotal demoCallsTri ↔
      (∀ c ∈ demoCallsTri, c.isQuad = false) ∧
      (callPositions demoOps demoCallsTri).Nodup) :=
  C7_vertex_bound demoOps demoCallsTri demoTri (by rfl)

/-- C10: on a well-formed mesh, the `generate_face_normals` pass succeeds and
leaves every face with a present normal; the subsequent `triangulate`
succeeds and the triangles it creates inherit their quad's already-set
normal, so every face normal is still present; and
`calculate_vertex_normal`'s unwraps are unreachable whenever the referenced
faces exist with present normals — together, the `face_normal.unwrap()` calls
of the three normal-emitting buffer modes only ever see `Some`. -/
theorem C10_face_normal_unwrap_safe (ops : MeshOps P N V)
    (g : MeshGeometry P N V) (hwf : WF g) :
    ∃ g1 g2, g.generate_face_normals ops = .ok g1 ∧
      (∀ kv ∈ g1.faces, ∀ f ∈ kv.2, f.face_normal.isSome) ∧
      g1.triangulate = .ok g2 ∧
      (∀ kv ∈ g2.faces, ∀ f ∈ kv.2, f.face_normal.isSome) ∧
      (∀ (fs : List (Face N V)) (idxs : List Nat),
        (∀ i ∈ idxs, ∃ f, fs[i]? = some f ∧ f.face_normal.isSome) →
        ∃ n, calculate_vertex_normal ops fs idxs = .ok n) := by
  obtain ⟨g1, hok1, hwf1, -, -, -, hrel1⟩ := generate_face_normals_WF ops g hwf
  have hsome1 : ∀ kv ∈ g1.faces, ∀ f ∈ kv.2, f.face_normal.isSome := by
    intro kv hkv f hf
    obtain ⟨b, -, -, hinner⟩ := forall₂_mem_left hrel1 hkv
    obtain ⟨f0, -, -, -, hs⟩ := forall₂_mem_left hinner hf
    exact hs
  obtain ⟨g2, hok2, -, -, hrel2, -⟩ := triangulate_WF g1 hwf1
  have hsome2 : ∀ kv ∈ g2.faces, ∀ f ∈ kv.2, f.face_normal.isSome := by
    intro kv hkv f hf
    obtain ⟨b, hb, -, -, hnorm⟩ := forall₂_mem_left hrel2 hkv
    obtain ⟨f0, hf0, heq⟩ := hnorm f hf
    rw [heq]
    exact hsome1 b hb f0 hf0
  exact ⟨g1, g2, hok1, hsome1, hok2, hsome2,
    fun fs idxs h => calculate_vertex_normal_ok ops fs idxs h⟩

/-- Witness for C10 at the single-quad mesh (a quad with no explicit normal,
so the `generate_face_normals` pass and the inheritance by both triangles are
both exercised). -/
theorem C10_face_normal_unwrap_safe_witness :
    ∃ g1 g2,
      demoQuad.generate_face_normals demoOps = .ok g1 ∧
      (∀ kv ∈ g1.faces, ∀ f ∈ kv.2, f.face_normal.isSome) ∧
      g1.triangulate = .ok g2 ∧
      (∀ kv ∈ g2.faces, ∀ f ∈ kv.2, f.face_normal.isSome) ∧
      (∀ (fs : List (Face Unit (Nat × Nat × Nat))) (idxs : List Nat),
        (∀ i ∈ idxs, ∃ f, fs[i]? = some f ∧ f.face_normal.isSome) →
        ∃ n, calculate_vertex_normal demoOps fs idxs = .ok n) :=
  C10_face_normal_unwrap_safe demoOps demoQuad WF_demoQuad

/-- C6: for a well-formed mesh with `N = g.vertices.length` unique vertices
that triangulates to `T = facesTotal g + quadsTotal g` triangles (each
original quad contributing two), emission succeeds in all three listed modes
and: `NoNormals` yields `vertex_count = N` and `index_count = 3T` (one record
per unique vertex, a global index buffer), while `FaceNormals` and
`VertexNormalFaceData` yield `vertex_count = 3T`, `index_count = 0` and no
index buffer (one record per face-vertex occurrence). -/
theorem C6_emission_counts (ops : MeshOps P N V) (g : MeshGeometry P N V)
    (hwf : WF g)
    (hsize : 3 * (facesTotal g + quadsTotal g) < 2 ^ 32) :
    (∃ gn bn, g.to_renderable_buffer_by_type ops .NoNormals = .ok (gn, bn) ∧
      bn.vertex_count = g.vertices.length ∧
      bn.index_count = 3 * (facesTotal g + quadsTotal g)) ∧
    (∃ gf bf, g.to_renderable_buffer_by_type ops .FaceNormals = .ok (gf, bf) ∧
      bf.vertex_count = 3 * (facesTotal g + quadsTotal g) ∧
      bf.index_count = 0 ∧ bf.index_buffer = none) ∧
    (∃ gv bv, g.to_renderable_buffer_by_type ops .VertexNormalFaceData =
        .ok (gv, bv) ∧
      bv.vertex_count = 3 * (facesTotal g + quadsTotal g) ∧
      bv.index_count = 0 ∧ bv.index_buffer = none) := by
  obtain ⟨g1, g2, hok1, hok2, hwf2, hvlen, hsum, h3, hsome⟩ := gen_tri_mesh ops g hwf
  obtain ⟨hA2, hB2⟩ := (inv_iff g2).1 hwf2.inv
  have hbnd : ∀ kv ∈ g2.faces, ∀ f ∈ kv.2, ∀ vid ∈ f.vertices,
      ∃ w, g2.vertices[vid]? = some w := by
    intro kv hkv f hf vid hvid
    obtain ⟨idx, hidx⟩ := List.mem_iff_getElem?.1 hf
    obtain ⟨w, hw, -⟩ := hB2 kv hkv idx f hidx vid hvid
    exact ⟨w, hw⟩
  refine ⟨?_, ?_, ?_⟩
  · -- NoNormals
    obtain ⟨g2n, hoktn, hwf2n, -, hrel2n, hvlen2n⟩ := triangulate_WF g hwf
    have hno4n : ∀ kv ∈ g2n.faces, ∀ f ∈ kv.2, f.vertices.length ≠ 4 := by
      intro kv hkv f hf
      obtain ⟨b, -, hR⟩ := forall₂_mem_left hrel2n hkv
      exact hR.2.1 f hf
    have h3n : ∀ kv ∈ g2n.faces, ∀ f ∈ kv.2, f.vertices.length = 3 := by
      intro kv hkv f hf
      rcases (hwf2n.faces_wf kv hkv f hf).2 with h | h
      · exact h
      · exact absurd h (hno4n kv hkv f hf)
    have hsumn : (g2n.faces.map (fun kv => kv.2.length)).sum =
        facesTotal g + quadsTotal g := by
      have := forall₂_sum_length (hrel2n.imp (fun a b hab => hab.1))
      rw [this, facesTotal, quadsTotal]
    have hNN : g.to_renderable_buffer_by_type ops .NoNormals =
        .ok (g2n, mkBuffer
          (g2n.vertices.map (fun vertex => (vertex.data, none)))
          (g2n.faces.flatMap (fun kv =>
            kv.2.flatMap (fun face =>
              face.vertices.map (fun v => v % 2 ^ 32))))) := by
      simp only [MeshGeometry.to_renderable_buffer_by_type]
      rw [hoktn, ok_bind]
    refine ⟨g2n, _, hNN, ?_, ?_⟩
    · show (g2n.vertices.map (fun vertex => (vertex.data, (none : Option N)))).length =
        g.vertices.length
      rw [List.length_map, hvlen2n]
    · show ((g2n.faces.flatMap (fun kv =>
          kv.2.flatMap (fun face =>
            face.vertices.map (fun v => v % 2 ^ 32)))).length * 4 / 4) % 2 ^ 32 =
        3 * (facesTotal g + quadsTotal g)
      rw [noNormals_indices_length g2n.faces h3n, hsumn,
        Nat.mul_div_cancel _ (by norm_num : (0 : Nat) < 4), Nat.mod_eq_of_lt hsize]
  · -- FaceNormals
    have hstepFN : ∀ kv ∈ g2.faces, ∃ xs : List (V × Option N),
        xs.length = 3 * kv.2.length ∧
        ∀ buf, (kv.2.foldlM (fun buf face => do
            let normal ← match face.face_normal with
                         | none =>
                            (.error "called Option unwrap on a none value" :
                              Except String N)
                         | some n => .ok n
            face.vertices.foldlM (fun (buf : List (V × Option N)) (v : Nat) =>
              (match g2.vertices[v]? with
               | none => .error "vertex index out of bounds"
               | some vertex =>
                   let data := match face.data with
                               | some d => ops.override_with vertex.data d
                               | none => vertex.data
                   .ok (buf ++ [(data, some normal)]) :
                Except String (List (V × Option N)))) buf) buf) = .ok (buf ++ xs) := by
      intro kv hkv
      have hface : ∀ face ∈ kv.2, ∃ xs : List (V × Option N),
          xs.length = face.vertices.length ∧
          ∀ buf, (do
            let normal ← match face.face_normal with
                         | none =>
                            (.error "called Option unwrap on a none value" :
                              Except String N)
                         | some n => .ok n
            face.vertices.foldlM (fun (buf : List (V × Option N)) (v : Nat) =>
              (match g2.vertices[v]? with
               | none => .error "vertex index out of bounds"
               | some vertex =>
                   let data := match face.data with
                               | some d => ops.override_with vertex.data d
                               | none => vertex.data
                   .ok (buf ++ [(data, some normal)]) :
                Except String (List (V × Option N)))) buf) = .ok (buf ++ xs) := by
        intro face hfm
        obtain ⟨n, hn⟩ := Option.isSome_iff_exists.1 (hsome kv hkv face hfm)
        have hv : ∀ v ∈ face.vertices, ∃ xs : List (V × Option N),
            xs.length = 1 ∧
            ∀ buf, (match g2.vertices[v]? with
              | none =>
                  (.error "vertex index out of bounds" :
                    Except String (List (V × Option N)))
              | some vertex =>
                  let data := match face.data with
                              | some d => ops.override_with vertex.data d
                              | none => vertex.data
                  .ok (buf ++ [(data, some n)])) = .ok (buf ++ xs) := by
          intro v hvm
          obtain ⟨w, hw⟩ := hbnd kv hkv face hfm v hvm
          refine ⟨[(match face.data with
                    | some d => ops.override_with w.data d
                    | none => w.data, some n)], rfl, fun buf => ?_⟩
          rw [hw]
        obtain ⟨xs, hxlen, hxfold⟩ :=
          foldlM_append_spec face.vertices _ (fun _ => 1) hv
        refine ⟨xs, ?_, fun buf => ?_⟩
        · rw [hxlen, sum_map_const face.vertices _ 1 (fun _ _ => rfl), Nat.one_mul]
        · simp only [hn, ok_bind]
          exact hxfold buf
      obtain ⟨ys, hylen, hyfold⟩ :=
        foldlM_append_spec kv.2 _ (fun face => face.vertices.length) hface
      refine ⟨ys, ?_, hyfold⟩
      rw [hylen, sum_map_const kv.2 _ 3 (fun f hf => h3 kv hkv f hf)]
    obtain ⟨bs, hblen, hbfold⟩ :=
      foldlM_append_spec g2.faces _ (fun kv => 3 * kv.2.length) hstepFN
    have hFN : g.to_renderable_buffer_by_type ops .FaceNormals =
        .ok (g2, mkBuffer ([] ++ bs) []) := by
      simp only [MeshGeometry.to_renderable_buffer_by_type]
      rw [hok1, ok_bind, hok2, ok_bind, hbfold [], ok_bind]
    refine ⟨g2, _, hFN, ?_, rfl, rfl⟩
    · show (([] : List (V × Option N)) ++ bs).length =
        3 * (facesTotal g + quadsTotal g)
      rw [List.nil_append, hblen, sum_map_three, hsum]
  · -- VertexNormalFaceData
    have hstepVN : ∀ kv ∈ g2.faces, ∃ xs : List (V × Option N),
        xs.length = 3 * kv.2.length ∧
        ∀ buf, (kv.2.foldlM (fun buf face =>
            face.vertices.foldlM (fun (buf : List (V × Option N)) (v : Nat) =>
              (match g2.vertices[v]? with
               | none => .error "vertex index out of bounds"
               | some vertex => do
                   let normal ←
                     calculate_vertex_normal ops kv.2 (vertex.section_faces kv.1)
                   let data := match face.data with
                               | some d => ops.override_with vertex.data d
                               | none => vertex.data
                   .ok (buf ++ [(data, some normal)]) :
                Except String (List (V × Option N)))) buf) buf) = .ok (buf ++ xs) := by
      intro kv hkv
      have hlkv : sectLookup g2.faces kv.1 = some kv.2 :=
        sectLookup_of_mem (sorted_keys_nodup hwf2.sec_sorted) hkv
      have hface : ∀ face ∈ kv.2, ∃ xs : List (V × Option N),
          xs.length = face.vertices.length ∧
          ∀ buf, (face.vertices.foldlM (fun (buf : List (V × Option N)) (v : Nat) =>
              (match g2.vertices[v]? with
               | none => .error "vertex index out of bounds"
               | some vertex => do
                   let normal ←
                     calculate_vertex_normal ops kv.2 (vertex.section_faces kv.1)
                   let data := match face.data with
                               | some d => ops.override_with vertex.data d
                               | none => vertex.data
                   .ok (buf ++ [(data, some normal)]) :
                Except String (List (V × Option N)))) buf) = .ok (buf ++ xs) := by
        intro face hfm
        have hv : ∀ v ∈ face.vertices, ∃ xs : List (V × Option N),
            xs.length = 1 ∧
            ∀ buf, (match g2.vertices[v]? with
              | none =>
                  (.error "vertex index out of bounds" :
                    Except String (List (V × Option N)))
              | some vertex => do
                  let normal ←
                    calculate_vertex_normal ops kv.2 (vertex.section_faces kv.1)
                  let data := match face.data with
                              | some d => ops.override_with vertex.data d
                              | none => vertex.data
                  .ok (buf ++ [(data, some normal)])) = .ok (buf ++ xs) := by
          intro v hvm
          obtain ⟨w, hw⟩ := hbnd kv hkv face hfm v hvm
          have hcvn : ∀ i ∈ w.section_faces kv.1,
              ∃ f2, kv.2[i]? = some f2 ∧ f2.face_normal.isSome := by
            intro i hi
            rw [MeshVertex.section_faces] at hi
            obtain ⟨si, hsif, hsii⟩ := List.mem_map.1 hi
            rw [List.mem_filter] at hsif
            obtain ⟨hsifm, hsec⟩ := hsif
            have hsec' : si.sec = kv.1 := of_decide_eq_true hsec
            obtain ⟨f2, hfat, -⟩ := hA2 v w hw si hsifm
            rw [faceAt, hsec', hlkv] at hfat
            rw [show (Option.some kv.2).bind (fun fs => fs[si.index]?) =
              kv.2[si.index]? from rfl] at hfat
            rw [← hsii]
            exact ⟨f2, hfat,
              hsome kv hkv f2 (List.mem_iff_getElem?.2 ⟨_, hfat⟩)⟩
          obtain ⟨nv, hnv⟩ :=
            calculate_vertex_normal_ok ops kv.2 (w.section_faces kv.1) hcvn
          refine ⟨[(match face.data with
                    | some d => ops.override_with w.data d
                    | none => w.data, some nv)], rfl, fun buf => ?_⟩
          rw [hw]
          simp only [hnv, ok_bind]
        obtain ⟨xs, hxlen, hxfold⟩ :=
          foldlM_append_spec face.vertices _ (fun _ => 1) hv
        refine ⟨xs, ?_, hxfold⟩
        rw [hxlen, sum_map_const face.vertices _ 1 (fun _ _ => rfl), Nat.one_mul]
      obtain ⟨ys, hylen, hyfold⟩ :=
        foldlM_append_spec kv.2 _ (fun face => face.vertices.length) hface
      refine ⟨ys, ?_, hyfold⟩
      rw [hylen, sum_map_const kv.2 _ 3 (fun f hf => h3 kv hkv f hf)]
    obtain ⟨bs, hblen, hbfold⟩ :=
      foldlM_append_spec g2.faces _ (fun kv => 3 * kv.2.length) hstepVN
    have hVN : g.to_renderable_buffer_by_type ops .VertexNormalFaceData =
        .ok (g2, mkBuffer ([] ++ bs) []) := by
      simp only [MeshGeometry.to_renderable_buffer_by_type]
      rw [hok1, ok_bind, hok2, ok_bind, hbfold [], ok_bind]
    refine ⟨g2, _, hVN, ?_, rfl, rfl⟩
    · show (([] : List (V × Option N)) ++ bs).length =
        3 * (facesTotal g + quadsTotal g)
      rw [List.nil_append, hblen, sum_map_three, hsum]

/-- Witness for C6 at the single-quad mesh: `N = 4`, `T = 2`. -/
theorem C6_emission_counts_witness :
    (∃ gn bn, demoQuad.to_renderable_buffer_by_type demoOps .NoNormals =
        .ok (gn, bn) ∧
      bn.vertex_count = demoQuad.vertices.length ∧
      bn.index_count = 3 * (facesTotal demoQuad + quadsTotal demoQuad)) ∧
    (∃ gf bf, demoQuad.to_renderable_buffer_by_type demoOps .FaceNormals =
        .ok (gf, bf) ∧
      bf.vertex_count = 3 * (facesTotal demoQuad + quadsTotal demoQuad) ∧
      bf.index_count = 0 ∧ bf.index_buffer = none) ∧
    (∃ gv bv,
      demoQuad.to_renderable_buffer_by_type demoOps .VertexNormalFaceData =
        .ok (gv, bv) ∧
      bv.vertex_count = 3 * (facesTotal demoQuad + quadsTotal demoQuad) ∧
      bv.index_count = 0 ∧ bv.index_buffer = none) :=
  C6_emission_counts demoOps demoQuad WF_demoQuad (by decide)

end Claims

end MeshGeo3D
